import Mathlib

/-!
# URTorrent: a verification development

A shallow embedding of the peer wire protocol code of the `urtorrent` client
(`metainfo.cc`, `types.cc`, `core.cc`, `receiver.cc`, `sender.cc`,
`tracker_agent.cc`) together with theorems about it.

Conventions of the embedding.

* A byte (`char`, `unsigned char`) is a natural number below 256; a buffer or a
  `std::string` is a `List Nat` of bytes.
* `uint32_t` values are natural numbers, reduced `% 2 ^ 32` where the C++ code
  can wrap; `long long` and `int` values are integers.
* The host is little-endian: `htonl` swaps the four bytes of a word and a
  `memcpy` of a word stores its least significant byte first.
* `error_handle` ends the process: functions that call it return `Except`.
* `pthread` lock calls are taken to succeed; the outcome of a socket `read` is an
  argument of the function that performs it.
* The receiver registry `rmap_` is the list of its receivers in iteration order and a
  receiver is addressed by its position. What a receiver does to the outside is a list
  of events; a socket `write` is taken to succeed, except in `send_uninterested`, where
  its outcome is an argument. The results of `SHA1` and `rand()` are arguments.
* A `peer*` is the position of its receiver or sender in the registry. Undefined
  behaviour of the scheduler (a vector read past its end, a remainder by zero, an
  iterator incremented after its element was erased) is an `Except` error; an `int`
  that can overflow is wrapped in two's complement.
-/

namespace URTorrent

/-! ## Constants of `types.h`, `core.h` and `metainfo.cc` -/

/-- Length prefix of a keep-alive message (`types.h`). -/
def KEEP_ALIVE : Nat := 0
/-- Request identifier of a choke message (`types.h`). -/
def CHOKE : Nat := 0
/-- Request identifier of an unchoke message (`types.h`). -/
def UNCHOKE : Nat := 1
/-- Request identifier of an interested message (`types.h`). -/
def INTERESTED : Nat := 2
/-- Request identifier of a not interested message (`types.h`). -/
def NO_INTERESTED : Nat := 3
/-- Request identifier of a have message (`types.h`). -/
def HAVE : Nat := 4
/-- Request identifier of a bitfield message (`types.h`). -/
def BIT_FIELD : Nat := 5
/-- Request identifier of a block request (`types.h`). -/
def REQUEST : Nat := 6
/-- Request identifier of a piece message (`types.h`). -/
def PIECE : Nat := 7

/-- The handshake signature `"URTorrent protocol"` as bytes (`types.h`). -/
def HANDSHAKE : List Nat :=
  [85, 82, 84, 111, 114, 114, 101, 110, 116, 32, 112, 114, 111, 116, 111, 99, 111, 108]
/-- Handshake message length (`types.h`). -/
def HS_LEN : Nat := 67
/-- Version length (`types.h`). -/
def VERSION_LEN : Nat := 18
/-- Version offset (`types.h`). -/
def VERSION_OFFSET : Nat := 1
/-- Handshake reserved length (`types.h`). -/
def HS_RESV : Nat := 8
/-- Offset to the info hash in a handshake (`types.h`). -/
def HASH_OFFSET : Nat := 27
/-- Length of a SHA-1 digest (`openssl/sha.h`). -/
def SHA_DIGEST_LENGTH : Nat := 20

/-- Length prefix size (`types.h`). -/
def PF_LEN : Nat := 4
/-- Length of index, begin, length (`types.h`). -/
def IBL_LEN : Nat := 4
/-- Message ID size (`types.h`). -/
def ID_LEN : Nat := 1
/-- Message header size (`types.h`). -/
def HD_LEN : Nat := 5
/-- Length of a byte in bits (`types.h`). -/
def BYTE_LEN : Nat := 8
/-- Value of the usual length prefix (`types.h`). -/
def COMM_LEN : Nat := 1
/-- Length of a request for blocks (`types.h`). -/
def REQ_LEN : Nat := 13
/-- Fixed length of a piece message (`types.h`). -/
def PIC_LEN : Nat := 9
/-- Length of a have message (`types.h`). -/
def HAV_LEN : Nat := 5
/-- Size of a piece block in bytes (`types.h`). -/
def BLOCK_SIZE : Nat := 16384
/-- The largest `int` (`climits`). -/
def INT_MAX : Int := 2147483647

/-- Number of values of a `uint32_t`. -/
def U32 : Nat := 4294967296

/-! ## Buffers and byte order -/

/-- The C `memset(buff + off, v, n)`: `n` bytes from `off` on become `v`. -/
def memset (buff : List Nat) (off v n : Nat) : List Nat :=
  buff.take off ++ List.replicate n v ++ buff.drop (off + n)

/-- The C `memcpy(buff + off, src, n)` with `n = src.length`. -/
def memcpy (buff : List Nat) (off : Nat) (src : List Nat) : List Nat :=
  buff.take off ++ src ++ buff.drop (off + src.length)

/-- The bytes of a `uint32_t` object in memory, least significant first. -/
def u32_bytes (x : Nat) : List Nat :=
  [x % 256, x / 256 % 256, x / 65536 % 256, x / 16777216 % 256]

/-- The `uint32_t` object held by four bytes of memory. -/
def u32_of_bytes (bs : List Nat) : Nat :=
  bs.getD 0 0 + 256 * bs.getD 1 0 + 65536 * bs.getD 2 0 + 16777216 * bs.getD 3 0

/-- The libc `htonl` on a little-endian host: the four bytes are swapped. -/
def htonl (x : Nat) : Nat :=
  (x % 256) * 16777216 + (x / 256 % 256) * 65536 + (x / 65536 % 256) * 256
    + x / 16777216 % 256

/-- The libc `ntohl` on a little-endian host: the four bytes are swapped. -/
def ntohl (x : Nat) : Nat := htonl x

/-- The value of four bytes read as a big-endian number, as they appear on the wire. -/
def be32 (bs : List Nat) : Nat :=
  16777216 * bs.getD 0 0 + 65536 * bs.getD 1 0 + 256 * bs.getD 2 0 + bs.getD 3 0

/-! ## `metainfo` -/

/-- The decoded bencode tree of `bencode.h` (`be_node`); dictionary keys are C strings. -/
inductive be_node where
  | BE_STR (s : List Nat)
  | BE_INT (i : Int)
  | BE_LIST (l : List be_node)
  | BE_DICT (d : List (String × be_node))

/-- The fatal errors of `error_handle.h` that the embedded code raises, and the signal
`SIGFPE` of an integer division by zero, which ends the process as well. -/
inductive Err where
  | ERR_SYS
  | ERR_SIZE
  | ERR_PARSE
  | SIGFPE
  | ERR_RESP
  deriving DecidableEq, Repr

/-- The data members of class `metainfo` (`metainfo.h`). -/
structure metainfo where
  announce_ : List Nat
  filename_ : List Nat
  peer_id_ : List Nat
  info_hash_ : List Nat
  piece_length_ : Int
  last_size_ : Int
  file_size_ : Int
  piece_hash_ : List (List Nat)

/-- Maximum metainfo file size, 8KB (`metainfo.h`). -/
def MAX_SIZE_ : Nat := 8192

/-- The loop of `_dump_be_node` on the `pieces` string: while at least 20 bytes are
left, the first 20 are pushed and dropped. -/
def split_pieces (strval : List Nat) : List (List Nat) :=
  if strval.length / SHA_DIGEST_LENGTH ≠ 0 then
    strval.take SHA_DIGEST_LENGTH :: split_pieces (strval.drop SHA_DIGEST_LENGTH)
  else []
termination_by strval.length
decreasing_by
  simp only [SHA_DIGEST_LENGTH, List.length_drop] at *
  omega

mutual
/-- The member `metainfo::_dump_be_node`: the fields are taken from the decoded tree by key. -/
def _dump_be_node (m : metainfo) (node : be_node) (key : String) : Except Err metainfo :=
  match node with
  | .BE_STR strval =>
    if key = "announce" then .ok { m with announce_ := strval }
    else if key = "name" then .ok { m with filename_ := strval }
    else if key = "pieces" then
      .ok { m with piece_hash_ := m.piece_hash_ ++ split_pieces strval }
    else .ok m
  | .BE_INT i =>
    if key = "length" then .ok { m with file_size_ := i }
    else if key = "piece length" then .ok { m with piece_length_ := i }
    else .ok m
  | .BE_LIST _ => .error .ERR_PARSE
  | .BE_DICT d => _dump_be_dict m d
/-- The `for` loop of the `BE_DICT` case of `_dump_be_node`. -/
def _dump_be_dict (m : metainfo) (d : List (String × be_node)) : Except Err metainfo :=
  match d with
  | [] => .ok m
  | (k, v) :: rest =>
    match _dump_be_node m v k with
    | .error e => .error e
    | .ok m1 => _dump_be_dict m1 rest
end

/-- The member `metainfo::Parser` after the file was mapped: `size` is the file size,
`node` the result of `be_decoden` and `info_hash` the digest `_hash_info` stores. The
remainder `%` of two `long long` values truncates towards zero; by a zero piece length
it ends the process. -/
def Parser (m : metainfo) (size : Nat) (node : Option be_node) (info_hash : List Nat) :
    Except Err metainfo :=
  if size > MAX_SIZE_ then .error .ERR_SIZE
  else
    match node with
    | none => .error .ERR_PARSE
    | some (.BE_DICT d) =>
      match _dump_be_node m (.BE_DICT d) "" with
      | .error e => .error e
      | .ok m1 =>
        if m1.piece_length_ = 0 then .error .SIGFPE
        else .ok { m1 with info_hash_ := info_hash,
                           last_size_ := Int.tmod m1.file_size_ m1.piece_length_ }
    | some _ => .error .ERR_PARSE

/-- The getter `metainfo::get_last_psize`. -/
def get_last_psize (m : metainfo) : Int := m.last_size_

/-- The getter `metainfo::get_piece_size`. -/
def get_piece_size (m : metainfo) : Int := m.piece_length_

/-- The getter `metainfo::get_size`. -/
def get_size (m : metainfo) : Int := m.file_size_

/-- The getter `metainfo::get_piece_num`. -/
def get_piece_num (m : metainfo) : Nat := m.piece_hash_.length

/-- The members of a freshly constructed `metainfo` before `Parser` runs: strings and the
hash vector are empty, `peer_id_` was generated, the three integers are indeterminate. -/
def metainfo_fresh (peer_id : List Nat) (g1 g2 g3 : Int) : metainfo :=
  { announce_ := [], filename_ := [], peer_id_ := peer_id, info_hash_ := [],
    piece_length_ := g1, last_size_ := g2, file_size_ := g3, piece_hash_ := [] }

/-- Version number for a peer id, `"-UR1010-"` (`metainfo.h`). -/
def VERSION_ : List Nat := [45, 85, 82, 49, 48, 49, 48, 45]
/-- Size of a peer id in bytes (`metainfo.h`). -/
def ID_SIZE_ : Nat := 20
/-- Upper bound of ascii, exclusive (`metainfo.cc`). -/
def MAX_ASCII : Nat := 256

/-- The member `metainfo::generate_peerid`; `rands` are the values `rand()` returns. -/
def generate_peerid (rands : List Nat) : List Nat :=
  VERSION_ ++ (rands.take (ID_SIZE_ - VERSION_.length)).map (fun x => x % MAX_ASCII)

/-! ## Peers, the engine and its workers -/

/-- The non-fatal failures of `error_handle.h`. -/
inductive Fail where
  | FAL_IHASH
  | FAL_SYS
  | FAL_ADDR
  | FAL_CONN
  | FAL_HS
  | FAL_BIT
  deriving DecidableEq, Repr

/-- Client role (`types.h`). -/
inductive Role where
  | P_SEEDER
  | P_LEECHER
  deriving DecidableEq, Repr

/-- The struct `peer` of `types.h`. -/
structure peer where
  ip : Nat
  rate : Nat
  choking : Bool
  interested : Bool
  bitfield : List Nat
  id : List Nat
  deriving DecidableEq, Repr

/-- The constructor `peer::peer(int bflen)`: choked, not interested, zero bitfield. -/
def peer_ctor (ip : Nat) (bflen : Nat) : peer :=
  { ip := ip, rate := 0, choking := true, interested := false,
    bitfield := List.replicate bflen 0, id := [] }

/-- The request event types `tracker_agent::Event` (`tracker_agent.h`). -/
inductive tracker_agent_Event where
  | EVNT_START
  | EVNT_COMP
  | EVNT_STOP
  | EVNT_EMPTY
  deriving DecidableEq, Repr

/-- The tracker response `tracker_agent::Message` (`tracker_agent.h`). -/
structure Message where
  cmpt : Int := 0
  incmpt : Int := 0
  interv : Int := 0
  min_interv : Int := 0
  track_id : List Nat := []
  peers : List (List Nat) := []
  deriving DecidableEq, Repr

/-- The data members of class `tracker_agent` that the embedded code uses: the two
counters that the workers update, the static portion of the announce URL, the request
event and the last response of the tracker. -/
structure tracker_agent where
  upload_ : Int
  download_ : Int
  static_info_ : List Nat := []
  event_ : tracker_agent_Event := .EVNT_EMPTY
  mesg_ : Message := {}
  deriving DecidableEq, Repr

/-- The member `tracker_agent::update_upload`. -/
def update_upload (a : tracker_agent) (bytes : Int) : tracker_agent :=
  { a with upload_ := a.upload_ + bytes }

/-- The member `tracker_agent::update_download`. -/
def update_download (a : tracker_agent) (bytes : Int) : tracker_agent :=
  { a with download_ := a.download_ + bytes }

/-- The data members of class `core` (`core.h`) that the peer wire code reads and
writes; `file_` is the memory mapped file, `agent_` the tracker agent's counters. -/
structure core where
  role_ : Role
  file_ : List Nat
  agent_ : tracker_agent
  bitfield_ : List Nat
  pcount_ : List Int
  finish_ : Bool
  pnum_ : Nat
  lplen_ : Nat
  plen_ : Nat
  bflen_ : Nat
  spare_offset_ : Nat
  actime_ : Int
  req_set : List Nat
  progress_ : List Nat
  deriving DecidableEq, Repr

/-- The data members of class `receiver` (`receiver.h`) that the protocol code uses. -/
structure receiver where
  running_ : Bool
  peer_ : peer
  piece_ : Nat
  size_ : Nat
  sock_ : Int := 0
  deriving DecidableEq, Repr

/-- The data members of class `sender` (`sender.h`) that the protocol code uses. -/
structure sender where
  running_ : Bool
  peer_ : peer
  piece_ : Nat
  begin_ : Nat
  size_ : Nat
  sock_ : Int := 0
  deriving DecidableEq, Repr

/-- The conversion of a `long long` to `uint32_t`. -/
def to_u32 (x : Int) : Nat := (x % (U32 : Int)).toNat

/-- The bit test `*(bf + i / BYTE_LEN) & (1 << (BYTE_LEN - i % BYTE_LEN - 1))` that
`core::update_pcount` and `core::rarest_first` apply to a bitfield. -/
def test_bit (bf : List Nat) (i : Nat) : Bool :=
  bf.getD (i / BYTE_LEN) 0 &&& (1 <<< (BYTE_LEN - i % BYTE_LEN - 1)) != 0

/-- The statement `bf[index / BYTE_LEN] |= (1 << (BYTE_LEN - index % BYTE_LEN - 1))` on a
`char` array, shared by `core::update_bf` and `update_pbf`. -/
def set_bit (bf : List Nat) (index : Nat) : List Nat :=
  bf.set (index / BYTE_LEN)
    ((bf.getD (index / BYTE_LEN) 0 ||| (1 <<< (BYTE_LEN - index % BYTE_LEN - 1))) % 256)

/-- The constructor `core::core` up to the launch of the worker threads. `left` is the
value of `agent_->get_left()` and `target` the content of the complete file a seeder
maps. The `float` quotient `ceil((float)pnum_ / (float)BYTE_LEN)` is exact for every
piece count below `2 ^ 24`, where it is `(pnum_ + 7) / 8`. -/
def core_ctor (mi : metainfo) (agent : tracker_agent) (left : Int) (target : List Nat) : core :=
  let pnum := get_piece_num mi % U32
  let bflen := (pnum + (BYTE_LEN - 1)) / BYTE_LEN
  let bitfield := List.replicate bflen 0
  let spare_offset := BYTE_LEN * bflen - pnum
  let plen := to_u32 (get_piece_size mi)
  let lplen := to_u32 (get_last_psize mi)
  if left ≠ 0 then
    { role_ := .P_LEECHER, file_ := List.replicate (get_size mi).toNat 0, agent_ := agent,
      bitfield_ := bitfield, pcount_ := List.replicate pnum 0, finish_ := false,
      pnum_ := pnum, lplen_ := lplen, plen_ := plen, bflen_ := bflen,
      spare_offset_ := spare_offset, actime_ := 0, req_set := [],
      progress_ := List.replicate pnum 0 }
  else
    let bitfield := memset bitfield 0 255 bflen
    let bitfield := bitfield.set (bflen - 1)
      (bitfield.getD (bflen - 1) 0 &&& ((255 <<< spare_offset) % 256))
    { role_ := .P_SEEDER, file_ := target, agent_ := agent,
      bitfield_ := bitfield, pcount_ := [], finish_ := true,
      pnum_ := pnum, lplen_ := lplen, plen_ := plen, bflen_ := bflen,
      spare_offset_ := spare_offset, actime_ := 0, req_set := [],
      progress_ := [] }

/-- The member `core::update_dwn`. -/
def update_dwn (c : core) (bytes : Int) : core :=
  { c with agent_ := update_download c.agent_ bytes }

/-- The member `core::update_upl`. -/
def update_upl (c : core) (bytes : Int) : core :=
  { c with agent_ := update_upload c.agent_ bytes }

/-- The member `core::update_pcount`: every slot that is not `INT_MAX` and whose bit is
set in the peer bitfield `pbf` grows by one. -/
def update_pcount (c : core) (pbf : List Nat) : Bool × core :=
  let pcount := (List.range c.pnum_).foldl
    (fun pc i =>
      if pc.getD i 0 = INT_MAX then pc
      else if test_bit pbf i then pc.set i (pc.getD i 0 + 1)
      else pc) c.pcount_
  (true, { c with pcount_ := pcount })

/-- The member `core::update_bf`: the bit of `index` is set in the local bitfield and the
piece count of `index` becomes `INT_MAX`. -/
def update_bf (c : core) (index : Nat) : Bool × core :=
  (true, { c with bitfield_ := set_bit c.bitfield_ index,
                  pcount_ := c.pcount_.set index INT_MAX })

/-- The function `update_pbf` of `types.cc`; `index_net` is the word `*index_ptr`, in
network byte order. -/
def update_pbf (index_net : Nat) (bf : List Nat) : List Nat :=
  let index := ntohl index_net
  set_bit bf index

/-! ## Handshake -/

/-- The function `hs_message` of `types.cc`. -/
def hs_message (buff : List Nat) (info_hash id : List Nat) : List Nat :=
  let offset := 0
  let buff := memset buff 0 VERSION_LEN VERSION_OFFSET
  let offset := offset + VERSION_OFFSET
  let buff := memcpy buff offset (HANDSHAKE.take VERSION_LEN)
  let offset := offset + VERSION_LEN
  let buff := memset buff offset 0 HS_RESV
  let offset := offset + HS_RESV
  let buff := memcpy buff offset info_hash
  let offset := offset + info_hash.length
  memcpy buff offset id

/-- The constructor `std::string(const char*)`: the bytes before the first NUL of the
memory the pointer refers to. -/
def cstring (mem : List Nat) : List Nat := mem.takeWhile (fun b => b != 0)

/-- The outcome of a `read(sock_, buf, n)` into a buffer `buf`: `none` is an error
(a negative return), `some data` is `data.length` bytes delivered, at most `n`. -/
def read_into (buf : List Nat) (n : Nat) (data : List Nat) : List Nat :=
  memcpy buf 0 (data.take n)

/-- The member `receiver::send_handshake`. `wr` tells whether the `write` succeeded, `rd`
is the outcome of the `read` of the reply and `stack` the memory that follows the local
array `rt_hs`. The result is the return value, the receiver, the handshake written and
the failures reported; the registry entry made by `create_peer` is not part of the
embedding. -/
def send_handshake (r : receiver) (c : core) (mi : metainfo) (wr : Bool)
    (rd : Option (List Nat)) (stack : List Nat) :
    Bool × receiver × List Nat × List Fail :=
  let hs_mesg := List.replicate HS_LEN 0
  let rt_hs := List.replicate HS_LEN 0
  let hs_mesg := hs_message hs_mesg mi.info_hash_ mi.peer_id_
  if !wr then (false, r, hs_mesg, [.FAL_SYS])
  else
    match rd with
    | none => (false, r, hs_mesg, [.FAL_SYS])
    | some data =>
      let rt_hs := read_into rt_hs HS_LEN data
      if (data.take HS_LEN).length = 0 then (false, r, hs_mesg, [])
      else
        let version := (rt_hs.drop VERSION_OFFSET).take VERSION_LEN
        if version ≠ cstring HANDSHAKE then (false, r, hs_mesg, [.FAL_HS])
        else
          let info_hash := (rt_hs.drop HASH_OFFSET).take SHA_DIGEST_LENGTH
          if info_hash ≠ mi.info_hash_ then (false, r, hs_mesg, [.FAL_IHASH])
          else
            let peer_id := cstring (rt_hs.drop (HASH_OFFSET + SHA_DIGEST_LENGTH) ++ stack)
            let p := { peer_ctor r.peer_.ip c.bflen_ with id := peer_id }
            (true, { r with peer_ := p }, hs_mesg, [])

/-- The member `sender::recv_handshake`. `rd` is the outcome of the `read` of the request,
`stack` the memory that follows the local array `hs_req` and `wr` tells whether the
`write` of the reply succeeded. The result is the return value, the sender, the bytes
written and the failures reported; the registry entry made by `create_peer` is not part
of the embedding. -/
def recv_handshake (s : sender) (c : core) (mi : metainfo) (rd : Option (List Nat))
    (stack : List Nat) (wr : Bool) : Bool × sender × List Nat × List Fail :=
  let hs_req := List.replicate HS_LEN 0
  let hs_mesg := List.replicate HS_LEN 0
  match rd with
  | none => (false, s, [], [.FAL_SYS])
  | some data =>
    let hs_req := read_into hs_req HS_LEN data
    if (data.take HS_LEN).length = 0 then (false, s, [], [])
    else
      let version := (hs_req.drop VERSION_OFFSET).take VERSION_LEN
      if version ≠ cstring HANDSHAKE then (false, s, [], [.FAL_HS])
      else
        let info_hash := (hs_req.drop HASH_OFFSET).take SHA_DIGEST_LENGTH
        if info_hash ≠ mi.info_hash_ then (false, s, [], [.FAL_IHASH])
        else
          let peer_id := cstring (hs_req.drop (HASH_OFFSET + SHA_DIGEST_LENGTH) ++ stack)
          let p := { peer_ctor s.peer_.ip c.bflen_ with id := peer_id }
          let hs_mesg := hs_message hs_mesg mi.info_hash_ mi.peer_id_
          if !wr then (false, { s with peer_ := p }, hs_mesg, [])
          else (true, { s with peer_ := p }, hs_mesg, [])

/-! ## Receiver -/

/-- The second half of `receiver::send_request`: the request buffer is composed from
the three values and written to the socket. The result is the bytes written. -/
def send_request_buff (index begin length : Nat) : List Nat :=
  let offset := 0
  let buff := List.replicate (REQ_LEN + PF_LEN) 0
  let len_pfx := htonl REQ_LEN
  let index := htonl index
  let begin := htonl begin
  let length := htonl length
  let buff := memcpy buff 0 (u32_bytes len_pfx)
  let offset := offset + PF_LEN
  let buff := memset buff offset REQUEST ID_LEN
  let offset := offset + ID_LEN
  let buff := memcpy buff offset (u32_bytes index)
  let offset := offset + IBL_LEN
  let buff := memcpy buff offset (u32_bytes begin)
  let offset := offset + IBL_LEN
  let buff := memcpy buff offset (u32_bytes length)
  let offset := offset + IBL_LEN
  buff.take offset

/-- The member `receiver::send_request`: the block after the bytes already downloaded of
the piece of interest is requested. The result is the receiver and the bytes written. -/
def send_request (r : receiver) (c : core) : receiver × List Nat :=
  let index := r.piece_
  let begin := c.progress_.getD index 0
  let length :=
    if index = (c.pnum_ + U32 - 1) % U32 then
      min BLOCK_SIZE ((c.lplen_ + U32 - begin) % U32)
    else BLOCK_SIZE
  ({ r with size_ := length }, send_request_buff index begin length)

/-- The member `receiver::recv_bitfield`; `rd` is the outcome of the `read` of the
payload. The result is the return value, the receiver, the engine and the failures
reported. -/
def recv_bitfield (r : receiver) (c : core) (size : Nat) (rd : Option (List Nat)) :
    Bool × receiver × core × List Fail :=
  let pbf := r.peer_.bitfield
  match rd with
  | none => (false, { r with running_ := false }, c, [])
  | some data =>
    if (data.take size).length = 0 then (false, { r with running_ := false }, c, [])
    else
      let pbf := read_into pbf size data
      let r := { r with peer_ := { r.peer_ with bitfield := pbf } }
      if (pbf.getD (c.bflen_ - 1) 0 <<< c.spare_offset_) &&& 0 != 0 then
        (false, { r with running_ := false }, c, [.FAL_BIT])
      else
        let res := update_pcount c pbf
        (true, r, res.2, [])

/-- The member `receiver::do_update_pbf`; `rd` is the outcome of the `read` of the index. -/
def do_update_pbf (r : receiver) (rd : Option (List Nat)) : receiver :=
  match rd with
  | none => r
  | some data =>
    if (data.take IBL_LEN).length = 0 then r
    else
      let index := u32_of_bytes (data.take IBL_LEN)
      { r with peer_ := { r.peer_ with bitfield := update_pbf index r.peer_.bitfield } }

/-- The size argument `mesg_size - PIC_LEN` that `receiver::mesg_handle` passes to
`receiver::download` for a PIECE message whose length prefix is `mesg_size`. -/
def mesg_handle_block_size (mesg_size : Nat) : Nat := (mesg_size + U32 - PIC_LEN) % U32

/-! ## Sender -/

/-- The `n` bytes of memory at offset `off` of a mapped region; a byte outside the
region is indeterminate and reads as 0 here. -/
def mem_read (mem : List Nat) (off n : Nat) : List Nat :=
  (List.range n).map (fun k => mem.getD (off + k) 0)

/-- The member `sender::find_block`: the offset of the block in the mapped file. -/
def find_block (mi : metainfo) (s : sender) (offset : Nat) : Nat :=
  (get_piece_size mi * (s.piece_ : Int) + (offset : Int)).toNat

/-- The member `sender::prepare_upload`; `buff` is the request after its message id. -/
def prepare_upload (s : sender) (c : core) (buff : List Nat) : sender × core :=
  let offset := 0
  let piece := u32_of_bytes (buff.take IBL_LEN)
  let offset := offset + IBL_LEN
  let piece := ntohl piece
  let begin := u32_of_bytes ((buff.drop offset).take IBL_LEN)
  let offset := offset + IBL_LEN
  let begin := ntohl begin
  let size := u32_of_bytes ((buff.drop offset).take IBL_LEN)
  let size := ntohl size
  ({ s with piece_ := piece, begin_ := begin, size_ := size }, update_upl c size)

/-- The member `sender::upload`; `rate` is the measured upload rate. The result is the
sender and the bytes written to the socket. -/
def upload (s : sender) (c : core) (mi : metainfo) (rate : Nat) : sender × List Nat :=
  let offset := 0
  let mesg_size := (PF_LEN + PIC_LEN + s.size_) % U32
  let buff := List.replicate mesg_size 0
  let block := find_block mi s s.begin_
  let mesg_size := htonl mesg_size
  let index := htonl s.piece_
  let begin := htonl s.begin_
  let buff := memcpy buff 0 (u32_bytes mesg_size)
  let offset := offset + PF_LEN
  let buff := memset buff offset PIECE ID_LEN
  let offset := offset + ID_LEN
  let buff := memcpy buff offset (u32_bytes index)
  let offset := offset + IBL_LEN
  let buff := memcpy buff offset (u32_bytes begin)
  let offset := offset + IBL_LEN
  let buff := memcpy buff offset (mem_read c.file_ block s.size_)
  ({ s with peer_ := { s.peer_ with rate := rate } },
    buff.take ((PF_LEN + PIC_LEN + s.size_) % U32))

/-- The member `sender::compose_bfmesg`: the bitfield message is stored in `buff`. -/
def compose_bfmesg (c : core) (buff : List Nat) : List Nat :=
  let offset := 0
  let mesg_len := htonl ((ID_LEN + c.bflen_) % U32)
  let buff := memcpy buff 0 (u32_bytes mesg_len)
  let offset := offset + PF_LEN
  let buff := memset buff offset BIT_FIELD ID_LEN
  let offset := offset + ID_LEN
  memcpy buff offset (mem_read c.bitfield_ 0 c.bflen_)

/-- The HAVE branch of `sender::req_handler`; `req_buff` is the request, message id
first. -/
def req_handler_have (s : sender) (req_buff : List Nat) : sender :=
  { s with peer_ := { s.peer_ with
      bitfield := update_pbf (u32_of_bytes ((req_buff.drop ID_LEN).take IBL_LEN))
        s.peer_.bitfield } }

/-! ## The specification's geometry (section 4.3), for comparison with the code -/

/-- The specification's `piece_length(i)`: `last_piece_length` if `i == piece_count-1`,
else `piece_length`. -/
def spec_piece_length (c : core) (i : Nat) : Nat :=
  if i = c.pnum_ - 1 then c.lplen_ else c.plen_

/-- The specification's `block_length(i, offset)`:
`min(BLOCK_SIZE, piece_length(i) − offset)`. -/
def spec_block_length (c : core) (i offset : Nat) : Nat :=
  min BLOCK_SIZE (spec_piece_length c i - offset)

/-- The big-endian word at offset `off` of a message on the wire. -/
def wire_u32 (mesg : List Nat) (off : Nat) : Nat := be32 ((mesg.drop off).take 4)

/-- The payload bits of a bitfield of `pnum` pieces are followed by spare bits that are
all zero. -/
def spare_bits_zero (pnum : Nat) (bf : List Nat) : Prop :=
  ∀ j, j < BYTE_LEN * bf.length → pnum ≤ j → test_bit bf j = false

/-! ## Concrete inputs -/

/-- The decoded metainfo of a single-piece torrent whose file is exactly one piece long:
`piece length` 16384, `length` 16384, one piece hash. -/
def e1_tree : be_node :=
  .BE_DICT [("announce", .BE_STR [104, 116, 116, 112]),
            ("info", .BE_DICT [("length", .BE_INT 16384), ("name", .BE_STR [102]),
                               ("piece length", .BE_INT 16384),
                               ("pieces", .BE_STR (List.replicate 20 1))])]

/-- The tracker agent's counters at start. -/
def agent0 : tracker_agent := { upload_ := 0, download_ := 0 }

/-- An engine of a leecher for a torrent of three pieces with `piece length` 20000 and
`length` 50000, after the first block of piece 0 was downloaded. -/
def c2_core : core :=
  { role_ := .P_LEECHER, file_ := [], agent_ := agent0, bitfield_ := [0],
    pcount_ := [1, 1, 1], finish_ := false, pnum_ := 3, lplen_ := 10000, plen_ := 20000,
    bflen_ := 1, spare_offset_ := 5, actime_ := 0, req_set := [0],
    progress_ := [16384, 0, 0] }

/-- A receiver that downloads piece 0 from an unchoking peer. -/
def c2_receiver : receiver :=
  { running_ := true,
    peer_ := { ip := 0, rate := 0, choking := false, interested := true, bitfield := [224],
               id := VERSION_ ++ List.replicate 12 1 },
    piece_ := 0, size_ := 16384 }

/-- A metainfo with a 20 byte info hash, as a parsed torrent of three pieces has it. -/
def c4_metainfo : metainfo :=
  { announce_ := [104], filename_ := [102], peer_id_ := VERSION_ ++ List.replicate 12 1,
    info_hash_ := List.replicate 20 170, piece_length_ := 20000, last_size_ := 10000,
    file_size_ := 50000, piece_hash_ := List.replicate 3 (List.replicate 20 1) }

/-- A peer id that `generate_peerid` produces when the first `rand()` value is a multiple
of 256: the ninth byte is 0. -/
def c4_peer_id : List Nat := generate_peerid [256, 1, 2, 3, 4, 5, 6, 7, 8, 9, 10, 11]

/-- A sender that has just been constructed for an accepted connection. -/
def c4_sender : sender :=
  { running_ := true, peer_ := peer_ctor 0 0, piece_ := 0, begin_ := 0, size_ := 0 }

/-- The metainfo of the single-piece torrent of `e1_tree`, with the last size that
`Parser` stores for it. -/
def e1_metainfo : metainfo :=
  { announce_ := [104, 116, 116, 112], filename_ := [102],
    peer_id_ := VERSION_ ++ List.replicate 12 1, info_hash_ := List.replicate 20 170,
    piece_length_ := 16384, last_size_ := 0, file_size_ := 16384,
    piece_hash_ := [List.replicate 20 1] }

/-- The engine of a seeder of the single-piece torrent. -/
def e1_seeder : core :=
  { role_ := .P_SEEDER, file_ := List.replicate 16384 65, agent_ := agent0,
    bitfield_ := [128], pcount_ := [], finish_ := true, pnum_ := 1, lplen_ := 0,
    plen_ := 16384, bflen_ := 1, spare_offset_ := 7, actime_ := 0, req_set := [],
    progress_ := [] }

/-- A sender of the seeder that was asked for the block `(0, 0, 16384)`. -/
def e1_sender : sender :=
  { running_ := true,
    peer_ := { ip := 0, rate := 0, choking := false, interested := true, bitfield := [0],
               id := VERSION_ ++ List.replicate 12 2 },
    piece_ := 0, begin_ := 0, size_ := 16384 }

/-- The engine of a leecher of a single-piece torrent (`piece length` 16384, `length`
10000) right after its construction: bitfield of one byte with 7 spare bits. -/
def c7_core : core :=
  { role_ := .P_LEECHER, file_ := List.replicate 10000 0, agent_ := agent0,
    bitfield_ := [0], pcount_ := [0], finish_ := false, pnum_ := 1, lplen_ := 10000,
    plen_ := 16384, bflen_ := 1, spare_offset_ := 7, actime_ := 0, req_set := [],
    progress_ := [0] }

/-- A receiver of that leecher after a successful handshake. -/
def c7_receiver : receiver :=
  { running_ := true,
    peer_ := { peer_ctor 0 1 with id := VERSION_ ++ List.replicate 12 2 },
    piece_ := 0, size_ := 0 }

/-- The engine states reached from the constructed engine by `update_bf` calls with an
index below the piece count. -/
inductive bf_reachable (mi : metainfo) (agent : tracker_agent) (left : Int)
    (target : List Nat) : core → Prop where
  | init : bf_reachable mi agent left target (core_ctor mi agent left target)
  | step (c : core) (index : Nat) : bf_reachable mi agent left target c → index < c.pnum_ →
      bf_reachable mi agent left target (update_bf c index).2

/-- A parsed metainfo of a torrent of ten pieces of 4 bytes, the last one 2 bytes long. -/
def c8_metainfo : metainfo :=
  { announce_ := [104], filename_ := [102], peer_id_ := VERSION_ ++ List.replicate 12 1,
    info_hash_ := List.replicate 20 170, piece_length_ := 4, last_size_ := 2,
    file_size_ := 38, piece_hash_ := List.replicate 10 (List.replicate 20 1) }

/-- The invariant of the local bitfield of an engine for `n` pieces: the bitfield has
`ceil(n / 8)` bytes and its spare bits are zero. -/
def bf_inv (n : Nat) (c : core) : Prop :=
  c.pnum_ = n ∧ c.bflen_ = (n + 7) / 8 ∧ c.spare_offset_ = 8 * c.bflen_ - n ∧
    c.bitfield_.length = c.bflen_ ∧ spare_bits_zero c.pnum_ c.bitfield_

/-- A leecher of the ten-piece torrent that owns pieces 0 and 9 and knows of one peer
holding every piece. -/
def c9_core : core :=
  { role_ := .P_LEECHER, file_ := List.replicate 38 0, agent_ := agent0,
    bitfield_ := [128, 64], pcount_ := [INT_MAX, 1, 1, 1, 1, 1, 1, 1, 1, INT_MAX],
    finish_ := false, pnum_ := 10, lplen_ := 2, plen_ := 4, bflen_ := 2,
    spare_offset_ := 6, actime_ := 0, req_set := [3],
    progress_ := [4, 0, 0, 4, 0, 0, 0, 0, 0, 2] }

/-- A receiver whose peer advertised pieces 0 to 3 of the ten-piece torrent. -/
def c10_receiver : receiver :=
  { running_ := true,
    peer_ := { ip := 0, rate := 0, choking := true, interested := false,
               bitfield := [240, 0], id := VERSION_ ++ List.replicate 12 2 },
    piece_ := 0, size_ := 0 }

/-- A sender whose peer advertised pieces 0 to 3 of the ten-piece torrent. -/
def c10_sender : sender :=
  { running_ := true,
    peer_ := { ip := 0, rate := 0, choking := true, interested := false,
               bitfield := [240, 0], id := VERSION_ ++ List.replicate 12 2 },
    piece_ := 0, begin_ := 0, size_ := 0 }

/-- The four bytes of a 32-bit value in network byte order, as a HAVE, REQUEST or PIECE
message carries it. -/
def wire_bytes (x : Nat) : List Nat :=
  [x / 16777216 % 256, x / 65536 % 256, x / 256 % 256, x % 256]

/-! ## Events, the receiver registry and the rarest first selector -/

/-- What the engine and its workers do to the outside: a `write` on a socket, a failure
reported by `fail_handle`, the `rename` of the temporary file to the target and the
`completed` announce of `tracker_agent::complete` (both in `core::name_target`). -/
inductive Event where
  | write (sock : Int) (bytes : List Nat)
  | fail (f : Fail)
  | rename
  | complete
  deriving DecidableEq, Repr

/-- The member `receiver::send_interested`: the INTERESTED message is written. -/
def send_interested (r : receiver) : List Event :=
  let buff := List.replicate (PF_LEN + ID_LEN) 0
  let len_pfx := htonl COMM_LEN
  let buff := memcpy buff 0 (u32_bytes len_pfx)
  let buff := memset buff PF_LEN INTERESTED ID_LEN
  [.write r.sock_ (buff.take (PF_LEN + ID_LEN))]

/-- The member `receiver::send_uninterested`; `wr` tells whether the `write` succeeded. -/
def send_uninterested (r : receiver) (wr : Bool) : receiver × List Event :=
  let buff := List.replicate (PF_LEN + ID_LEN) 0
  let req_size := htonl COMM_LEN
  let buff := memcpy buff 0 (u32_bytes req_size)
  let buff := memset buff PF_LEN NO_INTERESTED ID_LEN
  let ev := [Event.write r.sock_ (buff.take (PF_LEN + ID_LEN))]
  if !wr then
    ({ r with running_ := false, peer_ := { r.peer_ with interested := false } },
      ev ++ [.fail .FAL_SYS])
  else ({ r with peer_ := { r.peer_ with interested := false } }, ev)

/-- The function `send_have` of `types.cc`: the HAVE message of a piece index is written
to the socket. -/
def send_have (sock : Int) (index : Nat) : List Event :=
  let offset := 0
  let buff := List.replicate (PF_LEN + HAV_LEN) 0
  let req_size := htonl HAV_LEN
  let index := htonl index
  let buff := memcpy buff 0 (u32_bytes req_size)
  let offset := offset + PF_LEN
  let buff := memset buff offset HAVE ID_LEN
  let offset := offset + ID_LEN
  let buff := memcpy buff offset (u32_bytes index)
  [.write sock (buff.take (PF_LEN + HAV_LEN))]

/-- The loop of `core::rarest_first` over the receiver registry, in the iteration order
of the map: the first receiver whose peer is not interested yet and holds piece `pseq`
gets that piece to request and sends INTERESTED. -/
def rarest_first_pick (rmap : List receiver) (pseq : Nat) : List receiver × List Event :=
  match rmap with
  | [] => ([], [])
  | recv :: rest =>
    if recv.peer_.interested then
      ((recv :: (rarest_first_pick rest pseq).1), (rarest_first_pick rest pseq).2)
    else if test_bit recv.peer_.bitfield pseq then
      ({ recv with piece_ := pseq, peer_ := { recv.peer_ with interested := true } } :: rest,
        send_interested recv)
    else ((recv :: (rarest_first_pick rest pseq).1), (rarest_first_pick rest pseq).2)

/-- The first loop of `core::rarest_first`: the least piece count that is not zero,
starting from `INT_MAX`. -/
def rarest_number (c : core) : Int :=
  (List.range c.pnum_).foldl
    (fun rn i => if c.pcount_.getD i 0 ≠ 0 ∧ c.pcount_.getD i 0 < rn then c.pcount_.getD i 0
      else rn) INT_MAX

/-- The second loop of `core::rarest_first`: the sequences of the rarest pieces. -/
def rarest_seqs (c : core) (rn : Int) : List Nat :=
  (List.range c.pnum_).filter (fun i => c.pcount_.getD i 0 = rn)

/-- The member `core::rarest_first`. `rmap` is the receiver registry `rmap_` as the list of
its receivers in iteration order and `rnd` the value of `rand()`. The result is the engine,
the registry, the piece chosen (if one was) and the events. -/
def rarest_first (c : core) (rmap : List receiver) (rnd : Nat) :
    core × List receiver × Option Nat × List Event :=
  if c.finish_ then (c, rmap, none, [])
  else
    let rn := rarest_number c
    if rn = INT_MAX then ({ c with finish_ := true }, rmap, none, [])
    else
      let seqs := rarest_seqs c rn
      let pseq := seqs.getD (rnd % seqs.length) 0
      (c, (rarest_first_pick rmap pseq).1, some pseq, (rarest_first_pick rmap pseq).2)

/-- The member `core::full_downloaded`. -/
def full_downloaded (c : core) : Bool := c.finish_

/-- The loop of `receiver::terminate` over the piece counts: every count that is not zero
is decreased by one. -/
def decrease_pcount (c : core) : core :=
  let pcount := (List.range c.pnum_).foldl
    (fun pc i => if pc.getD i 0 ≠ 0 then pc.set i (pc.getD i 0 - 1) else pc) c.pcount_
  { c with pcount_ := pcount }

/-- The member `receiver::terminate` of the receiver at position `k` of the registry:
the piece counts are decreased, the receiver leaves the registry and `rarest_first` runs
with the random value `rnd`. -/
def terminate (c : core) (rmap : List receiver) (k : Nat) (rnd : Nat) :
    core × List receiver × List Event :=
  let c := decrease_pcount c
  let rmap := rmap.eraseIdx k
  let res := rarest_first c rmap rnd
  (res.1, res.2.1, res.2.2.2)

/-! ## Receiver: blocks, pieces and the message loop -/

/-- The member `receiver::find_block`: the offset in the mapped file of the block at
`offset` of the piece of interest. -/
def receiver_find_block (mi : metainfo) (r : receiver) (offset : Nat) : Nat :=
  (get_piece_size mi * (r.piece_ : Int) + (offset : Int)).toNat

/-- The member `receiver::download`. `size` is the size to download, `rd_piece`, `rd_begin`
and `rd_block` are the outcomes of the three `read` calls and `rate` is the measured rate.
The result is the return value, the receiver and the engine. -/
def download (r : receiver) (c : core) (mi : metainfo) (size : Nat)
    (rd_piece rd_begin rd_block : Option (List Nat)) (rate : Nat) : Bool × receiver × core :=
  match rd_piece with
  | none => (false, { r with running_ := false }, c)
  | some dp =>
    if (dp.take IBL_LEN).length = 0 then (false, { r with running_ := false }, c)
    else
      match rd_begin with
      | none => (false, { r with running_ := false }, c)
      | some db =>
        if (db.take IBL_LEN).length = 0 then (false, { r with running_ := false }, c)
        else
          let _piece := ntohl (u32_of_bytes (dp.take IBL_LEN))
          let begin := ntohl (u32_of_bytes (db.take IBL_LEN))
          let block := receiver_find_block mi r begin
          match rd_block with
          | none => (false, { r with running_ := false }, c)
          | some data =>
            if (data.take size).length = 0 then (false, { r with running_ := false }, c)
            else
              let file := memcpy c.file_ block (data.take size)
              let r := { r with peer_ := { r.peer_ with rate := rate } }
              let progress := c.progress_.set r.piece_
                ((c.progress_.getD r.piece_ 0 + r.size_) % U32)
              (true, r, update_dwn { c with file_ := file, progress_ := progress } r.size_)

/-- The member `receiver::add_request_piece`. -/
def add_request_piece (r : receiver) (c : core) : Bool × core :=
  if c.req_set.contains r.piece_ then (false, c)
  else (true, { c with req_set := r.piece_ :: c.req_set })

/-- The member `receiver::remove_request_piece`. -/
def remove_request_piece (r : receiver) (c : core) : core :=
  { c with req_set := c.req_set.filter (fun p => p != r.piece_) }

/-- The member `receiver::complete_piece`. -/
def complete_piece (r : receiver) (c : core) : Bool :=
  if r.piece_ = (c.pnum_ + U32 - 1) % U32 then
    if c.progress_.getD r.piece_ 0 ≠ c.lplen_ then false else true
  else
    if c.progress_.getD r.piece_ 0 ≠ c.plen_ then false else true

/-- The member `receiver::validate_piece`; `sha` is the function `SHA1`. The offset of the
piece is a product of two `unsigned int` values, the argument `-length` of `update_dwn`
the negation of an `unsigned int`. -/
def validate_piece (sha : List Nat → List Nat) (r : receiver) (c : core) (mi : metainfo) :
    Bool × core :=
  let offset := (r.piece_ * c.plen_) % U32
  let length := if r.piece_ = (c.pnum_ + U32 - 1) % U32 then c.lplen_ else c.plen_
  let hash := sha (mem_read c.file_ offset length)
  if hash.take SHA_DIGEST_LENGTH = mi.piece_hash_.getD r.piece_ [] then (true, c)
  else
    let file := memset c.file_ offset 0 length
    let progress := c.progress_.set r.piece_ 0
    (false, update_dwn { c with file_ := file, progress_ := progress }
      (((U32 - length) % U32 : Nat) : Int))

/-- The member `core::name_target`: the temporary file is renamed and the tracker is told
of the completion. -/
def name_target : List Event := [.rename, .complete]

/-- What the system calls of one `receiver::mesg_handle` call deliver: the return value of
`select`, the outcomes of the `read` of the length prefix, of the message id and of up to
three further `read` calls of the message body, whether the `write` of
`send_uninterested` succeeds, the measured rate and the value of `rand()`. -/
structure mesg_in where
  select_ret : Int
  rd_size : Option (List Nat)
  rd_id : Option (List Nat)
  rd_a : Option (List Nat)
  rd_b : Option (List Nat)
  rd_c : Option (List Nat)
  wr : Bool
  rate : Nat
  rnd : Nat

/-- The end of the PIECE branch of `receiver::mesg_handle`, after `validate_piece` returned
true for the receiver `r` at position `k`: the local bitfield is updated, HAVE and
NOT_INTERESTED are sent, `rarest_first` runs and, when the download is finished, the
temporary file gets the target name and the receiver stops. -/
def mesg_handle_validated (c : core) (rmap : List receiver) (k : Nat) (r : receiver)
    (inp : mesg_in) : Bool × core × List receiver × List Event :=
  let ub := update_bf c r.piece_
  let r := if !ub.1 then { r with running_ := false } else r
  let ev := send_have r.sock_ r.piece_
  let su := send_uninterested r inp.wr
  let rf := rarest_first ub.2 (rmap.set k su.1) inp.rnd
  if full_downloaded rf.1 then
    (false, rf.1, rf.2.1.modify (fun x => { x with running_ := false }) k,
      ev ++ su.2 ++ rf.2.2.2 ++ name_target)
  else (false, rf.1, rf.2.1, ev ++ su.2 ++ rf.2.2.2)

/-- The member `receiver::mesg_handle` of the receiver at position `k` of the registry.
The result is the return value (true: a request may be sent), the engine, the registry
and the events. -/
def mesg_handle (sha : List Nat → List Nat) (mi : metainfo) (c : core)
    (rmap : List receiver) (k : Nat) (inp : mesg_in) :
    Bool × core × List receiver × List Event :=
  match rmap[k]? with
  | none => (true, c, rmap, [])
  | some r =>
    if inp.select_ret = -1 then
      (true, c, rmap.set k { r with running_ := false }, [.fail .FAL_SYS])
    else if inp.select_ret = 0 then (true, c, rmap.set k { r with running_ := false }, [])
    else
      match inp.rd_size with
      | none => (true, c, rmap.set k { r with running_ := false }, [.fail .FAL_SYS])
      | some ds =>
        if (ds.take PF_LEN).length = 0 then
          (true, c, rmap.set k { r with running_ := false }, [])
        else
          let mesg_size := ntohl (u32_of_bytes (ds.take PF_LEN))
          if mesg_size = KEEP_ALIVE then (true, c, rmap, [])
          else
            match inp.rd_id with
            | none => (true, c, rmap.set k { r with running_ := false }, [.fail .FAL_SYS])
            | some di =>
              let mesg_id := (di.take ID_LEN).getD 0 0
              if mesg_id = BIT_FIELD then
                let rb := recv_bitfield r c ((mesg_size + U32 - ID_LEN) % U32) inp.rd_a
                if !rb.1 then
                  (true, rb.2.2.1, rmap.set k rb.2.1, rb.2.2.2.map Event.fail)
                else
                  let rf := rarest_first rb.2.2.1 (rmap.set k rb.2.1) inp.rnd
                  (false, rf.1, rf.2.1, rb.2.2.2.map Event.fail ++ rf.2.2.2)
              else if mesg_id = UNCHOKE then
                let r := { r with peer_ := { r.peer_ with choking := false } }
                let ar := add_request_piece r c
                if ar.1 then (true, ar.2, rmap.set k r, [])
                else
                  let su := send_uninterested r inp.wr
                  (false, ar.2, rmap.set k su.1, su.2)
              else if mesg_id = CHOKE then
                let r := { r with peer_ := { r.peer_ with choking := true } }
                (false, remove_request_piece r c, rmap.set k r, [])
              else if mesg_id = PIECE then
                let dl := download r c mi ((mesg_size + U32 - PIC_LEN) % U32)
                  inp.rd_a inp.rd_b inp.rd_c inp.rate
                if !dl.1 then (true, dl.2.2, rmap.set k dl.2.1, [])
                else if !complete_piece dl.2.1 dl.2.2 then
                  (true, dl.2.2, rmap.set k dl.2.1, [])
                else
                  let vp := validate_piece sha dl.2.1 dl.2.2 mi
                  if !vp.1 then (true, vp.2, rmap.set k dl.2.1, [])
                  else mesg_handle_validated vp.2 rmap k dl.2.1 inp
              else if mesg_id = HAVE then
                (false, c, rmap.set k (do_update_pbf r inp.rd_a), [])
              else (false, c, rmap, [])

/-- One turn of the loop of `receiver::run` for the receiver at position `k` of the
registry: a message is handled; a receiver that no longer runs leaves the loop, whether
`mesg_handle` returned true (`goto _EXIT`) or false (the loop condition), and terminates
(`rnd_t` is the value of `rand()` then); otherwise, if a request is permitted and the
receiver is interested and not choked, `send_request` is called. The result is the
engine, the registry, the events and whether the loop goes on. -/
def run_turn (sha : List Nat → List Nat) (mi : metainfo) (c : core) (rmap : List receiver)
    (k : Nat) (inp : mesg_in) (rnd_t : Nat) : core × List receiver × List Event × Bool :=
  let mh := mesg_handle sha mi c rmap k inp
  match mh.2.2.1[k]? with
  | none => (mh.2.1, mh.2.2.1, mh.2.2.2, false)
  | some r =>
    if !r.running_ then
      let t := terminate mh.2.1 mh.2.2.1 k rnd_t
      (t.1, t.2.1, mh.2.2.2 ++ t.2.2, false)
    else if !mh.1 then (mh.2.1, mh.2.2.1, mh.2.2.2, true)
    else if !r.peer_.interested then (mh.2.1, mh.2.2.1, mh.2.2.2, true)
    else if r.peer_.choking then (mh.2.1, mh.2.2.1, mh.2.2.2, true)
    else
      let sr := send_request r mh.2.1
      (mh.2.1, mh.2.2.1.set k sr.1, mh.2.2.2 ++ [.write r.sock_ sr.2], true)

/-! ## The rarity vector and the connected peers -/

/-- The number of receivers of the registry whose peer bitfield has bit `i` set. -/
def peers_with (rmap : List receiver) (i : Nat) : Nat :=
  rmap.countP (fun r => test_bit r.peer_.bitfield i)

/-- Every piece count that is not the sentinel `INT_MAX` is the number of connected peers
whose last observed bitfield has the bit of the piece set. -/
def rarity_matches (c : core) (rmap : List receiver) : Prop :=
  ∀ i, i < c.pnum_ → c.pcount_.getD i 0 ≠ INT_MAX →
    c.pcount_.getD i 0 = (peers_with rmap i : Int)

/-- The states of engine and receiver registry reached from the engine `c0` without
receivers by handshakes (a receiver with a zero peer bitfield joins the registry),
BITFIELD handling (`recv_bitfield`, which calls `update_pcount`), HAVE handling
(`do_update_pbf`), pieces becoming owned (`update_bf`) and receiver teardown
(`terminate`). -/
inductive rarity_reachable (c0 : core) : core → List receiver → Prop where
  | init : rarity_reachable c0 c0 []
  | connect (c : core) (rmap : List receiver) (r : receiver) :
      rarity_reachable c0 c rmap → r.peer_.bitfield = List.replicate c.bflen_ 0 →
      rarity_reachable c0 c (rmap ++ [r])
  | bitfield (c : core) (rmap : List receiver) (k : Nat) (r : receiver) (size : Nat)
      (rd : Option (List Nat)) :
      rarity_reachable c0 c rmap → rmap[k]? = some r →
      rarity_reachable c0 (recv_bitfield r c size rd).2.2.1
        (rmap.set k (recv_bitfield r c size rd).2.1)
  | have_ (c : core) (rmap : List receiver) (k : Nat) (r : receiver)
      (rd : Option (List Nat)) :
      rarity_reachable c0 c rmap → rmap[k]? = some r →
      rarity_reachable c0 c (rmap.set k (do_update_pbf r rd))
  | own (c : core) (rmap : List receiver) (index : Nat) :
      rarity_reachable c0 c rmap → index < c.pnum_ →
      rarity_reachable c0 (update_bf c index).2 rmap
  | teardown (c : core) (rmap : List receiver) (k rnd : Nat) :
      rarity_reachable c0 c rmap → k < rmap.length →
      rarity_reachable c0 (terminate c rmap k rnd).1 (terminate c rmap k rnd).2.1

/-- The states reached from the engine `c0` without receivers by handshakes, BITFIELD
handling for a receiver none of whose bits was counted before, HAVE handling and pieces
becoming owned, without teardown. Each receiver is paired with the bitfield that
`update_pcount` counted for it (empty before its BITFIELD). -/
inductive rarity_counted (c0 : core) : core → List (receiver × List Nat) → Prop where
  | init : rarity_counted c0 c0 []
  | connect (c : core) (rs : List (receiver × List Nat)) (r : receiver) :
      rarity_counted c0 c rs → r.peer_.bitfield = List.replicate c.bflen_ 0 →
      rarity_counted c0 c (rs ++ [(r, [])])
  | bitfield (c : core) (rs : List (receiver × List Nat)) (k : Nat) (r : receiver)
      (seen : List Nat) (size : Nat) (rd : Option (List Nat)) :
      rarity_counted c0 c rs → rs[k]? = some (r, seen) →
      (∀ i, test_bit seen i = false) →
      (recv_bitfield r c size rd).1 = true →
      rarity_counted c0 (recv_bitfield r c size rd).2.2.1
        (rs.set k ((recv_bitfield r c size rd).2.1,
          (recv_bitfield r c size rd).2.1.peer_.bitfield))
  | bitfield_failed (c : core) (rs : List (receiver × List Nat)) (k : Nat) (r : receiver)
      (seen : List Nat) (size : Nat) (rd : Option (List Nat)) :
      rarity_counted c0 c rs → rs[k]? = some (r, seen) →
      (recv_bitfield r c size rd).1 = false →
      rarity_counted c0 (recv_bitfield r c size rd).2.2.1
        (rs.set k ((recv_bitfield r c size rd).2.1, seen))
  | have_ (c : core) (rs : List (receiver × List Nat)) (k : Nat) (r : receiver)
      (seen : List Nat) (rd : Option (List Nat)) :
      rarity_counted c0 c rs → rs[k]? = some (r, seen) →
      rarity_counted c0 c (rs.set k (do_update_pbf r rd, seen))
  | own (c : core) (rs : List (receiver × List Nat)) (index : Nat) :
      rarity_counted c0 c rs → index < c.pnum_ →
      rarity_counted c0 (update_bf c index).2 rs

/-- The number of receivers for which `update_pcount` counted bit `i`. -/
def counted_with (rs : List (receiver × List Nat)) (i : Nat) : Nat :=
  rs.countP (fun p => test_bit p.2 i)

/-- The invariant of the rarity vector along `rarity_counted`: a piece count that is not
the sentinel is the number of receivers for which the bit was counted, and a counted bit
is set in the peer bitfield of its receiver. -/
def rarity_inv (c0 c : core) (rs : List (receiver × List Nat)) : Prop :=
  c.pnum_ = c0.pnum_ ∧ c.pcount_.length = c.pnum_ ∧
  (∀ i, i < c.pnum_ → c.pcount_.getD i 0 ≠ INT_MAX →
    c.pcount_.getD i 0 = (counted_with rs i : Int)) ∧
  (∀ p, p ∈ rs → ∀ i, test_bit p.2 i = true → test_bit p.1.peer_.bitfield i = true)

/-! ## Concrete inputs: a torrent of two pieces -/

/-- The parsed metainfo of a torrent of two pieces: `piece length` 4, `length` 6, so that
the last piece has 2 bytes; every piece hash is twenty bytes `0x01`. -/
def t6_metainfo : metainfo :=
  { announce_ := [104], filename_ := [102], peer_id_ := VERSION_ ++ List.replicate 12 1,
    info_hash_ := List.replicate 20 170, piece_length_ := 4, last_size_ := 2,
    file_size_ := 6, piece_hash_ := [List.replicate 20 1, List.replicate 20 1] }

/-- A leecher of the two-piece torrent that owns piece 0 and knows one peer with
piece 1. -/
def c12_core : core :=
  { role_ := .P_LEECHER, file_ := [9, 9, 9, 9, 0, 0], agent_ := agent0, bitfield_ := [128],
    pcount_ := [INT_MAX, 1], finish_ := false, pnum_ := 2, lplen_ := 2, plen_ := 4,
    bflen_ := 1, spare_offset_ := 6, actime_ := 0, req_set := [],
    progress_ := [4, 0] }

/-- A receiver whose peer holds both pieces and from which piece 1 is wanted. -/
def c12_receiver_a : receiver :=
  { running_ := false,
    peer_ := { ip := 0, rate := 0, choking := true, interested := true, bitfield := [192],
               id := VERSION_ ++ List.replicate 12 2 },
    piece_ := 1, size_ := 0, sock_ := 3 }

/-- A receiver whose peer holds piece 0 only, which the leecher owns already. -/
def c12_receiver_b : receiver :=
  { running_ := true,
    peer_ := { ip := 0, rate := 0, choking := true, interested := false, bitfield := [128],
               id := VERSION_ ++ List.replicate 12 3 },
    piece_ := 0, size_ := 0, sock_ := 4 }

/-- The receiver `c12_receiver_b` after `rarest_first` chose it for piece 0. -/
def c12_receiver_b_picked : receiver :=
  { running_ := true,
    peer_ := { ip := 0, rate := 0, choking := true, interested := true, bitfield := [128],
               id := VERSION_ ++ List.replicate 12 3 },
    piece_ := 0, size_ := 0, sock_ := 4 }

/-- A leecher of the two-piece torrent that owns nothing yet: its only peer holds piece 1
and no connected peer holds piece 0. Piece 1 is claimed in the requested set. -/
def c14_core : core :=
  { role_ := .P_LEECHER, file_ := [0, 0, 0, 0, 0, 0], agent_ := agent0, bitfield_ := [0],
    pcount_ := [0, 1], finish_ := false, pnum_ := 2, lplen_ := 2, plen_ := 4,
    bflen_ := 1, spare_offset_ := 6, actime_ := 0, req_set := [1],
    progress_ := [0, 0] }

/-- The receiver of that peer after it sent REQUEST `(1, 0, 2)`. -/
def c14_receiver : receiver :=
  { running_ := true,
    peer_ := { ip := 0, rate := 0, choking := false, interested := true, bitfield := [64],
               id := VERSION_ ++ List.replicate 12 2 },
    piece_ := 1, size_ := 2, sock_ := 5 }

/-- The system calls of a `mesg_handle` call that receives the PIECE message
`(1, 0, [7, 8])` as `sender::upload` writes it: length prefix 15, id 7, index, begin and a
block of two bytes. -/
def c14_piece : mesg_in :=
  { select_ret := 1, rd_size := some [0, 0, 0, 15], rd_id := some [7],
    rd_a := some [0, 0, 0, 1], rd_b := some [0, 0, 0, 0], rd_c := some [7, 8],
    wr := true, rate := 1000, rnd := 0 }

/-- The engine after that PIECE message was handled and its piece validated. -/
def c14_core_after : core :=
  { role_ := .P_LEECHER, file_ := [0, 0, 0, 0, 7, 8],
    agent_ := { upload_ := 0, download_ := 2 }, bitfield_ := [64],
    pcount_ := [0, INT_MAX], finish_ := true, pnum_ := 2, lplen_ := 2, plen_ := 4,
    bflen_ := 1, spare_offset_ := 6, actime_ := 0, req_set := [1],
    progress_ := [0, 2] }

/-- The receiver after that PIECE message was handled and its piece validated. -/
def c14_receiver_after : receiver :=
  { running_ := false,
    peer_ := { ip := 0, rate := 1000, choking := false, interested := false,
               bitfield := [64], id := VERSION_ ++ List.replicate 12 2 },
    piece_ := 1, size_ := 2, sock_ := 5 }

/-- The engine with `finish_` set and piece 0 missing, `c14_core_after`, after the
BITFIELD `0x80` of a peer that holds piece 0 was counted by `update_pcount`. -/
def c13_core_latched : core := (update_pcount c14_core_after [128]).2

/-- The `download` call of the PIECE branch of `mesg_handle` for the receiver `r` when the
`read` of the length prefix delivered `ds`. -/
def piece_download (r : receiver) (c : core) (mi : metainfo) (inp : mesg_in)
    (ds : List Nat) : Bool × receiver × core :=
  download r c mi ((ntohl (u32_of_bytes (ds.take PF_LEN)) + U32 - PIC_LEN) % U32)
    inp.rd_a inp.rd_b inp.rd_c inp.rate

/-! ## The request and PIECE cycle of a receiver -/

/-- The states of engine and receiver registry reached from `c0` and `rmap0` by turns of
the loop of `receiver::run`: any receiver of the registry that is running
(`while (this->running_)`) handles any message, with any outcome of its system calls, and
may send a request after it. -/
inductive loop_reachable (sha : List Nat → List Nat) (mi : metainfo) (c0 : core)
    (rmap0 : List receiver) : core → List receiver → Prop where
  | init : loop_reachable sha mi c0 rmap0 c0 rmap0
  | turn (c : core) (rmap : List receiver) (k : Nat) (inp : mesg_in) (rnd_t : Nat) :
      loop_reachable sha mi c0 rmap0 c rmap →
      (rmap[k]?).map receiver.running_ = some true →
      loop_reachable sha mi c0 rmap0 (run_turn sha mi c rmap k inp rnd_t).1
        (run_turn sha mi c rmap k inp rnd_t).2.1

/-- The invariant of the progress vector: no piece has more progress than its length. -/
def progress_bounded (c : core) : Prop :=
  ∀ i, i < c.pnum_ → c.progress_.getD i 0 ≤ spec_piece_length c i

/-- The system calls of a `mesg_handle` call that receives a PIECE message for piece 0
with the offset `begin` and a block of 16384 bytes. -/
def c16_piece (begin : Nat) : mesg_in :=
  { select_ret := 1, rd_size := some (wire_bytes 16393), rd_id := some [7],
    rd_a := some (wire_bytes 0), rd_b := some (wire_bytes begin),
    rd_c := some (List.replicate 16384 7), wr := true, rate := 1000, rnd := 0 }

/-- A leecher of a torrent of three pieces with `piece length` 20000 and `length` 50000
right after its construction. -/
def c16_core : core :=
  { role_ := .P_LEECHER, file_ := List.replicate 50000 0, agent_ := agent0, bitfield_ := [0],
    pcount_ := [1, 1, 1], finish_ := false, pnum_ := 3, lplen_ := 10000, plen_ := 20000,
    bflen_ := 1, spare_offset_ := 5, actime_ := 0, req_set := [0],
    progress_ := [0, 0, 0] }

/-- The parsed metainfo of that torrent. -/
def c16_metainfo : metainfo :=
  { announce_ := [104], filename_ := [102], peer_id_ := VERSION_ ++ List.replicate 12 1,
    info_hash_ := List.replicate 20 170, piece_length_ := 20000, last_size_ := 10000,
    file_size_ := 50000, piece_hash_ := List.replicate 3 (List.replicate 20 1) }

/-- A leecher of a torrent of two pieces with `piece length` 32768 and `length` 32868
right after its construction. -/
def c16_core_aligned : core :=
  { role_ := .P_LEECHER, file_ := List.replicate 32868 0, agent_ := agent0, bitfield_ := [0],
    pcount_ := [1, 1], finish_ := false, pnum_ := 2, lplen_ := 100, plen_ := 32768,
    bflen_ := 1, spare_offset_ := 6, actime_ := 0, req_set := [0],
    progress_ := [0, 0] }

/-- The parsed metainfo of that torrent. -/
def c16_metainfo_aligned : metainfo :=
  { announce_ := [104], filename_ := [102], peer_id_ := VERSION_ ++ List.replicate 12 1,
    info_hash_ := List.replicate 20 170, piece_length_ := 32768, last_size_ := 100,
    file_size_ := 32868, piece_hash_ := List.replicate 2 (List.replicate 20 1) }

/-! ## Concrete inputs of the requested-piece set -/

/-- The number of receivers of the registry that fetch piece `p`: they are interested, not
choked and have `p` as their piece, which is when `receiver::run` sends requests for it. -/
def spec_fetching (rmap : List receiver) (p : Nat) : Nat :=
  rmap.countP (fun r => r.peer_.interested && !r.peer_.choking && r.piece_ == p)

/-- A leecher of a torrent of four pieces of two bytes that owns no piece and whose
requested-piece set is empty. -/
def c17_core : core :=
  { role_ := .P_LEECHER, file_ := List.replicate 8 0, agent_ := agent0, bitfield_ := [0],
    pcount_ := [3, 3, 3, 3], finish_ := false, pnum_ := 4, lplen_ := 2, plen_ := 2,
    bflen_ := 1, spare_offset_ := 4, actime_ := 0, req_set := [],
    progress_ := [0, 0, 0, 0] }

/-- The parsed metainfo of that torrent. -/
def c17_metainfo : metainfo :=
  { announce_ := [104], filename_ := [102], peer_id_ := VERSION_ ++ List.replicate 12 1,
    info_hash_ := List.replicate 20 170, piece_length_ := 2, last_size_ := 2,
    file_size_ := 8, piece_hash_ := List.replicate 4 (List.replicate 20 1) }

/-- A receiver on socket `sock` that `rarest_first` gave piece 3: interested, still choked
by its peer, which is a seeder. -/
def c17_receiver (sock : Int) : receiver :=
  { running_ := true,
    peer_ := { ip := 0, rate := 0, choking := true, interested := true, bitfield := [240],
               id := VERSION_ ++ List.replicate 12 2 },
    piece_ := 3, size_ := 0, sock_ := sock }

/-- The system calls of a `mesg_handle` call that receives an UNCHOKE message. -/
def c17_unchoke : mesg_in :=
  { select_ret := 1, rd_size := some [0, 0, 0, 1], rd_id := some [1], rd_a := none,
    rd_b := none, rd_c := none, wr := true, rate := 0, rnd := 0 }

/-- The system calls of a `mesg_handle` call that receives a CHOKE message. -/
def c17_choke : mesg_in :=
  { select_ret := 1, rd_size := some [0, 0, 0, 1], rd_id := some [0], rd_a := none,
    rd_b := none, rd_c := none, wr := true, rate := 0, rnd := 0 }

/-- The first turn of the loop of `run`: the receiver on socket 1 receives UNCHOKE. -/
def c17_turn1 (sha : List Nat → List Nat) : core × List receiver × List Event × Bool :=
  run_turn sha c17_metainfo c17_core [c17_receiver 1, c17_receiver 2, c17_receiver 3] 0
    c17_unchoke 0

/-- The second turn: the receiver on socket 2 receives UNCHOKE. -/
def c17_turn2 (sha : List Nat → List Nat) : core × List receiver × List Event × Bool :=
  run_turn sha c17_metainfo (c17_turn1 sha).1 (c17_turn1 sha).2.1 1 c17_unchoke 0

/-- The third turn: the receiver on socket 2 receives CHOKE. -/
def c17_turn3 (sha : List Nat → List Nat) : core × List receiver × List Event × Bool :=
  run_turn sha c17_metainfo (c17_turn2 sha).1 (c17_turn2 sha).2.1 1 c17_choke 0

/-- The fourth turn: the receiver on socket 3 receives UNCHOKE. -/
def c17_turn4 (sha : List Nat → List Nat) : core × List receiver × List Event × Bool :=
  run_turn sha c17_metainfo (c17_turn3 sha).1 (c17_turn3 sha).2.1 2 c17_unchoke 0

/-! ## Concrete inputs of the completion of a piece -/

/-- A leecher of the two-piece torrent that owns nothing yet; its only peer holds both
pieces. Piece 1 is claimed in the requested set. -/
def c18_core : core :=
  { role_ := .P_LEECHER, file_ := [0, 0, 0, 0, 0, 0], agent_ := agent0, bitfield_ := [0],
    pcount_ := [1, 1], finish_ := false, pnum_ := 2, lplen_ := 2, plen_ := 4,
    bflen_ := 1, spare_offset_ := 6, actime_ := 0, req_set := [1],
    progress_ := [0, 0] }

/-- The receiver of that peer after it sent REQUEST `(1, 0, 2)`. -/
def c18_receiver : receiver :=
  { running_ := true,
    peer_ := { ip := 0, rate := 0, choking := false, interested := true, bitfield := [192],
               id := VERSION_ ++ List.replicate 12 2 },
    piece_ := 1, size_ := 2, sock_ := 5 }

/-- The engine after the PIECE message `(1, 0, [7, 8])` was handled and piece 1
validated. -/
def c18_core_after : core :=
  { role_ := .P_LEECHER, file_ := [0, 0, 0, 0, 7, 8],
    agent_ := { upload_ := 0, download_ := 2 }, bitfield_ := [64],
    pcount_ := [1, INT_MAX], finish_ := false, pnum_ := 2, lplen_ := 2, plen_ := 4,
    bflen_ := 1, spare_offset_ := 6, actime_ := 0, req_set := [1],
    progress_ := [0, 2] }

/-- The receiver after that message: `rarest_first` gave it piece 0. -/
def c18_receiver_after : receiver :=
  { running_ := true,
    peer_ := { ip := 0, rate := 1000, choking := false, interested := true,
               bitfield := [192], id := VERSION_ ++ List.replicate 12 2 },
    piece_ := 0, size_ := 2, sock_ := 5 }

/-! ## Concrete inputs of the receiver loop -/

/-- The system calls of a `mesg_handle` call that receives a keep-alive message: a length
prefix of zero and nothing else. -/
def c19_keep_alive : mesg_in :=
  { select_ret := 1, rd_size := some [0, 0, 0, 0], rd_id := none, rd_a := none,
    rd_b := none, rd_c := none, wr := true, rate := 0, rnd := 0 }

/-- The system calls of a `mesg_handle` call that receives the message HAVE 0. -/
def c19_have : mesg_in :=
  { select_ret := 1, rd_size := some [0, 0, 0, 5], rd_id := some [4],
    rd_a := some [0, 0, 0, 0], rd_b := none, rd_c := none, wr := true, rate := 0,
    rnd := 0 }

/-! ## Concrete inputs of the validation of a piece -/

/-- A leecher of a torrent of 257 pieces with `piece length` 16777216 and `length`
4294967396, so that the last piece, piece 256, starts at offset 4294967296 of the file and
has 100 bytes. Every byte of the mapped file is 1; piece 256 was downloaded completely. -/
def c20_core : core :=
  { role_ := .P_LEECHER, file_ := List.replicate 4294967396 1, agent_ := agent0,
    bitfield_ := List.replicate 33 0, pcount_ := List.replicate 257 1, finish_ := false,
    pnum_ := 257, lplen_ := 100, plen_ := 16777216, bflen_ := 33, spare_offset_ := 7,
    actime_ := 0, req_set := [256], progress_ := List.replicate 256 0 ++ [100] }

/-- The parsed metainfo of that torrent. -/
def c20_metainfo : metainfo :=
  { announce_ := [104], filename_ := [102], peer_id_ := VERSION_ ++ List.replicate 12 1,
    info_hash_ := List.replicate 20 170, piece_length_ := 16777216, last_size_ := 100,
    file_size_ := 4294967396, piece_hash_ := List.replicate 257 (List.replicate 20 2) }

/-- The receiver that downloaded piece 256 from a seeder. -/
def c20_receiver : receiver :=
  { running_ := true,
    peer_ := { ip := 0, rate := 0, choking := false, interested := true,
               bitfield := List.replicate 32 255 ++ [128],
               id := VERSION_ ++ List.replicate 12 2 },
    piece_ := 256, size_ := 100, sock_ := 5 }

/-- The first turn of the loop of `run` of a single receiver that was given piece 3: it
receives UNCHOKE. -/
def c19_turn1 (sha : List Nat → List Nat) : core × List receiver × List Event × Bool :=
  run_turn sha c17_metainfo c17_core [c17_receiver 1] 0 c17_unchoke 0

/-- The turn after it when a keep-alive message arrives. -/
def c19_turn_keep_alive (sha : List Nat → List Nat) :
    core × List receiver × List Event × Bool :=
  run_turn sha c17_metainfo (c19_turn1 sha).1 (c19_turn1 sha).2.1 0 c19_keep_alive 0

/-- The turn after it when the message HAVE 0 arrives instead. -/
def c19_turn_have (sha : List Nat → List Nat) : core × List receiver × List Event × Bool :=
  run_turn sha c17_metainfo (c19_turn1 sha).1 (c19_turn1 sha).2.1 0 c19_have 0

/-! ## Concrete inputs of a duplicate PIECE message -/

/-- The parsed metainfo of a torrent of two pieces with `piece length` 16384 and `length`
16484; every piece hash is twenty bytes `0x01`. -/
def c16_metainfo_dup : metainfo :=
  { announce_ := [104], filename_ := [102], peer_id_ := VERSION_ ++ List.replicate 12 1,
    info_hash_ := List.replicate 20 170, piece_length_ := 16384, last_size_ := 100,
    file_size_ := 16484, piece_hash_ := List.replicate 2 (List.replicate 20 1) }

/-- A leecher of that torrent that owns nothing; one peer holds piece 0, another one
piece 1, and piece 0 is claimed in the requested set. -/
def c16_core_dup : core :=
  { role_ := .P_LEECHER, file_ := List.replicate 16484 0, agent_ := agent0, bitfield_ := [0],
    pcount_ := [1, 1], finish_ := false, pnum_ := 2, lplen_ := 100, plen_ := 16384,
    bflen_ := 1, spare_offset_ := 6, actime_ := 0, req_set := [0],
    progress_ := [0, 0] }

/-- The receiver of the peer with piece 0, on socket 5, after it sent REQUEST
`(0, 0, 16384)`, and the receiver of the peer with piece 1, on socket 6. -/
def c16_rmap_dup : List receiver :=
  [{ running_ := true,
     peer_ := { ip := 0, rate := 0, choking := false, interested := true, bitfield := [128],
                id := VERSION_ ++ List.replicate 12 1 },
     piece_ := 0, size_ := 16384, sock_ := 5 },
   { running_ := true,
     peer_ := { ip := 0, rate := 0, choking := true, interested := false, bitfield := [64],
                id := VERSION_ ++ List.replicate 12 2 },
     piece_ := 0, size_ := 0, sock_ := 6 }]

/-- A digest function under which every piece has the expected hash. -/
def c16_sha : List Nat → List Nat := fun _ => List.replicate 20 1

/-- The first turn: the receiver on socket 5 receives a keep-alive message and sends
REQUEST `(0, 0, 16384)` a second time. -/
def c16_dup_turn1 : core × List receiver × List Event × Bool :=
  run_turn c16_sha c16_metainfo_dup c16_core_dup c16_rmap_dup 0 c19_keep_alive 0

/-- The second turn: the PIECE message that answers the first request completes piece 0,
which validates. -/
def c16_dup_turn2 : core × List receiver × List Event × Bool :=
  run_turn c16_sha c16_metainfo_dup c16_dup_turn1.1 c16_dup_turn1.2.1 0 (c16_piece 0) 0

/-- The third turn: the PIECE message that answers the second request arrives. -/
def c16_dup_turn3 : core × List receiver × List Event × Bool :=
  run_turn c16_sha c16_metainfo_dup c16_dup_turn2.1 c16_dup_turn2.2.1 0 (c16_piece 0) 0

/-! ## HAVE messages to the senders -/

/-- The member `sender::do_send_have`. -/
def do_send_have (s : sender) (index : Nat) : List Event := send_have s.sock_ index

/-- The member `receiver::broadcast_have`: every sender of the registry `smap_`, given as
the list of its senders in iteration order, sends HAVE for the piece of the receiver. -/
def broadcast_have (smap : List sender) (r : receiver) : List Event :=
  smap.foldl (fun ev s => ev ++ do_send_have s r.piece_) []

/-- A sender registry with two senders, on the sockets 7 and 8. -/
def c21_smap : List sender :=
  [{ running_ := true, peer_ := peer_ctor 0 1, piece_ := 0, begin_ := 0, size_ := 0,
     sock_ := 7 },
   { running_ := true, peer_ := peer_ctor 0 1, piece_ := 0, begin_ := 0, size_ := 0,
     sock_ := 8 }]

/-! ## The failed validation of a piece and the counters -/

/-- The engine and the receiver of the two-piece torrent after the PIECE message
`(1, 0, [7, 8])` was downloaded: piece 1 is complete and not validated yet. -/
def c29_downloaded : Bool × receiver × core :=
  piece_download c18_receiver c18_core t6_metainfo c14_piece [0, 0, 0, 15]

/-! ## The choke scheduler and the unchoked set -/

/-- Number of total unchoking peers (`core.h`). -/
def RECIP_ : Nat := 4
/-- Number of regular unchoking peers (`core.h`). -/
def RE_UNCHK_ : Nat := 3
/-- Period in seconds of the optimistic unchoke (`core.h`). -/
def OU_PERD_ : Int := 30
/-- Timeout unit in seconds (`core.h`). -/
def TO_UNIT_ : Int := 10

/-- A `peer*`: the peer object of the receiver or of the sender at a position of its
registry. A receiver and a sender of the same remote peer have two peer objects. -/
inductive peer_ref where
  | recv (k : Nat)
  | send (k : Nat)
  deriving DecidableEq, Repr

/-- The engine with its registries: the data members of `core` held by the structure
`core`, the receiver registry `rmap_` and the sender registry `smap_` as lists in
iteration order, the set `unchoked_` as a list and the optimistic peer `opp_`. -/
structure engine where
  core_ : core
  rmap_ : List receiver
  smap_ : List sender
  unchoked_ : List peer_ref
  opp_ : Option peer_ref
  deriving DecidableEq, Repr

/-- What the undefined behaviour of the scheduler is: an element of a vector read at an
index that is not below its size, an integer remainder by zero, and the increment of an
iterator whose element was erased from its set. -/
inductive Fault where
  | READ_PAST_END (index size : Nat)
  | DIV_BY_ZERO
  | INVALID_ITERATOR
  deriving DecidableEq, Repr

/-- The peer object behind a `peer*`. -/
def peer_at (e : engine) (p : peer_ref) : Option peer :=
  match p with
  | .recv k => (e.rmap_[k]?).map (fun r => r.peer_)
  | .send k => (e.smap_[k]?).map (fun s => s.peer_)

/-- The assignment `p->choking = b` through a `peer*`. -/
def set_choking (e : engine) (p : peer_ref) (b : Bool) : engine :=
  match p with
  | .recv k =>
    let rmap := e.rmap_.modify (fun r => { r with peer_ := { r.peer_ with choking := b } }) k
    { e with rmap_ := rmap }
  | .send k =>
    let smap := e.smap_.modify (fun s => { s with peer_ := { s.peer_ with choking := b } }) k
    { e with smap_ := smap }

/-- The `insert` of an `unordered_set`, kept as a list without duplicates. -/
def set_insert (l : List peer_ref) (p : peer_ref) : List peer_ref :=
  if l.contains p then l else l ++ [p]

/-- The member `sender::send_unchoke`: the UNCHOKE message is written. -/
def send_unchoke (s : sender) : List Event :=
  let buff := List.replicate (PF_LEN + ID_LEN) 0
  let len_pfx := htonl COMM_LEN
  let buff := memcpy buff 0 (u32_bytes len_pfx)
  let buff := memset buff PF_LEN UNCHOKE ID_LEN
  [.write s.sock_ (buff.take (PF_LEN + ID_LEN))]

/-- The member `sender::send_choke`: the CHOKE message is written. -/
def send_choke (s : sender) : List Event :=
  let mesg_buff := List.replicate (PF_LEN + ID_LEN) 0
  let mesg_size := htonl COMM_LEN
  let mesg_buff := memcpy mesg_buff 0 (u32_bytes mesg_size)
  let mesg_buff := memset mesg_buff PF_LEN CHOKE ID_LEN
  [.write s.sock_ (mesg_buff.take (PF_LEN + ID_LEN))]

/-- The member `sender::need_unchoke` of the sender at position `k` of the registry. -/
def need_unchoke (e : engine) (k : Nat) : Bool × engine :=
  match e.smap_[k]? with
  | none => (false, e)
  | some s =>
    if e.unchoked_.length < RECIP_ then
      let e := set_choking e (.send k) false
      (true, { e with unchoked_ := set_insert e.unchoked_ (.send k) })
    else (s.peer_.choking, e)

/-- The INTERESTED branch of `sender::req_handler` of the sender at position `k`. -/
def req_handler_interested (e : engine) (k : Nat) : engine × List Event :=
  match e.smap_[k]? with
  | none => (e, [])
  | some s =>
    let pr := { s.peer_ with interested := true }
    let e := { e with smap_ := e.smap_.set k { s with peer_ := pr } }
    let nu := need_unchoke e k
    if !nu.1 then (nu.2, [])
    else (nu.2, send_unchoke s)

/-- The NO_INTERESTED branch of `sender::req_handler` of the sender at position `k`. -/
def req_handler_uninterested (e : engine) (k : Nat) : engine × List Event :=
  match e.smap_[k]? with
  | none => (e, [])
  | some s =>
    let e := { e with unchoked_ := e.unchoked_.erase (.send k) }
    let pr := { s.peer_ with interested := false, choking := true }
    let e := { e with smap_ := e.smap_.set k { s with peer_ := pr } }
    (e, send_choke s)

/-- The first loop of `core::re_unchoke`: the positions of the receivers whose peer is
registered as a sender (`smap_.count(pr->id)`) and in whose peer the client is
interested. -/
def re_unchoke_candidates (e : engine) : List Nat :=
  (List.range e.rmap_.length).filter (fun k =>
    match e.rmap_[k]? with
    | none => false
    | some recv => e.smap_.any (fun s => s.peer_.id == recv.peer_.id) && recv.peer_.interested)

/-- The rate of the peer of the receiver at position `k`. -/
def recv_rate (e : engine) (k : Nat) : Nat :=
  match e.rmap_[k]? with
  | none => 0
  | some recv => recv.peer_.rate

/-- The `sort` of `core::re_unchoke`: rates in descending order. -/
def sort_drates (e : engine) (drates : List Nat) : List Nat :=
  drates.insertionSort (fun a b => recv_rate e b ≤ recv_rate e a)

/-- The loop `top_three.insert(drates[i])` of `core::re_unchoke` over the indices `is`. -/
def top_three_loop (drates : List Nat) : List Nat → List peer_ref →
    Except Fault (List peer_ref)
  | [], top => .ok top
  | i :: is, top =>
    match drates[i]? with
    | none => .error (.READ_PAST_END i drates.length)
    | some k => top_three_loop drates is (set_insert top (.recv k))

/-- The second loop of `core::re_unchoke`, over the members `it` of the unchoked set: a
peer that is neither among the top three nor the optimistic peer is choked and erased
from the set by its key; the loop then increments the iterator of the erased element,
which is undefined. A member that stays is passed over. -/
def choke_loop (top : List peer_ref) (e : engine) : List peer_ref → Except Fault engine
  | [] => .ok e
  | p :: it =>
    if !top.contains p && e.opp_ != some p then .error .INVALID_ITERATOR
    else choke_loop top e it

/-- The body of the third loop of `core::re_unchoke`, for the peer `p` of the top three:
the optimistic slot is freed if `p` holds it; a peer that is marked choking is marked
unchoked, joins the unchoked set and the sender registered under its id sends UNCHOKE. -/
def unchoke_step (x : engine × List Event) (p : peer_ref) : engine × List Event :=
  let e := if x.1.opp_ = some p then { x.1 with opp_ := none } else x.1
  match peer_at e p with
  | none => (e, x.2)
  | some pr =>
    if !pr.choking then (e, x.2)
    else
      let e := set_choking e p false
      let e := { e with unchoked_ := set_insert e.unchoked_ p }
      match e.smap_.find? (fun s => s.peer_.id == pr.id) with
      | none => (e, x.2)
      | some s => (e, x.2 ++ send_unchoke s)

/-- The member `core::re_unchoke`. -/
def re_unchoke (e : engine) : Except Fault (engine × List Event) :=
  if e.smap_.length ≤ RECIP_ then .ok (e, [])
  else
    let drates := sort_drates e (re_unchoke_candidates e)
    match top_three_loop drates (List.range RE_UNCHK_) [] with
    | .error f => .error f
    | .ok top =>
      match choke_loop top e e.unchoked_ with
      | .error f => .error f
      | .ok e1 => .ok (top.foldl unchoke_step (e1, []))

/-- The senders `pv` that `core::op_unchoke` draws from: their peer is interested and
choked. -/
def op_unchoke_candidates (e : engine) : List Nat :=
  (List.range e.smap_.length).filter (fun k =>
    match e.smap_[k]? with
    | none => false
    | some s => s.peer_.interested && s.peer_.choking)

/-- The member `core::op_unchoke`; `rnd` is the value of `rand()`. -/
def op_unchoke (e : engine) (rnd : Nat) : Except Fault (engine × List Event) :=
  if e.smap_.length ≤ RECIP_ then .ok (e, [])
  else
    let e := match e.opp_ with
      | some p => set_choking e p true
      | none => e
    let pv := op_unchoke_candidates e
    if pv.length = 0 then .error .DIV_BY_ZERO
    else
      let index := rnd % pv.length
      match pv[index]? with
      | none => .error (.READ_PAST_END index pv.length)
      | some k =>
        let e := set_choking e (.send k) false
        match e.smap_[k]? with
        | none => .ok (e, [])
        | some s => .ok (e, send_unchoke s)

/-- The value of an `int` after an arithmetic step, in two's complement. -/
def wrap_int (x : Int) : Int := (x + 2147483648) % 4294967296 - 2147483648

/-- The member `core::timeout`; the condition `!this->actime_%core::OU_PERD_` negates the
accumulated time first and takes the remainder of the result, 0 or 1. -/
def timeout (e : engine) (rnd : Nat) : Except Fault (engine × List Event) :=
  let c := { e.core_ with actime_ := wrap_int (e.core_.actime_ + TO_UNIT_) }
  match re_unchoke { e with core_ := c } with
  | .error f => .error f
  | .ok x =>
    if Int.tmod (if x.1.core_.actime_ = 0 then 1 else 0) OU_PERD_ ≠ 0 then
      match op_unchoke x.1 rnd with
      | .error f => .error f
      | .ok y => .ok ({ y.1 with core_ := { y.1.core_ with actime_ := 0 } }, x.2 ++ y.2)
    else .ok x

/-- The REQUEST branch of `sender::req_handler`: the block is uploaded and, if the peer is
marked choking, CHOKE follows. `req_buff` is the message from its id on. -/
def req_handler_request (s : sender) (c : core) (mi : metainfo) (req_buff : List Nat)
    (rate : Nat) : sender × core × List Event :=
  let pu := prepare_upload s c (req_buff.drop ID_LEN)
  let up := upload pu.1 pu.2 mi rate
  if up.1.peer_.choking then (up.1, pu.2, [.write s.sock_ up.2] ++ send_choke up.1)
  else (up.1, pu.2, [.write s.sock_ up.2])

/-! ## Concrete inputs of the choke scheduler -/

/-- The peer id of the remote peer number `k`. -/
def c24_id (k : Nat) : List Nat := VERSION_ ++ List.replicate 12 k

/-- The receiver of the remote peer number `k`, on socket `10 + k`: the client is
interested in the peer, is choked by it and downloads from it at `rate`. -/
def c24_receiver (k rate : Nat) : receiver :=
  { running_ := true,
    peer_ := { ip := 0, rate := rate, choking := true, interested := true,
               bitfield := [240], id := c24_id k },
    piece_ := 0, size_ := 0, sock_ := 10 + (k : Int) }

/-- The sender of the remote peer number `k`, on socket `20 + k`: the peer is interested,
is choked by the client and was served at `rate`. -/
def c24_sender (k rate : Nat) : sender :=
  { running_ := true,
    peer_ := { ip := 0, rate := rate, choking := true, interested := true,
               bitfield := [0], id := c24_id k },
    piece_ := 0, begin_ := 0, size_ := 0, sock_ := 20 + (k : Int) }

/-- An engine with five remote peers, each connected through a receiver and a sender, with
the rates 10, 9, 8, 7 and 6 on both sides; nobody is unchoked. -/
def c24_engine : engine :=
  { core_ := c17_core,
    rmap_ := [c24_receiver 1 10, c24_receiver 2 9, c24_receiver 3 8, c24_receiver 4 7,
              c24_receiver 5 6],
    smap_ := [c24_sender 1 10, c24_sender 2 9, c24_sender 3 8, c24_sender 4 7,
              c24_sender 5 6],
    unchoked_ := [], opp_ := none }

/-- The engine of the five remote peers when the senders of the first four are in the
unchoked set. -/
def c23_engine : engine :=
  { c24_engine with
    unchoked_ := [.send 0, .send 1, .send 2, .send 3] }

/-- A seeder with five senders and no receiver. -/
def c30_engine : engine := { c24_engine with rmap_ := [] }

/-- One more tick of the timer after the outcome `x` of the ticks before; `rand()` gives
0. -/
def c25_tick (x : Except Fault (engine × List Event)) : Except Fault (engine × List Event) :=
  match x with
  | .error f => .error f
  | .ok y => timeout y.1 0

/-- The engine of the five remote peers after two ticks that started at accumulated time
0: the first tick unchoked the peers of the receivers 0, 1 and 2. -/
def c25_engine2 : engine :=
  { core_ := { c17_core with actime_ := 20 },
    rmap_ := [{ c24_receiver 1 10 with peer_ := { (c24_receiver 1 10).peer_ with choking := false } },
              { c24_receiver 2 9 with peer_ := { (c24_receiver 2 9).peer_ with choking := false } },
              { c24_receiver 3 8 with peer_ := { (c24_receiver 3 8).peer_ with choking := false } },
              c24_receiver 4 7, c24_receiver 5 6],
    smap_ := [c24_sender 1 10, c24_sender 2 9, c24_sender 3 8, c24_sender 4 7,
              c24_sender 5 6],
    unchoked_ := [.recv 0, .recv 1, .recv 2], opp_ := none }

/-- The engine of the five remote peers after `re_unchoke`: the peer objects of the
receivers 0, 1 and 2 are marked unchoked and are the members of the unchoked set. -/
def c24_engine_after : engine := { c25_engine2 with core_ := c17_core }

/-- The engine of the five remote peers when the first remote peer, the one with the
highest rate, has sent UNCHOKE to the receiver: the receiver's peer object is not marked
choking. -/
def c24_engine_unchoked_by_peer : engine :=
  { c24_engine with
    rmap_ := [{ c24_receiver 1 10 with peer_ := { (c24_receiver 1 10).peer_ with choking := false } },
              c24_receiver 2 9, c24_receiver 3 8, c24_receiver 4 7, c24_receiver 5 6] }

/-- The engine of the five remote peers after the senders 0 to 3 processed
INTERESTED. -/
def c22_engine_interested : engine :=
  (req_handler_interested
    (req_handler_interested
      (req_handler_interested (req_handler_interested c24_engine 0).1 1).1 2).1 3).1

/-! ## The info hash of the metainfo file -/

/-- The anchor of the info dictionary, `"4:infod6:"` (`metainfo.cc`). -/
def INFO : List Nat := [52, 58, 105, 110, 102, 111, 100, 54, 58]

/-- Bytes before the info dictionary, counted from the anchor (`metainfo.cc`). -/
def EXTRA_LEN : Nat := 6

/-- The search of `strstr` from the offset `off` on: the offset of the first place where
the needle stands. -/
def strstr_from (needle : List Nat) : List Nat → Nat → Option Nat
  | [], off => if needle = [] then some off else none
  | b :: rest, off =>
    if (b :: rest).take needle.length = needle then some off
    else strstr_from needle rest (off + 1)

/-- The C function `strstr`: the offset of the first occurrence of the needle in the C
string that starts the memory `hay`, or `none` for a null pointer. -/
def strstr (hay needle : List Nat) : Option Nat := strstr_from needle (cstring hay) 0

/-- The bytes that `metainfo::_hash_info` passes to `SHA1`: `info_len` bytes from the
place `EXTRA_LEN` bytes after the anchor on, where `info_len` is the `size_t` difference
of the file size and that offset. When the anchor is not found, the pointer arithmetic
on the null pointer is undefined. -/
def _hash_info_range (meta_str : List Nat) (meta_len : Nat) : Option (List Nat) :=
  match strstr meta_str INFO with
  | none => none
  | some pos =>
    let info_str := pos + EXTRA_LEN
    let info_len := (meta_len + 2 ^ 64 - info_str) % 2 ^ 64
    some (mem_read meta_str info_str info_len)

/-- The member `metainfo::_hash_info`; `sha` is the function `SHA1`. -/
def _hash_info (sha : List Nat → List Nat) (m : metainfo) (meta_str : List Nat)
    (meta_len : Nat) : Option metainfo :=
  match _hash_info_range meta_str meta_len with
  | none => none
  | some info => some { m with info_hash_ := (sha info).take SHA_DIGEST_LENGTH }

/-- The decimal digits of a natural number as bytes. -/
def spec_decimal (n : Nat) : List Nat := (Nat.toDigits 10 n).map Char.toNat

mutual
/-- The bencoding of a decoded tree: what the specification calls the bencoded value. -/
def spec_bencode : be_node → List Nat
  | .BE_STR s => spec_decimal s.length ++ [58] ++ s
  | .BE_INT i =>
    if i < 0 then [105, 45] ++ spec_decimal i.natAbs ++ [101]
    else [105] ++ spec_decimal i.natAbs ++ [101]
  | .BE_LIST l => [108] ++ spec_bencode_list l ++ [101]
  | .BE_DICT d => [100] ++ spec_bencode_dict d ++ [101]
/-- The bencoding of the members of a list. -/
def spec_bencode_list : List be_node → List Nat
  | [] => []
  | v :: rest => spec_bencode v ++ spec_bencode_list rest
/-- The bencoding of the entries of a dictionary. -/
def spec_bencode_dict : List (String × be_node) → List Nat
  | [] => []
  | (k, v) :: rest =>
    spec_decimal k.length ++ [58] ++ k.toList.map Char.toNat ++ spec_bencode v ++
      spec_bencode_dict rest
end

/-- The info dictionary of the single-piece torrent `e1_tree`. -/
def e1_info : be_node :=
  .BE_DICT [("length", .BE_INT 16384), ("name", .BE_STR [102]),
            ("piece length", .BE_INT 16384), ("pieces", .BE_STR (List.replicate 20 1))]

/-- A metainfo tree in which the key `url-list` follows the info dictionary. -/
def c26_tree : be_node :=
  .BE_DICT [("announce", .BE_STR [104, 116, 116, 112]), ("info", e1_info),
            ("url-list", .BE_STR [104])]

/-! ## The tracker agent: responses and announce requests -/

/-- The bytes of a string literal. -/
def literal (s : String) : List Nat := s.toList.map Char.toNat

/-- The function `std::to_string` of an integer: its decimal digits. -/
def to_string (x : Int) : List Nat :=
  if x < 0 then 45 :: (Nat.toDigits 10 x.natAbs).map Char.toNat
  else (Nat.toDigits 10 x.natAbs).map Char.toNat

/-- Bytes that represent a single peer in a response (`tracker_agent.cc`). -/
def PEER_LEN : Nat := 6

/-- Length of an IPv4 address (`tracker_agent.cc`). -/
def IP_LEN : Nat := 4

/-- The function `convert_order` of `tracker_agent.cc`: the six bytes of a peer as the
string `x.x.x.x:port`. -/
def convert_order (bytes : List Nat) : List Nat :=
  let retval := (List.range IP_LEN).foldl
    (fun retval i =>
      let retval := retval ++ to_string (bytes.getD i 0 : Nat)
      if i + 1 ≠ IP_LEN then retval ++ literal "." else retval) []
  let port := 256 * bytes.getD IP_LEN 0 + bytes.getD (IP_LEN + 1) 0
  retval ++ (literal ":" ++ to_string (port : Nat))

/-- The loop of `be_node_parser` over the `peers` string, for `n` peers. -/
def split_peers : Nat → List Nat → List (List Nat)
  | 0, _ => []
  | n + 1, msg => convert_order msg :: split_peers n (msg.drop PEER_LEN)

mutual
/-- The function `be_node_parser` of `tracker_agent.cc` (the name is written
`parse_be_node` here): the fields of the response are
taken from the decoded tree by key. The counts and intervals are stored in `int`
members. -/
def parse_be_node (node : be_node) (key : String) (resp : Message) : Except Err Message :=
  match node with
  | .BE_STR msg =>
    if key = "peers" then
      if msg.length % PEER_LEN ≠ 0 then .error .ERR_RESP
      else .ok { resp with peers := resp.peers ++ split_peers (msg.length / PEER_LEN) msg }
    else if key = "tracker id" then .ok { resp with track_id := msg }
    else .ok resp
  | .BE_INT i =>
    if key = "interval" then .ok { resp with interv := wrap_int i }
    else if key = "min interval" then .ok { resp with min_interv := wrap_int i }
    else if key = "complete" then .ok { resp with cmpt := wrap_int i }
    else if key = "incomplete" then .ok { resp with incmpt := wrap_int i }
    else .ok resp
  | .BE_LIST _ => .error .ERR_RESP
  | .BE_DICT d => parse_be_node_dict d resp
/-- The `for` loop of the `BE_DICT` case of `be_node_parser`. -/
def parse_be_node_dict (d : List (String × be_node)) (resp : Message) : Except Err Message :=
  match d with
  | [] => .ok resp
  | (k, v) :: rest =>
    match parse_be_node v k resp with
    | .error e => .error e
    | .ok resp1 => parse_be_node_dict rest resp1
end

/-- The callback `tracker_agent::_receive`; `node` is the result of `be_decoden` on the
response body. -/
def _receive (a : tracker_agent) (node : Option be_node) : Except Err tracker_agent :=
  match node with
  | none => .ok a
  | some (.BE_DICT d) =>
    match parse_be_node (.BE_DICT d) "" a.mesg_ with
    | .error e => .error e
    | .ok m => .ok { a with mesg_ := m }
  | some _ => .error .ERR_RESP

/-- The member `tracker_agent::get_left`; `target_exists` tells whether `stat` finds the
target file. -/
def get_left (a : tracker_agent) (mi : metainfo) (target_exists : Bool) : Int :=
  if target_exists then 0 else get_size mi - a.download_

/-- The member `tracker_agent::compose_request`: the URL of the announce. -/
def compose_request (a : tracker_agent) (mi : metainfo) (target_exists : Bool) : List Nat :=
  let request := a.static_info_ ++ literal "&uploaded="
  let request := request ++ to_string a.upload_
  let request := request ++ literal "&downloaded="
  let request := request ++ to_string a.download_
  let request := request ++ literal "&left="
  let request := request ++ to_string (get_left a mi target_exists)
  let request := request ++ literal "&compact="
  let request := request ++ literal "1"
  if a.event_ = .EVNT_EMPTY then request
  else
    let request := request ++ literal "&event="
    match a.event_ with
    | .EVNT_START => request ++ literal "started"
    | .EVNT_COMP => request ++ literal "completed"
    | .EVNT_STOP => request ++ literal "stopped"
    | .EVNT_EMPTY => request

/-- The tracker agent of a leecher of the two-piece torrent after its first announce. -/
def c27_agent : tracker_agent :=
  { upload_ := 0, download_ := 0,
    static_info_ := literal "http://t/a?info_hash=%AA&peer_id=-UR1010-&port=6881",
    event_ := .EVNT_EMPTY, mesg_ := {} }

/-- The tracker id of the response. -/
def c27_tracker_id : List Nat := literal "xyzzy"

/-- A decoded tracker response with an interval and a tracker id. -/
def c27_response : be_node :=
  .BE_DICT [("interval", .BE_INT 1800), ("tracker id", .BE_STR c27_tracker_id)]

/-- The tracker agent after the response was received. -/
def c27_agent_after : tracker_agent :=
  { c27_agent with mesg_ := { interv := 1800, track_id := c27_tracker_id } }

/-- Whether the URL carries the string `t`: `t` stands at some offset of the URL. -/
def spec_carries (url t : List Nat) : Bool :=
  (List.range (url.length + 1)).any (fun i => (url.drop i).take t.length == t)

/-! ## Locks -/

/-- The locks of `core` (`core.h`) and of `tracker_agent` (`tracker_agent.h`): four
reader-writer locks and the mutexes. -/
inductive Lock where
  | bflock_
  | pclock_
  | rmlock_
  | smlock_
  | rslock_
  | sslock_
  | cklock_
  | relock_
  | mesg_lock_
  | pslk_
  deriving DecidableEq, Repr

/-- A lock call: `acquire_reader`, `acquire_writer` or the construction of a lock guard
acquire a lock, `release_rwlock` or the end of the scope of a guard release it. -/
inductive LockOp where
  | acquire (l : Lock)
  | release (l : Lock)
  deriving DecidableEq, Repr

/-- The functions of the engine, the receivers and the senders that make lock calls. The
message handlers `mesg_handle`, `req_handler` and `timeout` call them, and the timer with
its own mutex, in sequence while they hold no lock. -/
inductive LockedOp where
  | get_bf
  | update_dwn
  | update_upl
  | name_target
  | peer_updater
  | update_pcount
  | update_bf
  | rarest_first
  | re_unchoke
  | op_unchoke
  | receiver_create_peer
  | add_request_piece
  | remove_request_piece
  | broadcast_have
  | receiver_terminate
  | sender_create_peer
  | need_unchoke
  | req_handler_uninterested
  | sender_terminate
  deriving DecidableEq, Repr

/-- The lock calls of `core::rarest_first`. -/
def rarest_first_locks (c : core) : List LockOp :=
  if c.finish_ then []
  else if rarest_number c = INT_MAX then [.acquire .pclock_, .release .pclock_]
  else [.acquire .pclock_, .release .pclock_, .acquire .rmlock_, .release .rmlock_]

/-- The lock calls of `core::re_unchoke`; the guard of `cklock_` lives to the end of the
function. When `drates` is read past its end or an erased iterator is incremented, the
calls end there. -/
def re_unchoke_locks (e : engine) : List LockOp :=
  if e.smap_.length ≤ RECIP_ then []
  else
    match re_unchoke e with
    | .error .INVALID_ITERATOR =>
      [.acquire .rmlock_, .acquire .smlock_, .release .rmlock_, .acquire .cklock_]
    | .error _ => [.acquire .rmlock_, .acquire .smlock_, .release .rmlock_]
    | .ok _ =>
      [.acquire .rmlock_, .acquire .smlock_, .release .rmlock_, .acquire .cklock_,
        .release .smlock_, .release .cklock_]

/-- The lock calls of `core::op_unchoke`; whether the function returns does not depend
on the value of `rand()`. -/
def op_unchoke_locks (e : engine) : List LockOp :=
  if e.smap_.length ≤ RECIP_ then []
  else
    match op_unchoke e 0 with
    | .error _ => [.acquire .smlock_]
    | .ok _ => [.acquire .smlock_, .release .smlock_]

/-- The lock calls of `receiver::terminate`: the guard of `rslock_` lives to the end of
the function, so `rarest_first` runs while it is held. -/
def receiver_terminate_locks (c : core) : List LockOp :=
  [.acquire .pclock_, .acquire .rmlock_, .release .rmlock_, .release .pclock_,
    .acquire .rslock_] ++ rarest_first_locks (decrease_pcount c) ++ [.release .rslock_]

/-- The lock calls of a function in the state `e` of the engine. -/
def lock_trace (op : LockedOp) (e : engine) : List LockOp :=
  match op with
  | .get_bf => [.acquire .bflock_, .release .bflock_]
  | .update_dwn => [.acquire .mesg_lock_, .release .mesg_lock_]
  | .update_upl => [.acquire .mesg_lock_, .release .mesg_lock_]
  | .name_target =>
    [.acquire .mesg_lock_, .acquire .pslk_, .release .pslk_, .release .mesg_lock_]
  | .peer_updater =>
    [.acquire .pslk_, .release .pslk_, .acquire .mesg_lock_, .release .mesg_lock_,
      .acquire .rslock_, .release .rslock_]
  | .update_pcount =>
    [.acquire .bflock_, .acquire .pclock_, .release .pclock_, .release .bflock_]
  | .update_bf =>
    [.acquire .bflock_, .acquire .pclock_, .release .pclock_, .release .bflock_]
  | .rarest_first => rarest_first_locks e.core_
  | .re_unchoke => re_unchoke_locks e
  | .op_unchoke => op_unchoke_locks e
  | .receiver_create_peer => [.acquire .rmlock_, .release .rmlock_]
  | .add_request_piece => [.acquire .relock_, .release .relock_]
  | .remove_request_piece => [.acquire .relock_, .release .relock_]
  | .broadcast_have => [.acquire .smlock_, .release .smlock_]
  | .receiver_terminate => receiver_terminate_locks e.core_
  | .sender_create_peer => [.acquire .smlock_, .release .smlock_]
  | .need_unchoke => [.acquire .cklock_, .release .cklock_]
  | .req_handler_uninterested => [.acquire .cklock_, .release .cklock_]
  | .sender_terminate =>
    [.acquire .smlock_, .release .smlock_, .acquire .sslock_, .release .sslock_]

/-- The place of a lock in the order of the specification: bitfield, rarity, receiver
registry, sender registry, then any mutex. -/
def spec_lock_rank : Lock → Nat
  | .bflock_ => 0
  | .pclock_ => 1
  | .rmlock_ => 2
  | .smlock_ => 3
  | _ => 4

/-- Whether a lock is one of the four reader-writer locks. -/
def is_rwlock (l : Lock) : Bool := decide (spec_lock_rank l < 4)

/-- Whether the lock `l` may be acquired while the locks `held` are held: every held lock
is earlier in the order, or both are mutexes. -/
def spec_may_acquire (held : List Lock) (l : Lock) : Bool :=
  held.all (fun h => decide (spec_lock_rank h < spec_lock_rank l) ||
    (!is_rwlock h && !is_rwlock l))

/-- Whether a sequence of lock calls, started with the locks `held`, acquires every lock
in the order of the specification. -/
def spec_respects_order : List Lock → List LockOp → Bool
  | _, [] => true
  | held, .acquire l :: rest => spec_may_acquire held l && spec_respects_order (l :: held) rest
  | held, .release l :: rest => spec_respects_order (held.erase l) rest

/-- The calls of a sequence that concern the reader-writer locks. -/
def rwlock_calls (t : List LockOp) : List LockOp :=
  t.filter (fun o =>
    match o with
    | .acquire l => is_rwlock l
    | .release l => is_rwlock l)

/-! # Theorems -/

/-! ## Byte order -/

theorem u32_bytes_word (a b c d : Nat) (ha : a < 256) (hb : b < 256) (hc : c < 256)
    (hd : d < 256) :
    u32_bytes (a * 16777216 + b * 65536 + c * 256 + d) = [d, c, b, a] := by
  simp only [u32_bytes, List.cons.injEq, and_true]
  refine ⟨?_, ?_, ?_, ?_⟩ <;> omega

theorem u32_bytes_htonl (x : Nat) :
    u32_bytes (htonl x) = [x / 16777216 % 256, x / 65536 % 256, x / 256 % 256, x % 256] := by
  unfold htonl
  exact u32_bytes_word _ _ _ _ (Nat.mod_lt _ (by norm_num)) (Nat.mod_lt _ (by norm_num))
    (Nat.mod_lt _ (by norm_num)) (Nat.mod_lt _ (by norm_num))

theorem be32_wire (x : Nat) (hx : x < U32) :
    be32 [x / 16777216 % 256, x / 65536 % 256, x / 256 % 256, x % 256] = x := by
  simp only [U32] at hx
  simp only [be32, List.getD_cons_zero, List.getD_cons_succ]
  omega

theorem ntohl_bytes (a b c d : Nat) (ha : a < 256) (hb : b < 256) (hc : c < 256)
    (hd : d < 256) : ntohl (u32_of_bytes [a, b, c, d]) = be32 [a, b, c, d] := by
  simp only [ntohl, htonl, u32_of_bytes, be32, List.getD_cons_zero, List.getD_cons_succ]
  omega

theorem ntohl_u32_of_bytes (x : Nat) (hx : x < U32) :
    ntohl (u32_of_bytes [x / 16777216 % 256, x / 65536 % 256, x / 256 % 256, x % 256]) = x := by
  rw [ntohl_bytes _ _ _ _ (Nat.mod_lt _ (by norm_num)) (Nat.mod_lt _ (by norm_num))
    (Nat.mod_lt _ (by norm_num)) (Nat.mod_lt _ (by norm_num))]
  exact be32_wire x hx

/-! ## Metainfo -/

/-- What `Parser` stores as the size of the last piece is the remainder of the file size
by the piece length, whatever it is. -/
theorem Parser_last_size (m0 m : metainfo) (size : Nat) (node : Option be_node)
    (ih : List Nat) (h : Parser m0 size node ih = .ok m) :
    get_last_psize m = Int.tmod (get_size m) (get_piece_size m) := by
  unfold Parser at h
  split at h
  · cases h
  · split at h
    · cases h
    · split at h
      · cases h
      · split at h
        · cases h
        · cases h
          rfl
    · cases h

/-- C1 (defect of the code): for the single-piece torrent with `piece length` 16384 and
`length` 16384, `Parser` succeeds with one piece and `get_last_psize` is 0, not the piece
length 16384. -/
theorem C1_last_psize_zero_on_exact_multiple (peer_id ih : List Nat) (g1 g2 g3 : Int) :
    (Parser (metainfo_fresh peer_id g1 g2 g3) 120 (some e1_tree) ih).map
        (fun m => (get_piece_size m, get_size m, get_piece_num m, get_last_psize m)) =
      .ok (16384, 16384, 1, 0) := by
  simp [Parser, e1_tree, _dump_be_node, _dump_be_dict, MAX_SIZE_, metainfo_fresh, Except.map,
    get_piece_size, get_size, get_piece_num, get_last_psize, split_pieces, SHA_DIGEST_LENGTH]
/-- The consequence of the zero last size for the single-piece torrent: the engine of a
leecher takes 0 as the length of its only piece and `send_request` asks for 0 bytes. -/
theorem e1_request_of_zero_bytes :
    (core_ctor e1_metainfo agent0 16384 []).lplen_ = 0 ∧
    wire_u32 (send_request c7_receiver (core_ctor e1_metainfo agent0 16384 [])).2 13 = 0 := by
  decide

/-! ## Requests -/

theorem send_request_buff_eq (index begin length : Nat) :
    send_request_buff index begin length =
      [0, 0, 0, 13, 6] ++
        [index / 16777216 % 256, index / 65536 % 256, index / 256 % 256, index % 256] ++
        [begin / 16777216 % 256, begin / 65536 % 256, begin / 256 % 256, begin % 256] ++
        [length / 16777216 % 256, length / 65536 % 256, length / 256 % 256, length % 256] := by
  simp only [send_request_buff, u32_bytes_htonl]
  simp [memcpy, memset, REQ_LEN, PF_LEN, ID_LEN, IBL_LEN, REQUEST, List.replicate]

theorem send_request_wire (index begin length : Nat) (hi : index < U32) (hb : begin < U32)
    (hl : length < U32) :
    wire_u32 (send_request_buff index begin length) 0 = 13 ∧
    wire_u32 (send_request_buff index begin length) 5 = index ∧
    wire_u32 (send_request_buff index begin length) 9 = begin ∧
    wire_u32 (send_request_buff index begin length) 13 = length := by
  rw [send_request_buff_eq]
  refine ⟨by simp [wire_u32, be32], ?_, ?_, ?_⟩
  · simpa [wire_u32] using be32_wire index hi
  · simpa [wire_u32] using be32_wire begin hb
  · simpa [wire_u32] using be32_wire length hl

/-- C2 (as stated, refuted): for piece 0 of a three-piece torrent with piece length 20000
and progress 16384 the request carries length 16384, while
`min(16384, piece_length(0) - 16384)` is 3616. -/
theorem C2_counterexample :
    ¬ (∀ (c : core) (r : receiver) (offset : Nat),
        r.piece_ < c.pnum_ → c.pnum_ < U32 → c.plen_ < U32 → c.lplen_ < U32 →
        c.progress_[r.piece_]? = some offset → offset < spec_piece_length c r.piece_ →
        wire_u32 (send_request r c).2 9 = offset ∧
        wire_u32 (send_request r c).2 13 = spec_block_length c r.piece_ offset) := by
  intro h
  have h1 := (h c2_core c2_receiver 16384 (by decide) (by decide) (by decide) (by decide)
    (by decide) (by decide)).2
  have h2 := (send_request_wire c2_receiver.piece_ 16384 16384 (by decide) (by decide)
    (by decide)).2.2.2
  have h3 : (send_request c2_receiver c2_core).2 =
      send_request_buff c2_receiver.piece_ 16384 16384 := by
    simp [send_request, c2_receiver, c2_core, U32, BLOCK_SIZE]
  rw [h3, h2] at h1
  revert h1
  decide

/-- C2 (amended): for every piece index below the piece count and every progress value
below the length of that piece, the request of `send_request` carries that index, begin
equal to the progress and, for the last piece, length `min(16384, lplen_ - offset)`, for
every other piece length 16384; this is `min(16384, piece_length(i) - offset)` whenever
the piece is the last one or at least 16384 bytes of it remain. -/
theorem C2_send_request_block (c : core) (r : receiver) (offset : Nat)
    (hi : r.piece_ < c.pnum_) (hn : c.pnum_ < U32) (hp : c.plen_ < U32) (hl : c.lplen_ < U32)
    (ho : c.progress_[r.piece_]? = some offset)
    (hlt : offset < spec_piece_length c r.piece_) :
    wire_u32 (send_request r c).2 5 = r.piece_ ∧
    wire_u32 (send_request r c).2 9 = offset ∧
    wire_u32 (send_request r c).2 13 =
      (if r.piece_ = c.pnum_ - 1 then min BLOCK_SIZE (c.lplen_ - offset) else BLOCK_SIZE) ∧
    (send_request r c).1.size_ = wire_u32 (send_request r c).2 13 ∧
    (r.piece_ = c.pnum_ - 1 ∨ BLOCK_SIZE ≤ c.plen_ - offset →
      wire_u32 (send_request r c).2 13 = spec_block_length c r.piece_ offset) := by
  have hbegin : c.progress_.getD r.piece_ 0 = offset := by
    simp [List.getD_eq_getElem?_getD, ho]
  have hlast : (c.pnum_ + U32 - 1) % U32 = c.pnum_ - 1 := by
    simp only [U32] at hn ⊢
    omega
  have hoff : offset < U32 := by
    unfold spec_piece_length at hlt
    split at hlt <;> omega
  have hsub : (c.lplen_ + U32 - offset) % U32 =
      if offset ≤ c.lplen_ then c.lplen_ - offset else c.lplen_ + U32 - offset := by
    simp only [U32] at hl hoff ⊢
    split <;> omega
  simp only [send_request, hbegin, hlast]
  by_cases hlastp : r.piece_ = c.pnum_ - 1
  · have hle : offset < c.lplen_ := by simpa [spec_piece_length, hlastp] using hlt
    have hlen : min BLOCK_SIZE ((c.lplen_ + U32 - offset) % U32) < U32 := by
      simp only [BLOCK_SIZE, U32]
      omega
    obtain ⟨-, h5, h9, h13⟩ := send_request_wire r.piece_ offset
      (min BLOCK_SIZE ((c.lplen_ + U32 - offset) % U32)) (by omega) hoff hlen
    simp only [hlastp, if_true] at h5 h9 h13 ⊢
    rw [h5, h9, h13, hsub, if_pos (Nat.le_of_lt hle)]
    simp [spec_block_length, spec_piece_length]
  · have hle : offset < c.plen_ := by simpa [spec_piece_length, hlastp] using hlt
    obtain ⟨-, h5, h9, h13⟩ := send_request_wire r.piece_ offset BLOCK_SIZE (by omega) hoff
      (by decide)
    simp only [hlastp, if_false] at h5 h9 h13 ⊢
    rw [h5, h9, h13]
    refine ⟨rfl, rfl, rfl, rfl, ?_⟩
    intro h
    rcases h with h | h
    · exact h.elim
    · simp only [spec_block_length, spec_piece_length, hlastp, if_false]
      omega

/-- Witness of `C2_send_request_block`: piece 0 at progress 16384 of a torrent with piece
length 20000. -/
theorem C2_send_request_block_witness :
    wire_u32 (send_request c2_receiver c2_core).2 5 = c2_receiver.piece_ ∧
    wire_u32 (send_request c2_receiver c2_core).2 9 = 16384 ∧
    wire_u32 (send_request c2_receiver c2_core).2 13 =
      (if c2_receiver.piece_ = c2_core.pnum_ - 1 then min BLOCK_SIZE (c2_core.lplen_ - 16384)
        else BLOCK_SIZE) ∧
    (send_request c2_receiver c2_core).1.size_ =
      wire_u32 (send_request c2_receiver c2_core).2 13 ∧
    (c2_receiver.piece_ = c2_core.pnum_ - 1 ∨ BLOCK_SIZE ≤ c2_core.plen_ - 16384 →
      wire_u32 (send_request c2_receiver c2_core).2 13 =
        spec_block_length c2_core c2_receiver.piece_ 16384) :=
  C2_send_request_block c2_core c2_receiver 16384 (by decide) (by decide) (by decide)
    (by decide) (by decide) (by decide)

/-- The bytes `send_request` writes are composed from the piece of interest, its progress
and the size the receiver records. -/
theorem send_request_bytes (r : receiver) (c : core) :
    (send_request r c).2 =
      send_request_buff r.piece_ (c.progress_.getD r.piece_ 0) (send_request r c).1.size_ :=
  rfl

/-! ## Handshake -/

theorem hs_message_eq (buff info_hash id : List Nat)
    (hi : info_hash.length = SHA_DIGEST_LENGTH) (hp : id.length = ID_SIZE_) :
    hs_message buff info_hash id =
      18 :: HANDSHAKE ++ List.replicate 8 0 ++ info_hash ++ id ++ buff.drop HS_LEN := by
  simp only [SHA_DIGEST_LENGTH, ID_SIZE_] at hi hp
  simp [hs_message, memset, memcpy, VERSION_LEN, VERSION_OFFSET, HANDSHAKE, HS_RESV, HS_LEN,
    hi, hp, List.take_append_eq_append_take, List.drop_append_eq_append_drop]

/-- C3: for a buffer of at least 67 bytes, a 20 byte info hash and a 20 byte peer id,
`hs_message` fills exactly the first 67 bytes: byte 0 is 18, bytes 1..18 are
`"URTorrent protocol"`, bytes 19..26 are zero, bytes 27..46 are the info hash and bytes
47..66 are the peer id; the buffer keeps its length and what follows byte 66. -/
theorem C3_hs_message_layout (buff info_hash id : List Nat) (hb : HS_LEN ≤ buff.length)
    (hi : info_hash.length = 20) (hp : id.length = 20) :
    (hs_message buff info_hash id).length = buff.length ∧
    (hs_message buff info_hash id).drop 67 = buff.drop 67 ∧
    ((hs_message buff info_hash id).take 67).length = 67 ∧
    (hs_message buff info_hash id).take 1 = [18] ∧
    ((hs_message buff info_hash id).drop 1).take 18 = HANDSHAKE ∧
    HANDSHAKE = "URTorrent protocol".toList.map (fun ch => ch.toNat) ∧
    ((hs_message buff info_hash id).drop 19).take 8 = [0, 0, 0, 0, 0, 0, 0, 0] ∧
    ((hs_message buff info_hash id).drop 27).take 20 = info_hash ∧
    ((hs_message buff info_hash id).drop 47).take 20 = id := by
  rw [hs_message_eq buff info_hash id hi hp]
  simp only [HS_LEN] at hb
  refine ⟨?_, ?_, ?_, ?_, ?_, by decide, ?_, ?_, ?_⟩
  all_goals simp [HANDSHAKE, HS_LEN, hi, hp, List.take_append_eq_append_take,
      List.drop_append_eq_append_drop]
  all_goals omega

/-- Witness of `C3_hs_message_layout`: the zero-initialised array of `send_handshake` and
the identity of a parsed torrent. -/
theorem C3_hs_message_layout_witness :
    HS_LEN ≤ (List.replicate HS_LEN 0).length ∧ c4_metainfo.info_hash_.length = 20 ∧
    c4_metainfo.peer_id_.length = 20 ∧
    ((hs_message (List.replicate HS_LEN 0) c4_metainfo.info_hash_
      c4_metainfo.peer_id_).take 67).length = 67 ∧
    ((hs_message (List.replicate HS_LEN 0) c4_metainfo.info_hash_
      c4_metainfo.peer_id_).drop 27).take 20 = c4_metainfo.info_hash_ ∧
    ((hs_message (List.replicate HS_LEN 0) c4_metainfo.info_hash_
      c4_metainfo.peer_id_).drop 47).take 20 = c4_metainfo.peer_id_ :=
  have h := C3_hs_message_layout (List.replicate HS_LEN 0) c4_metainfo.info_hash_
    c4_metainfo.peer_id_ (by decide) (by decide) (by decide)
  ⟨by decide, by decide, by decide, h.2.2.1, h.2.2.2.2.2.2.2.1, h.2.2.2.2.2.2.2.2⟩

theorem read_into_full (n : Nat) (data : List Nat) (hd : data.length = n) :
    read_into (List.replicate n 0) n data = data := by
  subst hd
  simp [read_into, memcpy]

theorem cstring_HANDSHAKE : cstring HANDSHAKE = HANDSHAKE := by decide

/-- A full handshake with the right signature and info hash is accepted by the receiver,
and the peer id recorded is the C string found at offset 47. -/
theorem send_handshake_accepts (r : receiver) (c : core) (mi : metainfo)
    (data stack : List Nat) (hd : data.length = HS_LEN)
    (hv : (data.drop VERSION_OFFSET).take VERSION_LEN = HANDSHAKE)
    (hh : (data.drop HASH_OFFSET).take SHA_DIGEST_LENGTH = mi.info_hash_) :
    (send_handshake r c mi true (some data) stack).1 = true ∧
    (send_handshake r c mi true (some data) stack).2.1.peer_.id =
      cstring (data.drop 47 ++ stack) := by
  have hne : ¬ ((data.take HS_LEN).length = 0) := by
    simp [hd, HS_LEN]
  have hne2 : ¬ (HS_LEN = 0 ∨ data = []) := by
    rintro (h | h)
    · simp [HS_LEN] at h
    · simp [h, HS_LEN] at hd
  simp only [send_handshake, read_into_full HS_LEN data hd, hv, hh, cstring_HANDSHAKE]
  simp [hne2, HASH_OFFSET, SHA_DIGEST_LENGTH]

/-- A full handshake with the right signature and info hash is accepted by the sender,
and the peer id recorded is the C string found at offset 47. -/
theorem recv_handshake_accepts (s : sender) (c : core) (mi : metainfo)
    (data stack : List Nat) (hd : data.length = HS_LEN)
    (hv : (data.drop VERSION_OFFSET).take VERSION_LEN = HANDSHAKE)
    (hh : (data.drop HASH_OFFSET).take SHA_DIGEST_LENGTH = mi.info_hash_) :
    (recv_handshake s c mi (some data) stack true).1 = true ∧
    (recv_handshake s c mi (some data) stack true).2.1.peer_.id =
      cstring (data.drop 47 ++ stack) := by
  have hne : ¬ ((data.take HS_LEN).length = 0) := by
    simp [hd, HS_LEN]
  have hne2 : ¬ (HS_LEN = 0 ∨ data = []) := by
    rintro (h | h)
    · simp [HS_LEN] at h
    · simp [h, HS_LEN] at hd
  simp only [recv_handshake, read_into_full HS_LEN data hd, hv, hh, cstring_HANDSHAKE]
  simp [hne2, HASH_OFFSET, SHA_DIGEST_LENGTH]

/-- C4 (defect of the code): a peer whose id has a zero ninth byte sends the handshake
`hs_message(info_hash, id)`. Both `receiver::send_handshake` and
`sender::recv_handshake` accept it and record as peer id the 8 bytes `-UR1010-` before
the zero byte, not the 20 bytes of the id, whatever the memory after the array holds. -/
theorem C4_peer_id_cut_at_zero_byte (stack : List Nat) :
    c4_peer_id.length = 20 ∧
    (send_handshake c2_receiver c2_core c4_metainfo true
      (some (hs_message (List.replicate HS_LEN 0) c4_metainfo.info_hash_ c4_peer_id))
      stack).1 = true ∧
    (send_handshake c2_receiver c2_core c4_metainfo true
      (some (hs_message (List.replicate HS_LEN 0) c4_metainfo.info_hash_ c4_peer_id))
      stack).2.1.peer_.id = [45, 85, 82, 49, 48, 49, 48, 45] ∧
    (recv_handshake c4_sender c2_core c4_metainfo
      (some (hs_message (List.replicate HS_LEN 0) c4_metainfo.info_hash_ c4_peer_id))
      stack true).1 = true ∧
    (recv_handshake c4_sender c2_core c4_metainfo
      (some (hs_message (List.replicate HS_LEN 0) c4_metainfo.info_hash_ c4_peer_id))
      stack true).2.1.peer_.id = [45, 85, 82, 49, 48, 49, 48, 45] ∧
    [45, 85, 82, 49, 48, 49, 48, 45] ≠ c4_peer_id := by
  have hd : (hs_message (List.replicate HS_LEN 0) c4_metainfo.info_hash_ c4_peer_id).length =
      HS_LEN := by decide
  have hv : ((hs_message (List.replicate HS_LEN 0) c4_metainfo.info_hash_ c4_peer_id).drop
      VERSION_OFFSET).take VERSION_LEN = HANDSHAKE := by decide
  have hh : ((hs_message (List.replicate HS_LEN 0) c4_metainfo.info_hash_ c4_peer_id).drop
      HASH_OFFSET).take SHA_DIGEST_LENGTH = c4_metainfo.info_hash_ := by decide
  have hp : (hs_message (List.replicate HS_LEN 0) c4_metainfo.info_hash_ c4_peer_id).drop 47 =
      [45, 85, 82, 49, 48, 49, 48, 45, 0, 1, 2, 3, 4, 5, 6, 7, 8, 9, 10, 11] := by decide
  have hc : cstring ([45, 85, 82, 49, 48, 49, 48, 45, 0, 1, 2, 3, 4, 5, 6, 7, 8, 9, 10, 11]
      ++ stack) = [45, 85, 82, 49, 48, 49, 48, 45] := by
    simp [cstring, List.takeWhile]
  have hr := send_handshake_accepts c2_receiver c2_core c4_metainfo _ stack hd hv hh
  have hs := recv_handshake_accepts c4_sender c2_core c4_metainfo _ stack hd hv hh
  rw [hp, hc] at hr hs
  exact ⟨by decide, hr.1, hr.2, hs.1, hs.2, by decide⟩

/-! ## Piece and request messages -/

theorem mem_read_length (mem : List Nat) (off n : Nat) : (mem_read mem off n).length = n := by
  simp [mem_read]

theorem upload_bytes (s : sender) (c : core) (mi : metainfo) (rate : Nat)
    (h : PF_LEN + PIC_LEN + s.size_ < U32) :
    (upload s c mi rate).2 =
      u32_bytes (htonl (PF_LEN + PIC_LEN + s.size_)) ++ [PIECE] ++ u32_bytes (htonl s.piece_) ++
        u32_bytes (htonl s.begin_) ++ mem_read c.file_ (find_block mi s s.begin_) s.size_ := by
  simp only [upload, Nat.mod_eq_of_lt h]
  simp only [PF_LEN, PIC_LEN, show 4 + 9 + s.size_ = s.size_ + 13 by omega]
  have hlen := mem_read_length c.file_ (find_block mi s s.begin_) s.size_
  simp [memcpy, memset, u32_bytes, ID_LEN, IBL_LEN, hlen, List.replicate_succ,
    List.take_append_eq_append_take, List.drop_append_eq_append_drop]

/-- C5 (defect of the code): in the PIECE message that `sender::upload` writes for a
request of `size_` bytes, the length prefix is `13 + size_` although only `9 + size_`
bytes follow it (the id, index, begin and the block), so that the receiver, which takes
the block to be `prefix - 9` bytes long, expects `size_ + 4` bytes; index and begin are
those of the request. -/
theorem C5_upload_prefix_counts_itself (s : sender) (c : core) (mi : metainfo) (rate : Nat)
    (h : PF_LEN + PIC_LEN + s.size_ < U32) (hi : s.piece_ < U32) (hb : s.begin_ < U32) :
    wire_u32 (upload s c mi rate).2 0 = 13 + s.size_ ∧
    ((upload s c mi rate).2.drop PF_LEN).length = 9 + s.size_ ∧
    mesg_handle_block_size (wire_u32 (upload s c mi rate).2 0) = s.size_ + 4 ∧
    (upload s c mi rate).2.getD 4 0 = PIECE ∧
    wire_u32 (upload s c mi rate).2 5 = s.piece_ ∧
    wire_u32 (upload s c mi rate).2 9 = s.begin_ ∧
    (upload s c mi rate).2.drop 13 = mem_read c.file_ (find_block mi s s.begin_) s.size_ := by
  rw [upload_bytes s c mi rate h]
  simp only [u32_bytes_htonl]
  have hp := be32_wire (PF_LEN + PIC_LEN + s.size_) h
  have hpi := be32_wire s.piece_ hi
  have hpb := be32_wire s.begin_ hb
  simp only [PF_LEN, PIC_LEN, U32] at h hp
  refine ⟨?_, ?_, ?_, ?_, ?_, ?_, ?_⟩
  · simp only [wire_u32, PF_LEN, PIC_LEN]
    simp only [List.drop_zero, List.cons_append, List.nil_append, List.take_succ_cons,
      List.take_zero, hp]
  · simp [PF_LEN, mem_read_length]
    omega
  · simp only [wire_u32, PF_LEN, PIC_LEN]
    simp only [List.drop_zero, List.cons_append, List.nil_append, List.take_succ_cons,
      List.take_zero, hp, mesg_handle_block_size, U32, PIC_LEN]
    omega
  · simp
  · simpa [wire_u32] using hpi
  · simpa [wire_u32] using hpb
  · simp

/-- Witness of `C5_upload_prefix_counts_itself`: the block `(0, 0, 16384)` of the
single-piece torrent, whose PIECE message has prefix 16397 and 16393 bytes after it. -/
theorem C5_upload_prefix_counts_itself_witness :
    wire_u32 (upload e1_sender e1_seeder e1_metainfo 0).2 0 = 13 + 16384 ∧
    ((upload e1_sender e1_seeder e1_metainfo 0).2.drop PF_LEN).length = 9 + 16384 ∧
    mesg_handle_block_size (wire_u32 (upload e1_sender e1_seeder e1_metainfo 0).2 0) =
      16384 + 4 :=
  have h := C5_upload_prefix_counts_itself e1_sender e1_seeder e1_metainfo 0 (by decide)
    (by decide) (by decide)
  ⟨h.1, h.2.1, h.2.2.1⟩

/-- C6: for every triple of 32-bit values the 17 bytes that `send_request` writes are the
big-endian prefix 13, the id 6 and the three values big-endian, and `prepare_upload`,
given the bytes after the prefix and the id as `req_handler` passes them, recovers the
triple. -/
theorem C6_request_round_trip (index begin length : Nat) (s : sender) (c : core)
    (hi : index < U32) (hb : begin < U32) (hl : length < U32) :
    (send_request_buff index begin length).length = 17 ∧
    (send_request_buff index begin length).take 5 = [0, 0, 0, 13, 6] ∧
    wire_u32 (send_request_buff index begin length) 0 = REQ_LEN ∧
    (send_request_buff index begin length).getD PF_LEN 0 = REQUEST ∧
    wire_u32 (send_request_buff index begin length) 5 = index ∧
    wire_u32 (send_request_buff index begin length) 9 = begin ∧
    wire_u32 (send_request_buff index begin length) 13 = length ∧
    (prepare_upload s c
      ((send_request_buff index begin length).drop (PF_LEN + ID_LEN))).1.piece_ = index ∧
    (prepare_upload s c
      ((send_request_buff index begin length).drop (PF_LEN + ID_LEN))).1.begin_ = begin ∧
    (prepare_upload s c
      ((send_request_buff index begin length).drop (PF_LEN + ID_LEN))).1.size_ = length := by
  obtain ⟨w0, w5, w9, w13⟩ := send_request_wire index begin length hi hb hl
  refine ⟨?_, ?_, ?_, ?_, w5, w9, w13, ?_, ?_, ?_⟩
  · simp [send_request_buff_eq]
  · simp [send_request_buff_eq]
  · simpa [REQ_LEN] using w0
  · simp [send_request_buff_eq, PF_LEN, REQUEST]
  · simpa [send_request_buff_eq, prepare_upload, PF_LEN, ID_LEN, IBL_LEN] using
      ntohl_u32_of_bytes index hi
  · simpa [send_request_buff_eq, prepare_upload, PF_LEN, ID_LEN, IBL_LEN] using
      ntohl_u32_of_bytes begin hb
  · simpa [send_request_buff_eq, prepare_upload, PF_LEN, ID_LEN, IBL_LEN] using
      ntohl_u32_of_bytes length hl

/-- Witness of `C6_request_round_trip`: the request `(1, 16384, 3616)`. -/
theorem C6_request_round_trip_witness :
    (send_request_buff 1 16384 3616).length = 17 ∧
    wire_u32 (send_request_buff 1 16384 3616) 13 = 3616 ∧
    (prepare_upload e1_sender e1_seeder
      ((send_request_buff 1 16384 3616).drop (PF_LEN + ID_LEN))).1.piece_ = 1 ∧
    (prepare_upload e1_sender e1_seeder
      ((send_request_buff 1 16384 3616).drop (PF_LEN + ID_LEN))).1.begin_ = 16384 ∧
    (prepare_upload e1_sender e1_seeder
      ((send_request_buff 1 16384 3616).drop (PF_LEN + ID_LEN))).1.size_ = 3616 :=
  have h := C6_request_round_trip 1 16384 3616 e1_sender e1_seeder (by decide) (by decide)
    (by decide)
  ⟨h.1, h.2.2.2.2.2.2.1, h.2.2.2.2.2.2.2.1, h.2.2.2.2.2.2.2.2.1, h.2.2.2.2.2.2.2.2.2⟩

/-! ## Bitfields -/

/-- C7 (defect of the code): whenever the `read` of the payload delivers bytes,
`recv_bitfield` returns true, reports no failure, leaves `running_` as it is and counts
the bitfield into the rarity vector, whatever the spare bits are: the test of the spare
bits is an `&` with 0. -/
theorem C7_recv_bitfield_never_rejects (r : receiver) (c : core) (size : Nat)
    (data : List Nat) (hd : (data.take size).length ≠ 0) :
    (recv_bitfield r c size (some data)).1 = true ∧
    (recv_bitfield r c size (some data)).2.1.running_ = r.running_ ∧
    (recv_bitfield r c size (some data)).2.1.peer_.bitfield =
      read_into r.peer_.bitfield size data ∧
    (recv_bitfield r c size (some data)).2.2.1 =
      (update_pcount c (read_into r.peer_.bitfield size data)).2 ∧
    (recv_bitfield r c size (some data)).2.2.2 = [] := by
  have hne : ¬ (size = 0 ∨ data = []) := by
    rintro (h | h) <;> simp [h] at hd
  simp [recv_bitfield, hne]

/-- Witness of `C7_recv_bitfield_never_rejects`: the one-byte bitfield `0xff` for a torrent
of one piece has its 7 spare bits set; it is accepted and the rarity vector changes from
`[0]` to `[1]`. -/
theorem C7_recv_bitfield_never_rejects_witness :
    (([255] : List Nat).take 1).length ≠ 0 ∧
    (∀ j, j < 8 → 1 ≤ j → test_bit [255] j = true) ∧
    (recv_bitfield c7_receiver c7_core 1 (some [255])).1 = true ∧
    (recv_bitfield c7_receiver c7_core 1 (some [255])).2.1.running_ = true ∧
    (recv_bitfield c7_receiver c7_core 1 (some [255])).2.2.1.pcount_ = [1] ∧
    (recv_bitfield c7_receiver c7_core 1 (some [255])).2.2.2 = [] :=
  have h := C7_recv_bitfield_never_rejects c7_receiver c7_core 1 [255] (by decide)
  ⟨by decide, by decide, h.1, h.2.1, by rw [h.2.2.2.1]; decide, h.2.2.2.2⟩

/-! ## Bits of a bitfield -/

theorem test_bit_eq (bf : List Nat) (i : Nat) :
    test_bit bf i = (bf.getD (i / 8) 0).testBit (7 - i % 8) := by
  simp only [test_bit, BYTE_LEN, Nat.one_shiftLeft, Nat.and_two_pow]
  have h : 8 - i % 8 - 1 = 7 - i % 8 := by omega
  rw [h]
  cases (bf.getD (i / 8) 0).testBit (7 - i % 8) <;> simp

theorem set_bit_length (bf : List Nat) (index : Nat) : (set_bit bf index).length = bf.length := by
  simp [set_bit]

theorem getD_set_bit (bf : List Nat) (index k : Nat) :
    (set_bit bf index).getD k 0 =
      if k = index / 8 ∧ k < bf.length then (bf.getD k 0 ||| 2 ^ (7 - index % 8)) % 256
      else bf.getD k 0 := by
  have h : 8 - index % 8 - 1 = 7 - index % 8 := by omega
  simp only [set_bit, BYTE_LEN, Nat.one_shiftLeft, h, List.getD_eq_getElem?_getD,
    List.getElem?_set]
  by_cases hk : index / 8 = k
  · subst hk
    by_cases hl : index / 8 < bf.length
    · simp [hl]
    · have hnone : bf[index / 8]? = none := List.getElem?_eq_none (by omega)
      simp [hl, hnone]
  · have hk2 : ¬ k = index / 8 := fun e => hk e.symm
    simp [hk, hk2]

theorem test_bit_set_bit (bf : List Nat) (index j : Nat) (h : index / 8 < bf.length) :
    test_bit (set_bit bf index) j = (decide (j = index) || test_bit bf j) := by
  rw [test_bit_eq, test_bit_eq, getD_set_bit]
  by_cases hq : j / 8 = index / 8
  · rw [if_pos ⟨hq, by omega⟩]
    have h256 : (256 : Nat) = 2 ^ 8 := by norm_num
    rw [h256, Nat.testBit_mod_two_pow, Nat.testBit_lor, Nat.testBit_two_pow]
    have hlt : 7 - j % 8 < 8 := by omega
    by_cases hji : j = index
    · subst hji
      simp [hlt]
    · have hne : ¬ (7 - index % 8 = 7 - j % 8) := by omega
      simp [hlt, hji, hne]
  · have hji : ¬ j = index := by
      intro e
      exact hq (by rw [e])
    rw [if_neg (fun hc => hq hc.1)]
    simp [hji]

theorem mem_read_all (mem : List Nat) : mem_read mem 0 mem.length = mem := by
  apply List.ext_getElem
  · simp [mem_read]
  · intro i h1 h2
    simp [mem_read, List.getD_eq_getElem?_getD, List.getElem?_eq_getElem h2]

theorem compose_bfmesg_eq (c : core) (buff : List Nat) (hl : c.bitfield_.length = c.bflen_) :
    compose_bfmesg c buff =
      u32_bytes (htonl ((ID_LEN + c.bflen_) % U32)) ++ [BIT_FIELD] ++ c.bitfield_ ++
        buff.drop (HD_LEN + c.bflen_) := by
  have hm : mem_read c.bitfield_ 0 c.bflen_ = c.bitfield_ := by
    rw [← hl]
    exact mem_read_all _
  simp only [compose_bfmesg, hm]
  simp [memcpy, memset, u32_bytes, PF_LEN, ID_LEN, HD_LEN, hl,
    List.take_append_eq_append_take, List.drop_append_eq_append_drop]
  rw [Nat.add_comm 5 c.bflen_]
  simp [List.drop_drop, Nat.add_comm]

theorem seeder_last_byte (s k : Nat) (hk : k < 8) :
    (255 &&& ((255 <<< s) % 256)).testBit k = decide (s ≤ k) := by
  have h256 : (256 : Nat) = 2 ^ 8 := by norm_num
  have h255 : (255 : Nat) = 2 ^ 8 - 1 := by norm_num
  rw [Nat.testBit_and, h256, Nat.testBit_mod_two_pow, Nat.testBit_shiftLeft, h255,
    Nat.testBit_two_pow_sub_one, Nat.testBit_two_pow_sub_one]
  by_cases hs : s ≤ k
  · have : k - s < 8 := by omega
    simp [hk, hs, this]
  · simp [hk, hs]
theorem memset_all (b v : Nat) : memset (List.replicate b 0) 0 v b = List.replicate b v := by
  simp [memset]

theorem seeder_test_bit (n b j : Nat) (hb1 : n ≤ 8 * b) (hb2 : 8 * b < n + 8) (hb3 : 1 ≤ b)
    (hj : j < 8 * b) :
    test_bit ((List.replicate b 255).set (b - 1)
      ((List.replicate b 255).getD (b - 1) 0 &&& ((255 <<< (8 * b - n)) % 256))) j =
      decide (j < n) := by
  rw [test_bit_eq]
  simp only [List.getD_eq_getElem?_getD, List.getElem?_set, List.getElem?_replicate,
    List.length_replicate]
  have hk : 7 - j % 8 < 8 := by omega
  by_cases hq : b - 1 = j / 8
  · have hlt : b - 1 < b := by omega
    rw [if_pos hq, if_pos hlt, if_pos hlt]
    simp only [Option.getD_some]
    rw [seeder_last_byte _ _ hk]
    have : (8 * b - n ≤ 7 - j % 8) ↔ j < n := by omega
    simp [this]
  · have hlt : j / 8 < b := by omega
    rw [if_neg hq, if_pos hlt]
    simp only [Option.getD_some]
    have h255 : (255 : Nat) = 2 ^ 8 - 1 := by norm_num
    rw [h255, Nat.testBit_two_pow_sub_one]
    have : j < n := by omega
    simp [hk, this]

theorem core_ctor_inv (mi : metainfo) (agent : tracker_agent) (left : Int) (target : List Nat)
    (h1 : 1 ≤ get_piece_num mi) (h2 : get_piece_num mi ≤ 409) :
    bf_inv (get_piece_num mi) (core_ctor mi agent left target) := by
  have hmod : get_piece_num mi % U32 = get_piece_num mi :=
    Nat.mod_eq_of_lt (by simp only [U32]; omega)
  by_cases hleft : left = 0
  · simp only [bf_inv, core_ctor, hmod, hleft, BYTE_LEN, memset_all]
    refine ⟨by simp, by simp, by simp, by simp, ?_⟩
    intro j hj hn
    simp only [ne_eq, not_true_eq_false, ↓reduceIte, List.length_set, List.length_replicate,
      BYTE_LEN] at hj hn ⊢
    rw [seeder_test_bit _ _ _ (by omega) (by omega) (by omega) hj]
    simpa using hn
  · simp only [bf_inv, core_ctor, hmod, BYTE_LEN]
    refine ⟨by simp [hleft], by simp [hleft], by simp [hleft], by simp [hleft], ?_⟩
    intro j _ _
    simp [hleft, test_bit_eq, List.getD_eq_getElem?_getD, List.getElem?_replicate]
    split <;> simp

theorem update_bf_inv (n : Nat) (c : core) (index : Nat) (h : bf_inv n c)
    (hi : index < c.pnum_) : bf_inv n (update_bf c index).2 := by
  obtain ⟨hn, hb, hs, hl, hz⟩ := h
  refine ⟨hn, hb, hs, ?_, ?_⟩
  · simpa [update_bf, set_bit_length] using hl
  · intro j hj hp
    simp only [update_bf, set_bit_length] at hj hp ⊢
    have hidx : index / 8 < c.bitfield_.length := by
      rw [hl, hb]
      omega
    rw [test_bit_set_bit _ _ _ hidx, hz j hj hp]
    have : ¬ j = index := by omega
    simp [this]


/-- C8: for an engine built from a metainfo with between 1 and 409 piece hashes, in the
initial state of a leecher (all bits zero), in the initial state of a seeder (exactly the
bits below the piece count set) and after any number of `update_bf` calls with an index
below the piece count, the bitfield has `ceil(pnum_ / 8)` bytes and all its spare bits are
zero; the BITFIELD message that `compose_bfmesg` builds has the prefix `1 + bflen_`, the
id 5 and that bitfield as payload, so its spare bits are zero. -/
theorem C8_bitfield_spare_bits_zero (mi : metainfo) (agent : tracker_agent) (left : Int)
    (target : List Nat) (c : core) (h1 : 1 ≤ get_piece_num mi)
    (h2 : get_piece_num mi ≤ 409) (hr : bf_reachable mi agent left target c) :
    c.pnum_ = get_piece_num mi ∧
    c.bitfield_.length = c.bflen_ ∧
    (c.pnum_ ≤ 8 * c.bflen_ ∧ 8 * c.bflen_ < c.pnum_ + 8) ∧
    spare_bits_zero c.pnum_ c.bitfield_ ∧
    (∀ buff : List Nat, buff.length = HD_LEN + c.bflen_ →
      wire_u32 (compose_bfmesg c buff) 0 = ID_LEN + c.bflen_ ∧
      (compose_bfmesg c buff).getD PF_LEN 0 = BIT_FIELD ∧
      (compose_bfmesg c buff).drop HD_LEN = c.bitfield_ ∧
      spare_bits_zero c.pnum_ ((compose_bfmesg c buff).drop HD_LEN)) ∧
    (left ≠ 0 → ∀ j, test_bit (core_ctor mi agent left target).bitfield_ j = false) ∧
    (left = 0 → ∀ j, j < 8 * (core_ctor mi agent left target).bflen_ →
      test_bit (core_ctor mi agent left target).bitfield_ j =
        decide (j < get_piece_num mi)) := by
  have hinv : bf_inv (get_piece_num mi) c := by
    induction hr with
    | init => exact core_ctor_inv mi agent left target h1 h2
    | step c index _ hi ih => exact update_bf_inv _ c index ih hi
  obtain ⟨hn, hb, _, hl, hz⟩ := hinv
  have hmod : get_piece_num mi % U32 = get_piece_num mi :=
    Nat.mod_eq_of_lt (by simp only [U32]; omega)
  refine ⟨hn, hl, by omega, hz, ?_, ?_, ?_⟩
  · intro buff hbuff
    have hlen : (ID_LEN + c.bflen_) % U32 = ID_LEN + c.bflen_ :=
      Nat.mod_eq_of_lt (by simp only [U32, ID_LEN]; omega)
    have hw := be32_wire (ID_LEN + c.bflen_) (by simp only [U32, ID_LEN]; omega)
    have hdrop : (compose_bfmesg c buff).drop HD_LEN = c.bitfield_ := by
      rw [compose_bfmesg_eq c buff hl, hlen, u32_bytes_htonl]
      simp [HD_LEN, List.drop_eq_nil_of_le, hbuff]
    refine ⟨?_, ?_, hdrop, by rw [hdrop]; exact hz⟩
    · rw [compose_bfmesg_eq c buff hl, hlen, u32_bytes_htonl]
      simpa [wire_u32] using hw
    · rw [compose_bfmesg_eq c buff hl, hlen, u32_bytes_htonl]
      simp [PF_LEN]
  · intro hleft j
    simp [core_ctor, hleft, test_bit_eq, List.getD_eq_getElem?_getD, List.getElem?_replicate]
    split <;> simp
  · intro hleft j hj
    simp only [core_ctor, hmod, hleft, BYTE_LEN, memset_all, ne_eq, not_true_eq_false,
      ↓reduceIte] at hj ⊢
    exact seeder_test_bit _ _ _ (by omega) (by omega) (by omega) hj

/-- Witness of `C8_bitfield_spare_bits_zero`: a leecher of a torrent of ten pieces after
`update_bf(9)`; the bitfield has two bytes and six spare bits. -/
theorem C8_bitfield_spare_bits_zero_witness :
    1 ≤ get_piece_num c8_metainfo ∧ get_piece_num c8_metainfo ≤ 409 ∧
    (update_bf (core_ctor c8_metainfo agent0 38 []) 9).2.bitfield_.length =
      (update_bf (core_ctor c8_metainfo agent0 38 []) 9).2.bflen_ ∧
    spare_bits_zero (update_bf (core_ctor c8_metainfo agent0 38 []) 9).2.pnum_
      (update_bf (core_ctor c8_metainfo agent0 38 []) 9).2.bitfield_ :=
  have h := C8_bitfield_spare_bits_zero c8_metainfo agent0 38 []
    (update_bf (core_ctor c8_metainfo agent0 38 []) 9).2 (by decide) (by decide)
    (bf_reachable.step _ 9 bf_reachable.init (by decide))
  ⟨by decide, by decide, h.2.1, h.2.2.2.1⟩

theorem list_set_self (l : List Nat) (k : Nat) (hk : k < l.length) : l.set k l[k] = l := by
  apply List.ext_getElem?
  intro i
  rw [List.getElem?_set]
  by_cases hki : k = i
  · subst hki
    simp [hk]
  · simp [hki]

theorem lor_mask_of_testBit (b a : Nat) (h : b.testBit a = true) : b ||| 2 ^ a = b := by
  apply Nat.eq_of_testBit_eq
  intro i
  rw [Nat.testBit_lor, Nat.testBit_two_pow]
  by_cases hai : a = i
  · subst hai
    simp [h]
  · simp [hai]

theorem set_bit_of_test_bit (bf : List Nat) (index : Nat) (hbytes : ∀ b ∈ bf, b < 256)
    (hi : index / 8 < bf.length) (ht : test_bit bf index = true) : set_bit bf index = bf := by
  rw [test_bit_eq] at ht
  have h : 8 - index % 8 - 1 = 7 - index % 8 := by omega
  have hget : bf.getD (index / 8) 0 = bf[index / 8] := by
    simp [List.getD_eq_getElem?_getD, List.getElem?_eq_getElem hi]
  have hlt : bf[index / 8] < 256 := hbytes _ (List.getElem_mem hi)
  rw [hget] at ht
  simp only [set_bit, BYTE_LEN, Nat.one_shiftLeft, h, hget, lor_mask_of_testBit _ _ ht,
    Nat.mod_eq_of_lt hlt]
  exact list_set_self bf _ hi

/-- C9: for every index below the piece count, `update_bf` succeeds, ors the mask
`1 << (7 - index % 8)` into byte `index / 8` of the local bitfield, so that the bit of
`index` is set and every other bit and byte is unchanged, stores `INT_MAX` in the rarity
slot of `index`, and leaves every other rarity slot and every other member unchanged. -/
theorem C9_update_bf_frame (c : core) (index : Nat) (hi : index < c.pnum_)
    (hb : c.pnum_ ≤ 8 * c.bitfield_.length) (hp : c.pcount_.length = c.pnum_) :
    (update_bf c index).1 = true ∧
    (update_bf c index).2.bitfield_.length = c.bitfield_.length ∧
    (update_bf c index).2.bitfield_.getD (index / 8) 0 =
      (c.bitfield_.getD (index / 8) 0 ||| (1 <<< (7 - index % 8))) % 256 ∧
    (c.bitfield_.getD (index / 8) 0 < 256 →
      (update_bf c index).2.bitfield_.getD (index / 8) 0 =
        c.bitfield_.getD (index / 8) 0 ||| (1 <<< (7 - index % 8))) ∧
    (∀ k, k ≠ index / 8 →
      (update_bf c index).2.bitfield_.getD k 0 = c.bitfield_.getD k 0) ∧
    test_bit (update_bf c index).2.bitfield_ index = true ∧
    (∀ j, j ≠ index →
      test_bit (update_bf c index).2.bitfield_ j = test_bit c.bitfield_ j) ∧
    (update_bf c index).2.pcount_.length = c.pcount_.length ∧
    (update_bf c index).2.pcount_[index]? = some INT_MAX ∧
    (∀ j, j ≠ index → (update_bf c index).2.pcount_[j]? = c.pcount_[j]?) ∧
    (update_bf c index).2 =
      { c with bitfield_ := (update_bf c index).2.bitfield_,
               pcount_ := (update_bf c index).2.pcount_ } := by
  have hidx : index / 8 < c.bitfield_.length := by omega
  have hbyte : (update_bf c index).2.bitfield_.getD (index / 8) 0 =
      (c.bitfield_.getD (index / 8) 0 ||| (1 <<< (7 - index % 8))) % 256 := by
    simp only [update_bf, getD_set_bit, Nat.one_shiftLeft]
    rw [if_pos ⟨trivial, hidx⟩]
  refine ⟨rfl, by simp [update_bf, set_bit_length], hbyte, ?_, ?_, ?_, ?_, ?_, ?_, ?_, ?_⟩
  · intro hlt
    rw [hbyte]
    apply Nat.mod_eq_of_lt
    have h256 : (256 : Nat) = 2 ^ 8 := by norm_num
    rw [h256] at hlt ⊢
    apply Nat.lt_pow_two_of_testBit
    intro i hi8
    rw [Nat.testBit_lor, Nat.one_shiftLeft, Nat.testBit_two_pow,
      Nat.testBit_lt_two_pow (Nat.lt_of_lt_of_le hlt (Nat.pow_le_pow_right (by norm_num) hi8))]
    have : ¬ (7 - index % 8 = i) := by omega
    simp [this]
  · intro k hk
    simp only [update_bf, getD_set_bit]
    rw [if_neg (fun h => hk h.1)]
  · simp [update_bf, test_bit_set_bit _ _ _ hidx]
  · intro j hj
    simp [update_bf, test_bit_set_bit _ _ _ hidx, hj]
  · simp [update_bf]
  · simp [update_bf, List.getElem?_set, hp, hi]
  · intro j hj
    have : ¬ index = j := fun e => hj e.symm
    simp [update_bf, List.getElem?_set, this]
  · rfl

/-- Witness of `C9_update_bf_frame`: piece 3 of a ten-piece torrent. -/
theorem C9_update_bf_frame_witness :
    3 < c9_core.pnum_ ∧ c9_core.pnum_ ≤ 8 * c9_core.bitfield_.length ∧
    c9_core.pcount_.length = c9_core.pnum_ ∧
    (update_bf c9_core 3).2.bitfield_.getD (3 / 8) 0 =
      (c9_core.bitfield_.getD (3 / 8) 0 ||| (1 <<< (7 - 3 % 8))) % 256 ∧
    test_bit (update_bf c9_core 3).2.bitfield_ 3 = true ∧
    (update_bf c9_core 3).2.pcount_[3]? = some INT_MAX :=
  have h := C9_update_bf_frame c9_core 3 (by decide) (by decide) (by decide)
  ⟨by decide, by decide, by decide, h.2.2.1, h.2.2.2.2.2.1, h.2.2.2.2.2.2.2.2.1⟩

theorem update_pbf_wire (index : Nat) (bf : List Nat) (hu : index < U32) :
    update_pbf (u32_of_bytes (wire_bytes index)) bf = set_bit bf index := by
  simp only [update_pbf, wire_bytes, ntohl_u32_of_bytes index hu]

/-- C10: a HAVE for an index below the piece count whose bit is already set in the peer
bitfield leaves the receiver (`do_update_pbf`) and the sender (HAVE branch of
`req_handler`) exactly as they were; in every case the peer bitfield afterwards has the
bit of the index set and every other bit as before, and nothing but the peer bitfield
changes. -/
theorem C10_have_idempotent (r : receiver) (s : sender) (pnum index : Nat)
    (hu : pnum < U32) (hi : index < pnum)
    (hr : pnum ≤ 8 * r.peer_.bitfield.length) (hs : pnum ≤ 8 * s.peer_.bitfield.length)
    (hrb : ∀ b ∈ r.peer_.bitfield, b < 256) (hsb : ∀ b ∈ s.peer_.bitfield, b < 256) :
    (test_bit r.peer_.bitfield index = true →
      do_update_pbf r (some (wire_bytes index)) = r) ∧
    (test_bit s.peer_.bitfield index = true →
      req_handler_have s (HAVE :: wire_bytes index) = s) ∧
    (∀ j, test_bit (do_update_pbf r (some (wire_bytes index))).peer_.bitfield j =
      (decide (j = index) || test_bit r.peer_.bitfield j)) ∧
    (∀ j, test_bit (req_handler_have s (HAVE :: wire_bytes index)).peer_.bitfield j =
      (decide (j = index) || test_bit s.peer_.bitfield j)) ∧
    do_update_pbf r (some (wire_bytes index)) =
      { r with peer_ := { r.peer_ with
          bitfield := (do_update_pbf r (some (wire_bytes index))).peer_.bitfield } } ∧
    req_handler_have s (HAVE :: wire_bytes index) =
      { s with peer_ := { s.peer_ with
          bitfield := (req_handler_have s (HAVE :: wire_bytes index)).peer_.bitfield } } := by
  have hidx : index < U32 := Nat.lt_trans hi hu
  have hri : index / 8 < r.peer_.bitfield.length := by omega
  have hsi : index / 8 < s.peer_.bitfield.length := by omega
  have hrd : do_update_pbf r (some (wire_bytes index)) =
      { r with peer_ := { r.peer_ with bitfield := set_bit r.peer_.bitfield index } } := by
    have ht : (wire_bytes index).take IBL_LEN = wire_bytes index := by
      simp [wire_bytes, IBL_LEN]
    simp only [do_update_pbf, ht, update_pbf_wire index _ hidx]
    simp [wire_bytes]
  have hsd : req_handler_have s (HAVE :: wire_bytes index) =
      { s with peer_ := { s.peer_ with bitfield := set_bit s.peer_.bitfield index } } := by
    have ht : ((HAVE :: wire_bytes index).drop ID_LEN).take IBL_LEN = wire_bytes index := by
      simp [wire_bytes, IBL_LEN, ID_LEN]
    simp only [req_handler_have, ht, update_pbf_wire index _ hidx]
  refine ⟨?_, ?_, ?_, ?_, ?_, ?_⟩
  · intro ht
    rw [hrd, set_bit_of_test_bit _ _ hrb hri ht]
  · intro ht
    rw [hsd, set_bit_of_test_bit _ _ hsb hsi ht]
  · intro j
    rw [hrd]
    exact test_bit_set_bit _ _ _ hri
  · intro j
    rw [hsd]
    exact test_bit_set_bit _ _ _ hsi
  · rw [hrd]
  · rw [hsd]

/-- Witness of `C10_have_idempotent`: a HAVE for piece 2 of a ten-piece torrent, which the
peer already advertised. -/
theorem C10_have_idempotent_witness :
    test_bit c10_receiver.peer_.bitfield 2 = true ∧
    do_update_pbf c10_receiver (some (wire_bytes 2)) = c10_receiver ∧
    test_bit c10_sender.peer_.bitfield 2 = true ∧
    req_handler_have c10_sender (HAVE :: wire_bytes 2) = c10_sender :=
  have h := C10_have_idempotent c10_receiver c10_sender 10 2 (by decide) (by decide)
    (by decide) (by decide) (by decide) (by decide)
  ⟨by decide, h.1 (by decide), by decide, h.2.1 (by decide)⟩

/-! ## The rarity vector -/

theorem int_set_getD_self (pc : List Int) (i : Nat) : pc.set i (pc.getD i 0) = pc := by
  apply List.ext_getElem?
  intro j
  rw [List.getElem?_set]
  by_cases hij : i = j
  · subst hij
    by_cases hl : i < pc.length
    · simp [hl, List.getD_eq_getElem?_getD, List.getElem?_eq_getElem hl]
    · simp [hl, List.getElem?_eq_none (Nat.le_of_not_lt hl)]
  · simp [hij]

theorem int_getD_set (pc : List Int) (i j : Nat) (v : Int) :
    (pc.set i v).getD j 0 = if i = j ∧ i < pc.length then v else pc.getD j 0 := by
  simp only [List.getD_eq_getElem?_getD, List.getElem?_set]
  by_cases hij : i = j
  · subst hij
    by_cases hl : i < pc.length
    · simp [hl]
    · simp [hl, List.getElem?_eq_none (Nat.le_of_not_lt hl)]
  · simp [hij]

theorem foldl_range_set (g : Nat → Int → Int) (n : Nat) (pc : List Int) :
    ((List.range n).foldl (fun pc i => pc.set i (g i (pc.getD i 0))) pc).length = pc.length ∧
    ∀ j, ((List.range n).foldl (fun pc i => pc.set i (g i (pc.getD i 0))) pc).getD j 0 =
      if j < n ∧ j < pc.length then g j (pc.getD j 0) else pc.getD j 0 := by
  induction n with
  | zero => simp
  | succ n ih =>
    obtain ⟨ihl, ihg⟩ := ih
    rw [List.range_succ, List.foldl_append]
    simp only [List.foldl_cons, List.foldl_nil]
    refine ⟨by rw [List.length_set]; exact ihl, ?_⟩
    intro j
    rw [int_getD_set, ihl, ihg n, ihg j]
    by_cases hjn : n = j
    · subst hjn
      by_cases hl : n < pc.length
      · simp [hl]
      · simp [hl]
    · have h1 : (j < n + 1) ↔ (j < n) := by omega
      simp [hjn, h1]

theorem update_pcount_spec (c : core) (pbf : List Nat) :
    (update_pcount c pbf).2.pcount_.length = c.pcount_.length ∧
    ∀ j, (update_pcount c pbf).2.pcount_.getD j 0 =
      if j < c.pnum_ ∧ j < c.pcount_.length then
        (if c.pcount_.getD j 0 = INT_MAX then c.pcount_.getD j 0
         else if test_bit pbf j then c.pcount_.getD j 0 + 1 else c.pcount_.getD j 0)
      else c.pcount_.getD j 0 := by
  have hf : (fun (pc : List Int) (i : Nat) =>
      if pc.getD i 0 = INT_MAX then pc
      else if test_bit pbf i then pc.set i (pc.getD i 0 + 1) else pc) =
      (fun pc i => pc.set i ((fun i x => if x = INT_MAX then x
        else if test_bit pbf i then x + 1 else x) i (pc.getD i 0))) := by
    funext pc i
    by_cases h1 : pc.getD i 0 = INT_MAX
    · simp only [h1, if_true]
      rw [← h1, int_set_getD_self]
    · by_cases h2 : test_bit pbf i = true
      · simp only [h1, h2, if_true, if_false]
      · simp only [h1, h2, if_false, Bool.false_eq_true]
        rw [int_set_getD_self]
  simp only [update_pcount, hf]
  exact foldl_range_set (fun i x => if x = INT_MAX then x
    else if test_bit pbf i then x + 1 else x) c.pnum_ c.pcount_

theorem update_pcount_rest (c : core) (pbf : List Nat) :
    (update_pcount c pbf).2 = { c with pcount_ := (update_pcount c pbf).2.pcount_ } := rfl

theorem countP_set {α : Type} (p : α → Bool) (l : List α) (k : Nat) (a b : α)
    (h : l[k]? = some a) :
    (l.set k b).countP p + (if p a then 1 else 0) = l.countP p + (if p b then 1 else 0) := by
  induction l generalizing k with
  | nil => simp at h
  | cons x xs ih =>
    cases k with
    | zero =>
      simp only [List.getElem?_cons_zero, Option.some.injEq] at h
      subst h
      simp only [List.set_cons_zero, List.countP_cons]
      omega
    | succ k =>
      simp only [List.getElem?_cons_succ] at h
      have := ih k h
      simp only [List.set_cons_succ, List.countP_cons]
      omega
theorem test_bit_set_bit_mono (bf : List Nat) (index j : Nat) (h : test_bit bf j = true) :
    test_bit (set_bit bf index) j = true := by
  by_cases hi : index / 8 < bf.length
  · rw [test_bit_set_bit bf index j hi, h]
    simp
  · have : set_bit bf index = bf := by
      simp only [set_bit, BYTE_LEN]
      exact List.set_eq_of_length_le (Nat.le_of_not_lt hi)
    rw [this, h]

theorem do_update_pbf_mono (r : receiver) (rd : Option (List Nat)) (j : Nat)
    (h : test_bit r.peer_.bitfield j = true) :
    test_bit (do_update_pbf r rd).peer_.bitfield j = true := by
  unfold do_update_pbf
  split
  · exact h
  · split
    · exact h
    · exact test_bit_set_bit_mono _ _ _ h

theorem recv_bitfield_cases (r : receiver) (c : core) (size : Nat) (rd : Option (List Nat)) :
    ((recv_bitfield r c size rd).1 = false ∧ (recv_bitfield r c size rd).2.2.1 = c ∧
      (recv_bitfield r c size rd).2.1.peer_.bitfield = r.peer_.bitfield) ∨
    ((recv_bitfield r c size rd).1 = true ∧
      (recv_bitfield r c size rd).2.2.1 =
        (update_pcount c (recv_bitfield r c size rd).2.1.peer_.bitfield).2) := by
  unfold recv_bitfield
  split
  · left
    exact ⟨rfl, rfl, rfl⟩
  · split
    · left
      exact ⟨rfl, rfl, rfl⟩
    · right
      simp
theorem counted_with_set (rs : List (receiver × List Nat)) (k : Nat) (a b : receiver × List Nat)
    (i : Nat) (h : rs[k]? = some a) :
    (counted_with (rs.set k b) i : Int) + (if test_bit a.2 i then 1 else 0) =
      (counted_with rs i : Int) + (if test_bit b.2 i then 1 else 0) := by
  have := countP_set (fun p : receiver × List Nat => test_bit p.2 i) rs k a b h
  simp only [counted_with]
  split at this <;> split at this <;> simp_all
  all_goals omega

theorem rarity_inv_step_bitfield (c0 c : core) (rs : List (receiver × List Nat)) (k : Nat)
    (r : receiver) (seen : List Nat) (size : Nat) (rd : Option (List Nat))
    (hinv : rarity_inv c0 c rs) (hk : rs[k]? = some (r, seen))
    (hseen : ∀ i, test_bit seen i = false) (hok : (recv_bitfield r c size rd).1 = true) :
    rarity_inv c0 (recv_bitfield r c size rd).2.2.1
      (rs.set k ((recv_bitfield r c size rd).2.1,
        (recv_bitfield r c size rd).2.1.peer_.bitfield)) := by
  obtain ⟨hn, hl, hc, hb⟩ := hinv
  rcases recv_bitfield_cases r c size rd with ⟨hf, -, -⟩ | ⟨-, hcore⟩
  · rw [hok] at hf
    exact absurd hf (by simp)
  · obtain ⟨hlen, hget⟩ := update_pcount_spec c (recv_bitfield r c size rd).2.1.peer_.bitfield
    rw [hcore]
    refine ⟨hn, by rw [hlen]; exact hl, ?_, ?_⟩
    · intro i hi hne
      have hi2 : i < c.pnum_ := hi
      rw [hget i] at hne ⊢
      rw [if_pos ⟨hi2, by omega⟩] at hne ⊢
      have hcs := counted_with_set rs k (r, seen)
        ((recv_bitfield r c size rd).2.1, (recv_bitfield r c size rd).2.1.peer_.bitfield) i hk
      simp only [hseen i, Bool.false_eq_true, if_false, Int.add_zero] at hcs
      by_cases hmax : c.pcount_.getD i 0 = INT_MAX
      · rw [if_pos hmax] at hne
        exact absurd hmax hne
      · rw [if_neg hmax] at hne ⊢
        rw [hcs, hc i hi2 hmax]
        split <;> simp
    · intro p hp i hbit
      rcases List.mem_or_eq_of_mem_set hp with hmem | heq
      · exact hb p hmem i hbit
      · subst heq
        exact hbit
theorem rarity_inv_init (c0 : core) (h0 : c0.pcount_ = List.replicate c0.pnum_ 0) :
    rarity_inv c0 c0 [] := by
  refine ⟨rfl, by rw [h0]; simp, ?_, by simp⟩
  intro i hi _
  rw [h0]
  simp [counted_with, List.getD_eq_getElem?_getD, List.getElem?_replicate, hi]

theorem rarity_inv_step_other (c0 c : core) (rs : List (receiver × List Nat)) (k : Nat)
    (r r2 : receiver) (seen : List Nat) (hinv : rarity_inv c0 c rs)
    (hk : rs[k]? = some (r, seen))
    (hmono : ∀ i, test_bit r.peer_.bitfield i = true → test_bit r2.peer_.bitfield i = true) :
    rarity_inv c0 c (rs.set k (r2, seen)) := by
  obtain ⟨hn, hl, hc, hb⟩ := hinv
  refine ⟨hn, hl, ?_, ?_⟩
  · intro i hi hne
    have hcs := counted_with_set rs k (r, seen) (r2, seen) i hk
    rw [hc i hi hne]
    split at hcs <;> omega
  · intro p hp i hbit
    rcases List.mem_or_eq_of_mem_set hp with hmem | heq
    · exact hb p hmem i hbit
    · subst heq
      exact hmono i (hb (r, seen) (List.getElem?_mem hk) i hbit)

theorem rarity_inv_step_own (c0 c : core) (rs : List (receiver × List Nat)) (index : Nat)
    (hinv : rarity_inv c0 c rs) : rarity_inv c0 (update_bf c index).2 rs := by
  obtain ⟨hn, hl, hc, hb⟩ := hinv
  refine ⟨hn, by simpa [update_bf] using hl, ?_, hb⟩
  intro i hi hne
  simp only [update_bf] at hi hne ⊢
  rw [int_getD_set] at hne ⊢
  by_cases h : index = i ∧ index < c.pcount_.length
  · rw [if_pos h] at hne
    exact absurd rfl hne
  · rw [if_neg h] at hne ⊢
    exact hc i hi hne

theorem rarity_inv_of_counted (c0 c : core) (rs : List (receiver × List Nat))
    (h0 : c0.pcount_ = List.replicate c0.pnum_ 0) (h : rarity_counted c0 c rs) :
    rarity_inv c0 c rs := by
  induction h with
  | init => exact rarity_inv_init c0 h0
  | connect c rs r _ _ ih =>
    obtain ⟨hn, hl, hc, hb⟩ := ih
    refine ⟨hn, hl, ?_, ?_⟩
    · intro i hi hne
      rw [hc i hi hne]
      simp [counted_with, test_bit_eq]
    · intro p hp i hbit
      rcases List.mem_append.mp hp with hmem | hlast
      · exact hb p hmem i hbit
      · simp only [List.mem_singleton] at hlast
        subst hlast
        simp [test_bit_eq] at hbit
  | bitfield c rs k r seen size rd _ hk hseen hok ih =>
    exact rarity_inv_step_bitfield c0 c rs k r seen size rd ih hk hseen hok
  | bitfield_failed c rs k r seen size rd _ hk hfail ih =>
    rcases recv_bitfield_cases r c size rd with ⟨-, hcore, hbf⟩ | ⟨ht, -⟩
    · rw [hcore]
      exact rarity_inv_step_other c0 c rs k r _ seen ih hk (by intro i hi; rw [hbf]; exact hi)
    · rw [hfail] at ht
      exact absurd ht (by simp)
  | have_ c rs k r seen rd _ hk ih =>
    exact rarity_inv_step_other c0 c rs k r _ seen ih hk
      (fun i hi => do_update_pbf_mono r rd i hi)
  | own c rs index _ _ ih => exact rarity_inv_step_own c0 c rs index ih

/-- C11 (as stated, refuted): after a handshake and a HAVE for piece 0 the only connected
peer has bit 0 set but the rarity slot 0 is still 0, not 1 and not the sentinel. -/
theorem C11_counterexample :
    ¬ (∀ (c : core) (rmap : List receiver),
        rarity_reachable c7_core c rmap → rarity_matches c rmap) := by
  intro h
  have hr : rarity_reachable c7_core c7_core
      (([] ++ [c7_receiver]).set 0 (do_update_pbf c7_receiver (some (wire_bytes 0)))) :=
    rarity_reachable.have_ c7_core ([] ++ [c7_receiver]) 0 c7_receiver (some (wire_bytes 0))
      (rarity_reachable.connect c7_core [] c7_receiver rarity_reachable.init (by decide))
      (by decide)
  have h0 := h _ _ hr 0 (by decide) (by decide)
  revert h0
  decide

/-- C11 (amended): in every state reached from an engine with a zero rarity vector by
handshakes, BITFIELD handling for a receiver for which no bit was counted before, HAVE
handling and pieces becoming owned, every rarity slot that is not the sentinel equals the
number of connected receivers for which `update_pcount` counted that bit at their
BITFIELD; this is at most the number of connected peers whose last observed bitfield has
the bit set (a bit learned from HAVE is set but not counted), and equal to it when the
counted bits are all the set bits. Teardown is left out. -/
theorem C11_rarity_counts (c0 c : core) (rs : List (receiver × List Nat))
    (h0 : c0.pcount_ = List.replicate c0.pnum_ 0) (h : rarity_counted c0 c rs) :
    ∀ i, i < c.pnum_ → c.pcount_.getD i 0 ≠ INT_MAX →
      c.pcount_.getD i 0 = (counted_with rs i : Int) ∧
      counted_with rs i ≤ peers_with (rs.map Prod.fst) i ∧
      ((∀ p, p ∈ rs → test_bit p.1.peer_.bitfield i = test_bit p.2 i) →
        c.pcount_.getD i 0 = (peers_with (rs.map Prod.fst) i : Int)) := by
  obtain ⟨_, _, hc, hb⟩ := rarity_inv_of_counted c0 c rs h0 h
  intro i hi hne
  have hmap : peers_with (rs.map Prod.fst) i =
      rs.countP (fun p => test_bit p.1.peer_.bitfield i) := by
    simp only [peers_with, List.countP_map]
    rfl
  refine ⟨hc i hi hne, ?_, ?_⟩
  · rw [hmap]
    exact List.countP_mono_left (fun p hp hbit => hb p hp i hbit)
  · intro heq
    rw [hc i hi hne, hmap]
    congr 1
    exact List.countP_congr (fun p hp => by simp [heq p hp])

/-- Witness of `C11_rarity_counts`: a leecher of a one-piece torrent after the handshake
and the BITFIELD `0x80` of one peer. -/
theorem C11_rarity_counts_witness :
    c7_core.pcount_ = List.replicate c7_core.pnum_ 0 ∧
    (recv_bitfield c7_receiver c7_core 1 (some [128])).2.2.1.pcount_.getD 0 0 =
      (counted_with (([] ++ [(c7_receiver, [])]).set 0
        ((recv_bitfield c7_receiver c7_core 1 (some [128])).2.1,
          (recv_bitfield c7_receiver c7_core 1 (some [128])).2.1.peer_.bitfield)) 0 : Int) :=
  ⟨by decide,
    (C11_rarity_counts c7_core _ _ (by decide)
      (rarity_counted.bitfield c7_core ([] ++ [(c7_receiver, [])]) 0 c7_receiver [] 1
        (some [128])
        (rarity_counted.connect c7_core [] c7_receiver rarity_counted.init (by decide))
        (by decide) (by intro i; simp [test_bit_eq]) (by decide))
      0 (by decide) (by decide)).1⟩

/-- The BITFIELD path keeps the sentinel: `update_pcount` leaves a slot that holds
`INT_MAX` as it is. -/
theorem update_pcount_keeps_sentinel (c : core) (pbf : List Nat) (i : Nat)
    (h : c.pcount_.getD i 0 = INT_MAX) :
    (update_pcount c pbf).2.pcount_.getD i 0 = INT_MAX := by
  rw [(update_pcount_spec c pbf).2 i]
  by_cases hc : i < c.pnum_ ∧ i < c.pcount_.length
  · rw [if_pos hc, if_pos h]
    exact h
  · rw [if_neg hc]
    exact h

theorem rarest_first_rnd (c : core) (rmap : List receiver) (rnd : Nat) :
    rarest_first c rmap rnd =
      rarest_first c rmap (rnd % (rarest_seqs c (rarest_number c)).length) := by
  simp only [rarest_first, Nat.mod_mod]

theorem terminate_rnd (c : core) (rmap : List receiver) (k rnd : Nat) :
    terminate c rmap k rnd =
      terminate c rmap k (rnd % (rarest_seqs (decrease_pcount c)
        (rarest_number (decrease_pcount c))).length) := by
  simp only [terminate]
  rw [rarest_first_rnd]

/-- C12 (defect of the code): the leecher owns piece 0, whose rarity slot holds the
sentinel. When the receiver of the only peer with piece 1 terminates,
`receiver::terminate` decreases the sentinel too: the slot of the owned piece 0 becomes
`INT_MAX - 1`, and the `rarest_first` call at the end of `terminate` chooses the owned
piece 0 and makes the remaining receiver send INTERESTED for it. -/
theorem C12_terminate_decrements_sentinel (rnd : Nat) :
    test_bit c12_core.bitfield_ 0 = true ∧ c12_core.pcount_.getD 0 0 = INT_MAX ∧
    (terminate c12_core [c12_receiver_a, c12_receiver_b] 0 rnd).1.pcount_ =
      [INT_MAX - 1, 0] ∧
    (terminate c12_core [c12_receiver_a, c12_receiver_b] 0 rnd).1.finish_ = false ∧
    (terminate c12_core [c12_receiver_a, c12_receiver_b] 0 rnd).2.1 =
      [c12_receiver_b_picked] ∧
    (terminate c12_core [c12_receiver_a, c12_receiver_b] 0 rnd).2.2 =
      [.write 4 [0, 0, 0, 1, 2]] := by
  have ht : terminate c12_core [c12_receiver_a, c12_receiver_b] 0 rnd =
      terminate c12_core [c12_receiver_a, c12_receiver_b] 0 0 := by
    rw [terminate_rnd]
    have hl : (rarest_seqs (decrease_pcount c12_core)
        (rarest_number (decrease_pcount c12_core))).length = 1 := by decide
    rw [hl, Nat.mod_one]
  rw [ht]
  decide

/-! ## The rarest first selector -/

theorem rarest_fold_spec (pc : List Int) (n : Nat) :
    (List.range n).foldl
        (fun rn i => if pc.getD i 0 ≠ 0 ∧ pc.getD i 0 < rn then pc.getD i 0 else rn)
        INT_MAX ≤ INT_MAX ∧
    ((List.range n).foldl
        (fun rn i => if pc.getD i 0 ≠ 0 ∧ pc.getD i 0 < rn then pc.getD i 0 else rn)
        INT_MAX = INT_MAX ∨
      ∃ i, i < n ∧ pc.getD i 0 ≠ 0 ∧ pc.getD i 0 =
        (List.range n).foldl
          (fun rn i => if pc.getD i 0 ≠ 0 ∧ pc.getD i 0 < rn then pc.getD i 0 else rn)
          INT_MAX) ∧
    ∀ j, j < n → pc.getD j 0 ≠ 0 →
      (List.range n).foldl
        (fun rn i => if pc.getD i 0 ≠ 0 ∧ pc.getD i 0 < rn then pc.getD i 0 else rn)
        INT_MAX ≤ pc.getD j 0 := by
  induction n with
  | zero => simp
  | succ n ih =>
    rw [List.range_succ, List.foldl_append]
    simp only [List.foldl_cons, List.foldl_nil]
    generalize (List.range n).foldl
      (fun rn i => if pc.getD i 0 ≠ 0 ∧ pc.getD i 0 < rn then pc.getD i 0 else rn)
      INT_MAX = rn at ih ⊢
    obtain ⟨h1, h2, h3⟩ := ih
    by_cases hc : pc.getD n 0 ≠ 0 ∧ pc.getD n 0 < rn
    · rw [if_pos hc]
      refine ⟨by omega, Or.inr ⟨n, by omega, hc.1, rfl⟩, ?_⟩
      intro j hj hne
      rcases Nat.lt_succ_iff_lt_or_eq.mp hj with hlt | heq
      · have := h3 j hlt hne
        omega
      · subst heq
        exact Int.le_refl _
    · rw [if_neg hc]
      refine ⟨h1, ?_, ?_⟩
      · rcases h2 with h | ⟨i, hi, hne, heq⟩
        · exact Or.inl h
        · exact Or.inr ⟨i, by omega, hne, heq⟩
      · intro j hj hne
        rcases Nat.lt_succ_iff_lt_or_eq.mp hj with hlt | heq
        · exact h3 j hlt hne
        · subst heq
          have : ¬ pc.getD j 0 < rn := fun h => hc ⟨hne, h⟩
          omega

theorem rarest_number_spec (c : core) :
    rarest_number c ≤ INT_MAX ∧
    (rarest_number c = INT_MAX ∨
      ∃ i, i < c.pnum_ ∧ c.pcount_.getD i 0 ≠ 0 ∧ c.pcount_.getD i 0 = rarest_number c) ∧
    ∀ j, j < c.pnum_ → c.pcount_.getD j 0 ≠ 0 → rarest_number c ≤ c.pcount_.getD j 0 :=
  rarest_fold_spec c.pcount_ c.pnum_

theorem int_getD_mem (pc : List Int) (j : Nat) (hj : j < pc.length) : pc.getD j 0 ∈ pc := by
  rw [List.getD_eq_getElem?_getD, List.getElem?_eq_getElem hj]
  exact List.getElem_mem hj

theorem rarest_number_max_iff (c : core) (hl : c.pcount_.length = c.pnum_)
    (hint : ∀ x, x ∈ c.pcount_ → x ≤ INT_MAX) :
    rarest_number c = INT_MAX ↔ ∀ x, x ∈ c.pcount_ → x = 0 ∨ x = INT_MAX := by
  obtain ⟨_, h2, h3⟩ := rarest_number_spec c
  constructor
  · intro hrn x hx
    obtain ⟨j, hj, hjx⟩ := List.getElem_of_mem hx
    by_cases h0 : x = 0
    · exact Or.inl h0
    · right
      have hget : c.pcount_.getD j 0 = x := by
        rw [List.getD_eq_getElem?_getD, List.getElem?_eq_getElem hj]
        simpa using hjx
      have := h3 j (by omega) (by rw [hget]; exact h0)
      rw [hrn, hget] at this
      have := hint x hx
      omega
  · intro hall
    rcases h2 with h | ⟨i, hi, hne, heq⟩
    · exact h
    · rcases hall _ (int_getD_mem c.pcount_ i (by omega)) with h0 | hm
      · exact absurd h0 hne
      · rw [← heq]
        exact hm

theorem rarest_choice (c : core) (rnd : Nat) (hne : rarest_number c ≠ INT_MAX) :
    (rarest_seqs c (rarest_number c)).getD
        (rnd % (rarest_seqs c (rarest_number c)).length) 0 < c.pnum_ ∧
    c.pcount_.getD ((rarest_seqs c (rarest_number c)).getD
        (rnd % (rarest_seqs c (rarest_number c)).length) 0) 0 = rarest_number c := by
  obtain ⟨_, h2, _⟩ := rarest_number_spec c
  rcases h2 with h | ⟨i, hi, _, heq⟩
  · exact absurd h hne
  · have hmem : i ∈ rarest_seqs c (rarest_number c) := by
      simp only [rarest_seqs, List.mem_filter, List.mem_range]
      exact ⟨hi, by simpa using heq⟩
    have hpos : 0 < (rarest_seqs c (rarest_number c)).length := List.length_pos_of_mem hmem
    have hlt := Nat.mod_lt rnd hpos
    have hin : (rarest_seqs c (rarest_number c)).getD
        (rnd % (rarest_seqs c (rarest_number c)).length) 0 ∈
        rarest_seqs c (rarest_number c) := by
      rw [List.getD_eq_getElem?_getD, List.getElem?_eq_getElem hlt]
      exact List.getElem_mem hlt
    generalize (rarest_seqs c (rarest_number c)).getD
      (rnd % (rarest_seqs c (rarest_number c)).length) 0 = p at hin ⊢
    simp only [rarest_seqs, List.mem_filter, List.mem_range, decide_eq_true_eq] at hin
    exact hin

/-- For an engine that is not finished yet and a rarity vector of `int` values,
`rarest_first` sets `finish_`, chooses no piece and sends nothing exactly when every slot
is zero or the sentinel; otherwise `finish_` stays false and the piece chosen is below
the piece count, its slot is neither zero nor the sentinel and no slot that is neither
zero nor the sentinel is smaller. -/
theorem rarest_first_unfinished (c : core) (rmap : List receiver) (rnd : Nat)
    (hf : c.finish_ = false) (hl : c.pcount_.length = c.pnum_)
    (hint : ∀ x, x ∈ c.pcount_ → x ≤ INT_MAX) :
    (((rarest_first c rmap rnd).1.finish_ = true ∧ (rarest_first c rmap rnd).2.2.1 = none) ↔
      ∀ x, x ∈ c.pcount_ → x = 0 ∨ x = INT_MAX) ∧
    ((rarest_first c rmap rnd).2.2.1 = none → (rarest_first c rmap rnd).2.2.2 = [] ∧
      (rarest_first c rmap rnd).2.1 = rmap) ∧
    (¬ (∀ x, x ∈ c.pcount_ → x = 0 ∨ x = INT_MAX) →
      (rarest_first c rmap rnd).1.finish_ = false ∧
      ∃ p, (rarest_first c rmap rnd).2.2.1 = some p ∧ p < c.pnum_ ∧
        c.pcount_.getD p 0 ≠ 0 ∧ c.pcount_.getD p 0 ≠ INT_MAX ∧
        ∀ j, j < c.pnum_ → c.pcount_.getD j 0 ≠ 0 → c.pcount_.getD j 0 ≠ INT_MAX →
          c.pcount_.getD p 0 ≤ c.pcount_.getD j 0) := by
  have hiff := rarest_number_max_iff c hl hint
  obtain ⟨_, h2, h3⟩ := rarest_number_spec c
  by_cases hrn : rarest_number c = INT_MAX
  · have hall := hiff.mp hrn
    simp only [rarest_first, hf, hrn, if_true, Bool.false_eq_true, if_false]
    exact ⟨⟨fun _ => hall, fun _ => ⟨trivial, trivial⟩⟩, fun _ => ⟨trivial, trivial⟩,
      fun hnot => absurd hall hnot⟩
  · have hnall : ¬ (∀ x, x ∈ c.pcount_ → x = 0 ∨ x = INT_MAX) := fun h => hrn (hiff.mpr h)
    obtain ⟨hp1, hp2⟩ := rarest_choice c rnd hrn
    simp only [rarest_first, hf, hrn, if_false, Bool.false_eq_true]
    refine ⟨⟨fun h => by simp at h, fun h => absurd h hnall⟩, fun h => by simp at h, ?_⟩
    intro _
    refine ⟨trivial, _, rfl, hp1, ?_, ?_, ?_⟩
    · rw [hp2]
      rcases h2 with h | ⟨i, _, hne, heq⟩
      · exact absurd h hrn
      · rw [← heq]
        exact hne
    · rw [hp2]
      exact hrn
    · intro j hj hne _
      rw [hp2]
      exact h3 j hj hne


/-- C13 (as stated, refuted): the engine set `finish_` when piece 1 completed while no peer
held piece 0 (rarity `[0, INT_MAX]`); then the BITFIELD of a peer with piece 0 was counted
(rarity `[1, INT_MAX]`). `rarest_first` returns at once because `finish_` is set: it
chooses no piece and `finish_` stays true although slot 0 is neither zero nor the
sentinel. -/
theorem C13_counterexample :
    ¬ (∀ (c : core) (rmap : List receiver) (rnd : Nat),
        c.pcount_.length = c.pnum_ → (∀ x, x ∈ c.pcount_ → x ≤ INT_MAX) →
        (((rarest_first c rmap rnd).1.finish_ = true ∧
            (rarest_first c rmap rnd).2.2.1 = none) ↔
          ∀ x, x ∈ c.pcount_ → x = 0 ∨ x = INT_MAX)) := by
  intro h
  have h1 := (h c13_core_latched [c12_receiver_b] 0 (by decide) (by decide)).mp (by decide)
  have h2 := h1 1 (by decide)
  revert h2
  decide

/-- C13 (amended): for a rarity vector of `int` values, one for each piece: when `finish_`
is set already, `rarest_first` does nothing, whatever the rarity vector holds: the engine
and the registry are unchanged, no piece is chosen and nothing is sent. When `finish_` is
not set, `rarest_first` sets it, chooses no piece and sends nothing exactly when every
slot is zero or the sentinel; otherwise `finish_` stays false and the piece chosen is
below the piece count, its slot is neither zero nor the sentinel and no slot that is
neither zero nor the sentinel is smaller. -/
theorem C13_rarest_first_choice (c : core) (rmap : List receiver) (rnd : Nat)
    (hl : c.pcount_.length = c.pnum_) (hint : ∀ x, x ∈ c.pcount_ → x ≤ INT_MAX) :
    (c.finish_ = true → rarest_first c rmap rnd = (c, rmap, none, [])) ∧
    (c.finish_ = false →
      (((rarest_first c rmap rnd).1.finish_ = true ∧
          (rarest_first c rmap rnd).2.2.1 = none) ↔
        ∀ x, x ∈ c.pcount_ → x = 0 ∨ x = INT_MAX) ∧
      ((rarest_first c rmap rnd).2.2.1 = none → (rarest_first c rmap rnd).2.2.2 = [] ∧
        (rarest_first c rmap rnd).2.1 = rmap) ∧
      (¬ (∀ x, x ∈ c.pcount_ → x = 0 ∨ x = INT_MAX) →
        (rarest_first c rmap rnd).1.finish_ = false ∧
        ∃ p, (rarest_first c rmap rnd).2.2.1 = some p ∧ p < c.pnum_ ∧
          c.pcount_.getD p 0 ≠ 0 ∧ c.pcount_.getD p 0 ≠ INT_MAX ∧
          ∀ j, j < c.pnum_ → c.pcount_.getD j 0 ≠ 0 → c.pcount_.getD j 0 ≠ INT_MAX →
            c.pcount_.getD p 0 ≤ c.pcount_.getD j 0)) := by
  refine ⟨?_, fun hf => rarest_first_unfinished c rmap rnd hf hl hint⟩
  intro hf
  simp only [rarest_first, hf, if_true]

/-- Witness of `C13_rarest_first_choice`: with the rarity vector `[INT_MAX, 1]` and
`finish_` not set piece 1 is chosen; with the rarity vector `[1, INT_MAX]` and `finish_`
set nothing is chosen. -/
theorem C13_rarest_first_choice_witness :
    c12_core.finish_ = false ∧ c12_core.pcount_.length = c12_core.pnum_ ∧
    (∀ x, x ∈ c12_core.pcount_ → x ≤ INT_MAX) ∧
    ¬ (∀ x, x ∈ c12_core.pcount_ → x = 0 ∨ x = INT_MAX) ∧
    (rarest_first c12_core [c12_receiver_a, c12_receiver_b] 0).1.finish_ = false ∧
    (∃ p, (rarest_first c12_core [c12_receiver_a, c12_receiver_b] 0).2.2.1 = some p ∧
      p < c12_core.pnum_ ∧ c12_core.pcount_.getD p 0 ≠ 0 ∧
      c12_core.pcount_.getD p 0 ≠ INT_MAX ∧
      ∀ j, j < c12_core.pnum_ → c12_core.pcount_.getD j 0 ≠ 0 →
        c12_core.pcount_.getD j 0 ≠ INT_MAX →
        c12_core.pcount_.getD p 0 ≤ c12_core.pcount_.getD j 0) ∧
    c13_core_latched.finish_ = true ∧ c13_core_latched.pcount_ = [1, INT_MAX] ∧
    rarest_first c13_core_latched [c12_receiver_b] 0 =
      (c13_core_latched, [c12_receiver_b], none, []) :=
  have h := C13_rarest_first_choice c12_core [c12_receiver_a, c12_receiver_b] 0
    (by decide) (by decide)
  have h2 := C13_rarest_first_choice c13_core_latched [c12_receiver_b] 0
    (by decide) (by decide)
  ⟨by decide, by decide, by decide, by decide, ((h.2 (by decide)).2.2 (by decide)).1,
    ((h.2 (by decide)).2.2 (by decide)).2, by decide, by decide, h2.1 (by decide)⟩

/-! ## The PIECE path of the receiver -/

theorem validate_piece_match (sha : List Nat → List Nat) (r : receiver) (c : core)
    (mi : metainfo)
    (h : (sha (mem_read c.file_ ((r.piece_ * c.plen_) % U32)
        (if r.piece_ = (c.pnum_ + U32 - 1) % U32 then c.lplen_ else c.plen_))).take
          SHA_DIGEST_LENGTH = mi.piece_hash_.getD r.piece_ []) :
    validate_piece sha r c mi = (true, c) := by
  simp only [validate_piece, h, if_true]

/-- What `mesg_handle` does with a PIECE message: the block is downloaded and, if the piece
is complete, validated. -/
theorem mesg_handle_piece (sha : List Nat → List Nat) (mi : metainfo) (c : core)
    (rmap : List receiver) (k : Nat) (inp : mesg_in) (r : receiver) (ds di : List Nat)
    (hr : rmap[k]? = some r) (hs1 : inp.select_ret ≠ -1) (hs0 : inp.select_ret ≠ 0)
    (hds : inp.rd_size = some ds) (hdl : (ds.take PF_LEN).length ≠ 0)
    (hka : ntohl (u32_of_bytes (ds.take PF_LEN)) ≠ KEEP_ALIVE)
    (hdi : inp.rd_id = some di) (hid : (di.take ID_LEN).getD 0 0 = PIECE) :
    mesg_handle sha mi c rmap k inp =
      (if !(piece_download r c mi inp ds).1 then
        (true, (piece_download r c mi inp ds).2.2,
          rmap.set k (piece_download r c mi inp ds).2.1, [])
      else if !complete_piece (piece_download r c mi inp ds).2.1
          (piece_download r c mi inp ds).2.2 then
        (true, (piece_download r c mi inp ds).2.2,
          rmap.set k (piece_download r c mi inp ds).2.1, [])
      else if !(validate_piece sha (piece_download r c mi inp ds).2.1
          (piece_download r c mi inp ds).2.2 mi).1 then
        (true, (validate_piece sha (piece_download r c mi inp ds).2.1
          (piece_download r c mi inp ds).2.2 mi).2,
          rmap.set k (piece_download r c mi inp ds).2.1, [])
      else mesg_handle_validated (validate_piece sha (piece_download r c mi inp ds).2.1
          (piece_download r c mi inp ds).2.2 mi).2 rmap k
          (piece_download r c mi inp ds).2.1 inp) := by
  have h1 : ¬ (PIECE = BIT_FIELD) := by decide
  have h2 : ¬ (PIECE = UNCHOKE) := by decide
  have h3 : ¬ (PIECE = CHOKE) := by decide
  simp only [mesg_handle, piece_download, hr, hds, hdi, hid, if_neg hs1, if_neg hs0,
    if_neg hdl, if_neg hka, if_neg h1, if_neg h2, if_neg h3, if_true]

/-- C14 (defect of the code): a leecher of a two-piece torrent lacks both pieces; its only
peer holds piece 1 and no connected peer holds piece 0 (rarity count 0). When the PIECE
message that completes piece 1 is handled and the piece validates, `rarest_first` finds
no slot that is neither zero nor the sentinel and sets `finish_`, so `mesg_handle`
calls `name_target`: the temporary file is renamed and `completed` is announced although
the bit of piece 0 is not set in the local bitfield. -/
theorem C14_completed_with_piece_missing (sha : List Nat → List Nat)
    (hsha : (sha [7, 8]).take SHA_DIGEST_LENGTH = List.replicate 20 1) :
    mesg_handle sha t6_metainfo c14_core [c14_receiver] 0 c14_piece =
      (false, c14_core_after, [c14_receiver_after],
        [.write 5 [0, 0, 0, 5, 4, 0, 0, 0, 1], .write 5 [0, 0, 0, 1, 3], .rename,
          .complete]) ∧
    test_bit c14_core_after.bitfield_ 0 = false ∧ c14_core_after.pcount_.getD 0 0 = 0 ∧
    test_bit c14_core_after.bitfield_ 1 = true := by
  refine ⟨?_, by decide, by decide, by decide⟩
  have hc1 : (piece_download c14_receiver c14_core t6_metainfo c14_piece [0, 0, 0, 15]).1 =
      true := by decide
  have hc2 : complete_piece
      (piece_download c14_receiver c14_core t6_metainfo c14_piece [0, 0, 0, 15]).2.1
      (piece_download c14_receiver c14_core t6_metainfo c14_piece [0, 0, 0, 15]).2.2 =
      true := by decide
  have hv : validate_piece sha
      (piece_download c14_receiver c14_core t6_metainfo c14_piece [0, 0, 0, 15]).2.1
      (piece_download c14_receiver c14_core t6_metainfo c14_piece [0, 0, 0, 15]).2.2
      t6_metainfo =
      (true, (piece_download c14_receiver c14_core t6_metainfo c14_piece [0, 0, 0, 15]).2.2) := by
    apply validate_piece_match
    generalize hx : mem_read _ _ _ = x
    have hx2 : x = [7, 8] := by
      rw [← hx]
      decide
    rw [hx2, hsha]
    decide
  rw [mesg_handle_piece sha t6_metainfo c14_core [c14_receiver] 0 c14_piece c14_receiver
    [0, 0, 0, 15] [7] rfl (by decide) (by decide) rfl (by decide) (by decide) rfl (by decide)]
  simp only [hc1, hc2, hv, Bool.not_true, Bool.false_eq_true, if_false]
  decide

/-- Witness of `C14_completed_with_piece_missing`: a digest function under which the block
`[7, 8]` has the expected piece hash. -/
theorem C14_completed_with_piece_missing_witness :
    ((fun _ => List.replicate 20 1 : List Nat → List Nat) [7, 8]).take SHA_DIGEST_LENGTH =
      List.replicate 20 1 ∧
    mesg_handle (fun _ => List.replicate 20 1) t6_metainfo c14_core [c14_receiver] 0
        c14_piece =
      (false, c14_core_after, [c14_receiver_after],
        [.write 5 [0, 0, 0, 5, 4, 0, 0, 0, 1], .write 5 [0, 0, 0, 1, 3], .rename,
          .complete]) :=
  ⟨by decide, (C14_completed_with_piece_missing (fun _ => List.replicate 20 1) (by decide)).1⟩

theorem memcpy_frame (buff src : List Nat) (off : Nat) (h : off + src.length ≤ buff.length) :
    (memcpy buff off src).length = buff.length ∧
    (memcpy buff off src).take off = buff.take off ∧
    ((memcpy buff off src).drop off).take src.length = src ∧
    (memcpy buff off src).drop (off + src.length) = buff.drop (off + src.length) := by
  have hoff : off ≤ buff.length := by omega
  have hlen : (buff.take off).length = off := by simp [hoff]
  have hd : List.drop off (buff.take off) = [] :=
    List.drop_eq_nil_of_le (Nat.le_of_eq hlen)
  refine ⟨?_, ?_, ?_, ?_⟩
  · simp only [memcpy, List.length_append, List.length_take, List.length_drop]
    omega
  · simp only [memcpy, List.append_assoc]
    rw [List.take_append_of_le_length (Nat.le_of_eq hlen.symm), List.take_take, Nat.min_self]
  · simp only [memcpy, List.append_assoc]
    rw [List.drop_append_of_le_length (Nat.le_of_eq hlen.symm), hd, List.nil_append,
      List.take_left']
    rfl
  · simp only [memcpy]
    exact List.drop_left' (by rw [List.length_append, hlen])

theorem wire_bytes_decode (x : Nat) (hx : x < U32) :
    ntohl (u32_of_bytes ((wire_bytes x).take IBL_LEN)) = x := by
  have : (wire_bytes x).take IBL_LEN = wire_bytes x := by simp [wire_bytes, IBL_LEN]
  rw [this]
  exact ntohl_u32_of_bytes x hx

theorem download_ok (r : receiver) (c : core) (mi : metainfo) (size index begin rate : Nat)
    (block : List Nat) (hb : begin < U32) (hne : (block.take size).length ≠ 0) :
    download r c mi size (some (wire_bytes index)) (some (wire_bytes begin)) (some block)
        rate =
      (true, { r with peer_ := { r.peer_ with rate := rate } },
        update_dwn { c with
          file_ := memcpy c.file_ (receiver_find_block mi r begin) (block.take size),
          progress_ := c.progress_.set r.piece_
            ((c.progress_.getD r.piece_ 0 + r.size_) % U32) } r.size_) := by
  have h4 : ∀ x, ¬ (((wire_bytes x).take IBL_LEN).length = 0) := by
    intro x
    simp [wire_bytes, IBL_LEN]
  simp only [download, h4, hne, wire_bytes_decode begin hb, if_false]

/-- C15 (as stated, refuted): the receiver requested piece 1 of the two-piece torrent and
a PIECE message with index 0, begin 0 and the block `[7, 8]` arrives. The block is not
written at `0 * piece_length + 0`: the two bytes there stay zero (they go to offset 4,
the place of the receiver's own piece 1). -/
theorem C15_counterexample :
    ¬ (∀ (r : receiver) (c : core) (mi : metainfo) (size index begin rate : Nat)
        (block : List Nat),
        index < c.pnum_ → begin < U32 → block.length = size → 0 < size →
        (get_piece_size mi).toNat * index + begin + block.length ≤ c.file_.length →
        (download r c mi size (some (wire_bytes index)) (some (wire_bytes begin))
          (some block) rate).1 = true →
        (((download r c mi size (some (wire_bytes index)) (some (wire_bytes begin))
          (some block) rate).2.2.file_.drop
            ((get_piece_size mi).toNat * index + begin)).take block.length = block ∧
         (download r c mi size (some (wire_bytes index)) (some (wire_bytes begin))
          (some block) rate).2.2.progress_.getD index 0 =
            c.progress_.getD index 0 + block.length)) := by
  intro h
  have h1 := (h c14_receiver c14_core t6_metainfo 2 0 0 1000 [7, 8] (by decide) (by decide)
    (by decide) (by decide) (by decide) (by decide)).1
  revert h1
  decide

/-- C15 (amended): when the three reads of `download` deliver the index, the begin and a
block, the bytes of the block (at most `size` of them) are written to the mapped file at
`piece_length * piece_ + begin`, where `piece_` is the piece the receiver requests and
`begin` comes from the message; the index of the message is not used. Every byte outside
that range is unchanged, `progress_[piece_]` grows by the size `size_` of the last
request and the progress of every other piece is unchanged. This is the place and the
growth the message states when its index is `piece_` and its block has `size_` bytes. -/
theorem C15_download_writes_block (r : receiver) (c : core) (mi : metainfo)
    (size index begin rate : Nat) (block : List Nat) (hb : begin < U32)
    (hne : (block.take size).length ≠ 0)
    (hfit : receiver_find_block mi r begin + (block.take size).length ≤ c.file_.length) :
    (download r c mi size (some (wire_bytes index)) (some (wire_bytes begin)) (some block)
      rate).1 = true ∧
    receiver_find_block mi r begin =
      (get_piece_size mi * (r.piece_ : Int) + (begin : Int)).toNat ∧
    ((download r c mi size (some (wire_bytes index)) (some (wire_bytes begin)) (some block)
      rate).2.2.file_.drop (receiver_find_block mi r begin)).take (block.take size).length =
        block.take size ∧
    (download r c mi size (some (wire_bytes index)) (some (wire_bytes begin)) (some block)
      rate).2.2.file_.take (receiver_find_block mi r begin) =
        c.file_.take (receiver_find_block mi r begin) ∧
    (download r c mi size (some (wire_bytes index)) (some (wire_bytes begin)) (some block)
      rate).2.2.file_.drop (receiver_find_block mi r begin + (block.take size).length) =
        c.file_.drop (receiver_find_block mi r begin + (block.take size).length) ∧
    (download r c mi size (some (wire_bytes index)) (some (wire_bytes begin)) (some block)
      rate).2.2.file_.length = c.file_.length ∧
    (r.piece_ < c.progress_.length →
      (download r c mi size (some (wire_bytes index)) (some (wire_bytes begin)) (some block)
        rate).2.2.progress_.getD r.piece_ 0 = (c.progress_.getD r.piece_ 0 + r.size_) % U32) ∧
    (∀ j, j ≠ r.piece_ →
      (download r c mi size (some (wire_bytes index)) (some (wire_bytes begin)) (some block)
        rate).2.2.progress_.getD j 0 = c.progress_.getD j 0) ∧
    (∀ index2,
      download r c mi size (some (wire_bytes index2)) (some (wire_bytes begin)) (some block)
        rate =
      download r c mi size (some (wire_bytes index)) (some (wire_bytes begin)) (some block)
        rate) := by
  obtain ⟨f1, f2, f3, f4⟩ := memcpy_frame c.file_ (block.take size)
    (receiver_find_block mi r begin) hfit
  rw [download_ok r c mi size index begin rate block hb hne]
  refine ⟨rfl, rfl, f3, f2, f4, f1, ?_, ?_, ?_⟩
  · intro hp
    simp only [update_dwn, List.getD_eq_getElem?_getD, List.getElem?_set]
    simp [hp]
  · intro j hj
    have hj2 : ¬ r.piece_ = j := fun e => hj e.symm
    simp only [update_dwn, List.getD_eq_getElem?_getD, List.getElem?_set]
    simp [hj2]
  · intro index2
    rw [download_ok r c mi size index2 begin rate block hb hne]

/-- Witness of `C15_download_writes_block`: the PIECE message with index 0 received by the
receiver that requests piece 1 is written at offset 4. -/
theorem C15_download_writes_block_witness :
    0 < U32 ∧ (([7, 8] : List Nat).take 2).length ≠ 0 ∧
    receiver_find_block t6_metainfo c14_receiver 0 + (([7, 8] : List Nat).take 2).length ≤
      c14_core.file_.length ∧
    ((download c14_receiver c14_core t6_metainfo 2 (some (wire_bytes 0))
      (some (wire_bytes 0)) (some [7, 8]) 1000).2.2.file_.drop
        (receiver_find_block t6_metainfo c14_receiver 0)).take
          (([7, 8] : List Nat).take 2).length = ([7, 8] : List Nat).take 2 ∧
    receiver_find_block t6_metainfo c14_receiver 0 = 4 :=
  have h := C15_download_writes_block c14_receiver c14_core t6_metainfo 2 0 0 1000 [7, 8]
    (by decide) (by decide) (by decide)
  ⟨by decide, by decide, by decide, h.2.2.1, by decide⟩

/-! ## The progress vector -/

theorem nat_getD_set (l : List Nat) (i j v : Nat) :
    (l.set i v).getD j 0 = if i = j ∧ i < l.length then v else l.getD j 0 := by
  simp only [List.getD_eq_getElem?_getD, List.getElem?_set]
  by_cases hij : i = j
  · subst hij
    by_cases hl : i < l.length
    · simp [hl]
    · simp [hl, List.getElem?_eq_none (Nat.le_of_not_lt hl)]
  · simp [hij]

theorem download_effect (r : receiver) (c : core) (mi : metainfo) (size : Nat)
    (rd_piece rd_begin rd_block : Option (List Nat)) (rate : Nat)
    (h : (download r c mi size rd_piece rd_begin rd_block rate).1 = true) :
    (download r c mi size rd_piece rd_begin rd_block rate).2.2.progress_ =
      c.progress_.set r.piece_ ((c.progress_.getD r.piece_ 0 + r.size_) % U32) ∧
    (download r c mi size rd_piece rd_begin rd_block rate).2.2.pnum_ = c.pnum_ ∧
    (download r c mi size rd_piece rd_begin rd_block rate).2.2.plen_ = c.plen_ ∧
    (download r c mi size rd_piece rd_begin rd_block rate).2.2.lplen_ = c.lplen_ ∧
    (download r c mi size rd_piece rd_begin rd_block rate).2.2.bitfield_ = c.bitfield_ ∧
    (download r c mi size rd_piece rd_begin rd_block rate).2.2.req_set = c.req_set := by
  unfold download at h ⊢
  split at h
  · simp at h
  · split at h
    · simp at h
    · split at h
      · simp at h
      · split at h
        · simp at h
        · split at h
          · simp at h
          · split at h
            · simp at h
            · simp_all [update_dwn]

theorem last_index (n : Nat) (h1 : 1 ≤ n) (h2 : n < U32) : (n + U32 - 1) % U32 = n - 1 := by
  simp only [U32] at h2 ⊢
  omega

theorem complete_piece_iff (r : receiver) (c : core) (h1 : 1 ≤ c.pnum_) (h2 : c.pnum_ < U32) :
    complete_piece r c = true ↔ c.progress_.getD r.piece_ 0 = spec_piece_length c r.piece_ := by
  simp only [complete_piece, spec_piece_length, last_index c.pnum_ h1 h2]
  by_cases hp : r.piece_ = c.pnum_ - 1
  · simp only [hp, if_true]
    by_cases he : c.progress_.getD (c.pnum_ - 1) 0 = c.lplen_ <;> simp [he]
  · simp only [hp, if_false]
    by_cases he : c.progress_.getD r.piece_ 0 = c.plen_ <;> simp [he]

theorem validate_piece_effect (sha : List Nat → List Nat) (r : receiver) (c : core)
    (mi : metainfo) :
    ((validate_piece sha r c mi).1 = true ∧ (validate_piece sha r c mi).2 = c) ∨
    ((validate_piece sha r c mi).1 = false ∧
      (validate_piece sha r c mi).2.progress_ = c.progress_.set r.piece_ 0 ∧
      (validate_piece sha r c mi).2.file_ = memset c.file_ ((r.piece_ * c.plen_) % U32) 0
        (if r.piece_ = (c.pnum_ + U32 - 1) % U32 then c.lplen_ else c.plen_) ∧
      (validate_piece sha r c mi).2.pnum_ = c.pnum_ ∧
      (validate_piece sha r c mi).2.plen_ = c.plen_ ∧
      (validate_piece sha r c mi).2.lplen_ = c.lplen_ ∧
      (validate_piece sha r c mi).2.bitfield_ = c.bitfield_ ∧
      (validate_piece sha r c mi).2.pcount_ = c.pcount_ ∧
      (validate_piece sha r c mi).2.req_set = c.req_set) := by
  by_cases hh : (sha (mem_read c.file_ ((r.piece_ * c.plen_) % U32)
      (if r.piece_ = (c.pnum_ + U32 - 1) % U32 then c.lplen_ else c.plen_))).take
        SHA_DIGEST_LENGTH = mi.piece_hash_.getD r.piece_ []
  · left
    simp only [validate_piece, if_pos hh, and_self]
  · right
    simp only [validate_piece, if_neg hh, update_dwn, and_self]


/-- C16 (as stated, refuted): with piece length 20000, which is not a multiple of 16384,
two turns of the receiver loop, each handling a PIECE message for piece 0 and sending the
next REQUEST, bring `progress_[0]` to 32768, above the length of the piece. -/
theorem C16_counterexample :
    ¬ (∀ (c : core) (rmap : List receiver),
        loop_reachable c16_sha c16_metainfo c16_core [c2_receiver] c rmap →
        progress_bounded c) := by
  intro h
  have hr0 : loop_reachable c16_sha c16_metainfo c16_core [c2_receiver] c16_core
      [c2_receiver] := loop_reachable.init
  have hr1 := loop_reachable.turn c16_core [c2_receiver] 0 (c16_piece 0) 0 hr0 (by decide)
  have hr2 := loop_reachable.turn _ _ 0 (c16_piece 16384) 0 hr1 (by decide!)
  have hb := h _ _ hr2 0 (by decide!)
  revert hb
  decide!

/-- A piece length that is a multiple of 16384 does not save the bound: the receiver on
socket 5 has REQUEST `(0, 0, 16384)` outstanding, a keep-alive message makes it send the
request again, the first PIECE completes and validates piece 0 and the second PIECE adds
16384 once more: `progress_[0]` is 32768 with piece length 16384. -/
theorem progress_overshoot_by_duplicate :
    loop_reachable c16_sha c16_metainfo_dup c16_core_dup c16_rmap_dup c16_dup_turn3.1
      c16_dup_turn3.2.1 ∧
    c16_dup_turn1.2.2.1 = [.write 5 [0, 0, 0, 13, 6, 0, 0, 0, 0, 0, 0, 0, 0, 0, 0, 64, 0]] ∧
    c16_dup_turn2.1.progress_ = [16384, 0] ∧ c16_dup_turn2.1.bitfield_ = [128] ∧
    c16_dup_turn3.1.progress_ = [32768, 0] ∧ c16_dup_turn3.1.plen_ = 16384 ∧
    ¬ progress_bounded c16_dup_turn3.1 := by
  refine ⟨?_, by decide!, by decide!, by decide!, by decide!, by decide!, ?_⟩
  · have h1 : loop_reachable c16_sha c16_metainfo_dup c16_core_dup c16_rmap_dup
        c16_dup_turn1.1 c16_dup_turn1.2.1 := by
      unfold c16_dup_turn1
      exact loop_reachable.turn c16_core_dup c16_rmap_dup 0 c19_keep_alive 0
        loop_reachable.init (by decide)
    have h2 : loop_reachable c16_sha c16_metainfo_dup c16_core_dup c16_rmap_dup
        c16_dup_turn2.1 c16_dup_turn2.2.1 := by
      unfold c16_dup_turn2
      exact loop_reachable.turn c16_dup_turn1.1 c16_dup_turn1.2.1 0 (c16_piece 0) 0 h1
        (by decide!)
    unfold c16_dup_turn3
    exact loop_reachable.turn c16_dup_turn2.1 c16_dup_turn2.2.1 0 (c16_piece 0) 0 h2
      (by decide!)
  · intro hb
    have h0 := hb 0 (by decide!)
    revert h0
    decide!

/-- C16 (amended): the bound is kept by one round of REQUEST and PIECE. When no piece has
more progress than its length, the piece of the receiver is not complete and is the last
piece or has at least 16384 bytes left, then after `send_request` and the `download` of
the PIECE that answers it the progress of that piece has grown by
`min(16384, piece_length - progress)`, the progress of every other piece is unchanged and
no piece has more progress than its length; a failed or passed validation after it keeps
the bound as well; and `complete_piece` is true exactly when the progress of the piece of
the receiver equals the length of that piece. -/
theorem C16_round_keeps_bound (sha : List Nat → List Nat) (c : core) (r : receiver)
    (mi : metainfo) (size : Nat) (rd_piece rd_begin rd_block : Option (List Nat))
    (rate : Nat) (h1 : 1 ≤ c.pnum_) (h2 : c.pnum_ < U32) (hpl : c.plen_ < U32)
    (hll : c.lplen_ < U32) (hlen : c.progress_.length = c.pnum_) (hp : r.piece_ < c.pnum_)
    (hb : progress_bounded c) (hc : complete_piece r c = false)
    (hroom : r.piece_ = c.pnum_ - 1 ∨ c.progress_.getD r.piece_ 0 + BLOCK_SIZE ≤ c.plen_)
    (hd : (download (send_request r c).1 c mi size rd_piece rd_begin rd_block rate).1 =
      true) :
    progress_bounded
      (download (send_request r c).1 c mi size rd_piece rd_begin rd_block rate).2.2 ∧
    (download (send_request r c).1 c mi size rd_piece rd_begin rd_block
      rate).2.2.progress_.getD r.piece_ 0 =
      c.progress_.getD r.piece_ 0 +
        spec_block_length c r.piece_ (c.progress_.getD r.piece_ 0) ∧
    (∀ j, j ≠ r.piece_ →
      (download (send_request r c).1 c mi size rd_piece rd_begin rd_block
        rate).2.2.progress_.getD j 0 = c.progress_.getD j 0) ∧
    progress_bounded (validate_piece sha r
      (download (send_request r c).1 c mi size rd_piece rd_begin rd_block rate).2.2 mi).2 ∧
    (∀ r2 : receiver,
      complete_piece r2
        (download (send_request r c).1 c mi size rd_piece rd_begin rd_block rate).2.2 =
        true ↔
      (download (send_request r c).1 c mi size rd_piece rd_begin rd_block
        rate).2.2.progress_.getD r2.piece_ 0 =
        spec_piece_length
          (download (send_request r c).1 c mi size rd_piece rd_begin rd_block rate).2.2
          r2.piece_) := by
  obtain ⟨e1, e2, e3, e4, -, -⟩ :=
    download_effect _ c mi size rd_piece rd_begin rd_block rate hd
  have hlast := last_index c.pnum_ h1 h2
  have hpc : (send_request r c).1.piece_ = r.piece_ := rfl
  have hsz : (send_request r c).1.size_ =
      if r.piece_ = c.pnum_ - 1 then
        min BLOCK_SIZE ((c.lplen_ + U32 - c.progress_.getD r.piece_ 0) % U32)
      else BLOCK_SIZE := by
    simp only [send_request, hlast]
  have hle := hb r.piece_ hp
  have hnc : c.progress_.getD r.piece_ 0 ≠ spec_piece_length c r.piece_ := by
    intro e
    have ht := (complete_piece_iff r c h1 h2).mpr e
    rw [hc] at ht
    exact Bool.noConfusion ht
  have hnew : (c.progress_.set r.piece_
      ((c.progress_.getD r.piece_ 0 + (send_request r c).1.size_) % U32)).getD r.piece_ 0 =
      c.progress_.getD r.piece_ 0 +
        spec_block_length c r.piece_ (c.progress_.getD r.piece_ 0) ∧
      c.progress_.getD r.piece_ 0 +
        spec_block_length c r.piece_ (c.progress_.getD r.piece_ 0) ≤
        spec_piece_length c r.piece_ := by
    rw [nat_getD_set, if_pos ⟨rfl, by rw [hlen]; exact hp⟩, hsz]
    unfold spec_block_length
    unfold spec_piece_length at hle hnc ⊢
    generalize c.progress_.getD r.piece_ 0 = p at hle hnc hroom ⊢
    by_cases hlp : r.piece_ = c.pnum_ - 1
    · simp only [if_pos hlp] at hle hnc ⊢
      clear hroom hd e1 e2 e3 e4 hsz hb hc hlast hpc hlen hp
      simp only [BLOCK_SIZE, U32] at hll ⊢
      omega
    · simp only [if_neg hlp] at hle hnc ⊢
      rcases hroom with hr | hr
      · exact absurd hr hlp
      · clear hd e1 e2 e3 e4 hsz hb hc hlast hpc hlen hp
        simp only [BLOCK_SIZE, U32] at hpl hr ⊢
        omega
  have hbd : progress_bounded
      (download (send_request r c).1 c mi size rd_piece rd_begin rd_block rate).2.2 := by
    intro i hi
    rw [e2] at hi
    unfold spec_piece_length
    rw [e1, e2, e3, e4, hpc]
    by_cases hir : r.piece_ = i
    · subst hir
      rw [hnew.1]
      exact hnew.2
    · rw [nat_getD_set, if_neg (fun hh => hir hh.1)]
      exact hb i hi
  refine ⟨hbd, ?_, ?_, ?_, ?_⟩
  · rw [e1, hpc]
    exact hnew.1
  · intro j hj
    rw [e1, hpc, nat_getD_set, if_neg (fun hh => hj hh.1.symm)]
  · rcases validate_piece_effect sha r
      (download (send_request r c).1 c mi size rd_piece rd_begin rd_block rate).2.2 mi with
      ⟨-, e⟩ | ⟨-, v1, -, v2, v3, v4, -, -, -⟩
    · rw [e]
      exact hbd
    · intro i hi
      rw [v2] at hi
      unfold spec_piece_length
      rw [v1, v2, v3, v4, nat_getD_set]
      split
      · exact Nat.zero_le _
      · exact hbd i hi
  · intro r2
    exact complete_piece_iff r2 _ (by rw [e2]; exact h1) (by rw [e2]; exact h2)

/-- Witness of `C16_round_keeps_bound`: the first round of a leecher with piece length
32768 brings the progress of piece 0 from 0 to 16384. -/
theorem C16_round_keeps_bound_witness :
    1 ≤ c16_core_aligned.pnum_ ∧ c16_core_aligned.pnum_ < U32 ∧
    c16_core_aligned.plen_ < U32 ∧ c16_core_aligned.lplen_ < U32 ∧
    c16_core_aligned.progress_.length = c16_core_aligned.pnum_ ∧
    c2_receiver.piece_ < c16_core_aligned.pnum_ ∧ progress_bounded c16_core_aligned ∧
    complete_piece c2_receiver c16_core_aligned = false ∧
    c16_core_aligned.progress_.getD c2_receiver.piece_ 0 + BLOCK_SIZE ≤
      c16_core_aligned.plen_ ∧
    (download (send_request c2_receiver c16_core_aligned).1 c16_core_aligned
      c16_metainfo_aligned 16384 (some (wire_bytes 0)) (some (wire_bytes 0)) (some [1])
      1000).2.2.progress_ = [16384, 0] ∧
    progress_bounded
      (download (send_request c2_receiver c16_core_aligned).1 c16_core_aligned
        c16_metainfo_aligned 16384 (some (wire_bytes 0)) (some (wire_bytes 0)) (some [1])
        1000).2.2 :=
  have hb : progress_bounded c16_core_aligned := by
    intro i hi
    have hi2 : i < 2 := hi
    rcases i with _ | _ | i
    · decide
    · decide
    · omega
  have h := C16_round_keeps_bound c16_sha c16_core_aligned c2_receiver c16_metainfo_aligned
    16384 (some (wire_bytes 0)) (some (wire_bytes 0)) (some [1]) 1000 (by decide) (by decide)
    (by decide) (by decide) (by decide) (by decide) hb (by decide) (Or.inr (by decide))
    (by decide)
  ⟨by decide, by decide, by decide, by decide, by decide, by decide, hb, by decide,
    by decide, by decide, h.1⟩

theorem mesg_handle_sha (sha sha2 : List Nat → List Nat) (mi : metainfo) (c : core)
    (rmap : List receiver) (k : Nat) (inp : mesg_in)
    (h : ∀ di, inp.rd_id = some di → (di.take ID_LEN).getD 0 0 ≠ PIECE) :
    mesg_handle sha mi c rmap k inp = mesg_handle sha2 mi c rmap k inp := by
  unfold mesg_handle
  cases rmap[k]? with
  | none => rfl
  | some r =>
    simp only
    by_cases h1 : inp.select_ret = -1
    · rw [if_pos h1, if_pos h1]
    rw [if_neg h1, if_neg h1]
    by_cases h2 : inp.select_ret = 0
    · rw [if_pos h2, if_pos h2]
    rw [if_neg h2, if_neg h2]
    cases inp.rd_size with
    | none => rfl
    | some ds =>
      simp only
      by_cases h3 : (ds.take PF_LEN).length = 0
      · rw [if_pos h3, if_pos h3]
      rw [if_neg h3, if_neg h3]
      by_cases h4 : ntohl (u32_of_bytes (ds.take PF_LEN)) = KEEP_ALIVE
      · rw [if_pos h4, if_pos h4]
      rw [if_neg h4, if_neg h4]
      cases hdi : inp.rd_id with
      | none => rfl
      | some di =>
        simp only
        have hp := h di hdi
        by_cases h5 : (di.take ID_LEN).getD 0 0 = BIT_FIELD
        · rw [if_pos h5, if_pos h5]
        rw [if_neg h5, if_neg h5]
        by_cases h6 : (di.take ID_LEN).getD 0 0 = UNCHOKE
        · rw [if_pos h6, if_pos h6]
        rw [if_neg h6, if_neg h6]
        by_cases h7 : (di.take ID_LEN).getD 0 0 = CHOKE
        · rw [if_pos h7, if_pos h7]
        rw [if_neg h7, if_neg h7, if_neg hp, if_neg hp]

theorem run_turn_sha (sha sha2 : List Nat → List Nat) (mi : metainfo) (c : core)
    (rmap : List receiver) (k : Nat) (inp : mesg_in) (rnd_t : Nat)
    (h : ∀ di, inp.rd_id = some di → (di.take ID_LEN).getD 0 0 ≠ PIECE) :
    run_turn sha mi c rmap k inp rnd_t = run_turn sha2 mi c rmap k inp rnd_t := by
  unfold run_turn
  rw [mesg_handle_sha sha sha2 mi c rmap k inp h]

/-- C17 (refuted): three receivers were given piece 3. The first receives UNCHOKE, claims
the piece and requests its first block; the second receives UNCHOKE, finds the piece
claimed and sends NOT_INTERESTED; the second then receives CHOKE, which erases piece 3
from the requested-piece set although the first receiver holds the claim; the third
receives UNCHOKE, claims the piece as well and requests the same block: two receivers
fetch piece 3. -/
theorem C17_choke_releases_foreign_claim (sha : List Nat → List Nat) :
    (c17_turn1 sha).1.req_set = [3] ∧
    (c17_turn1 sha).2.2.1 =
      [.write 1 [0, 0, 0, 13, 6, 0, 0, 0, 3, 0, 0, 0, 0, 0, 0, 0, 2]] ∧
    spec_fetching (c17_turn1 sha).2.1 3 = 1 ∧
    (c17_turn2 sha).1.req_set = [3] ∧
    (c17_turn2 sha).2.2.1 = [.write 2 [0, 0, 0, 1, 3]] ∧
    spec_fetching (c17_turn2 sha).2.1 3 = 1 ∧
    (c17_turn3 sha).1.req_set = [] ∧ (c17_turn3 sha).2.2.1 = [] ∧
    (c17_turn4 sha).1.req_set = [3] ∧
    (c17_turn4 sha).2.2.1 =
      [.write 3 [0, 0, 0, 13, 6, 0, 0, 0, 3, 0, 0, 0, 0, 0, 0, 0, 2]] ∧
    spec_fetching (c17_turn4 sha).2.1 3 = 2 := by
  have hu : ∀ di, c17_unchoke.rd_id = some di → (di.take ID_LEN).getD 0 0 ≠ PIECE := by
    intro di hdi
    cases hdi
    decide
  have hc : ∀ di, c17_choke.rd_id = some di → (di.take ID_LEN).getD 0 0 ≠ PIECE := by
    intro di hdi
    cases hdi
    decide
  simp only [c17_turn1, c17_turn2, c17_turn3, c17_turn4,
    run_turn_sha sha (fun _ => []) c17_metainfo _ _ _ c17_unchoke 0 hu,
    run_turn_sha sha (fun _ => []) c17_metainfo _ _ _ c17_choke 0 hc]
  decide

/-- C18 (defect of the code): a leecher claimed piece 1 in the requested-piece set and
receives the PIECE message that completes it. The piece validates, `update_bf` sets its
bit and HAVE, NOT_INTERESTED and INTERESTED are written, yet piece 1 is still a member of
the requested-piece set: the PIECE branch never calls `remove_request_piece`. -/
theorem C18_completed_piece_stays_requested (sha : List Nat → List Nat)
    (hsha : (sha [7, 8]).take SHA_DIGEST_LENGTH = List.replicate 20 1) :
    mesg_handle sha t6_metainfo c18_core [c18_receiver] 0 c14_piece =
      (false, c18_core_after, [c18_receiver_after],
        [.write 5 [0, 0, 0, 5, 4, 0, 0, 0, 1], .write 5 [0, 0, 0, 1, 3],
          .write 5 [0, 0, 0, 1, 2]]) ∧
    test_bit c18_core_after.bitfield_ 1 = true ∧
    c18_core_after.req_set.contains 1 = true := by
  refine ⟨?_, by decide, by decide⟩
  have hc1 : (piece_download c18_receiver c18_core t6_metainfo c14_piece [0, 0, 0, 15]).1 =
      true := by decide
  have hc2 : complete_piece
      (piece_download c18_receiver c18_core t6_metainfo c14_piece [0, 0, 0, 15]).2.1
      (piece_download c18_receiver c18_core t6_metainfo c14_piece [0, 0, 0, 15]).2.2 =
      true := by decide
  have hv : validate_piece sha
      (piece_download c18_receiver c18_core t6_metainfo c14_piece [0, 0, 0, 15]).2.1
      (piece_download c18_receiver c18_core t6_metainfo c14_piece [0, 0, 0, 15]).2.2
      t6_metainfo =
      (true, (piece_download c18_receiver c18_core t6_metainfo c14_piece [0, 0, 0, 15]).2.2) := by
    apply validate_piece_match
    generalize hx : mem_read _ _ _ = x
    have hx2 : x = [7, 8] := by
      rw [← hx]
      decide
    rw [hx2, hsha]
    decide
  rw [mesg_handle_piece sha t6_metainfo c18_core [c18_receiver] 0 c14_piece c18_receiver
    [0, 0, 0, 15] [7] rfl (by decide) (by decide) rfl (by decide) (by decide) rfl (by decide)]
  simp only [hc1, hc2, hv, Bool.not_true, Bool.false_eq_true, if_false]
  decide

/-- Witness of `C18_completed_piece_stays_requested`: a digest function under which the
block `[7, 8]` has the expected piece hash. -/
theorem C18_completed_piece_stays_requested_witness :
    ((fun _ => List.replicate 20 1 : List Nat → List Nat) [7, 8]).take SHA_DIGEST_LENGTH =
      List.replicate 20 1 ∧
    (mesg_handle (fun _ => List.replicate 20 1) t6_metainfo c18_core [c18_receiver] 0
        c14_piece).2.1.req_set = [1] :=
  ⟨by decide,
    congrArg (fun x => x.2.1.req_set)
      (C18_completed_piece_stays_requested (fun _ => List.replicate 20 1) (by decide)).1⟩

/-- C19 (defect of the code): a receiver that was given piece 3 receives UNCHOKE, claims
the piece and sends REQUEST `(3, 0, 2)`. While that request is outstanding a keep-alive
message arrives: `mesg_handle` leaves through the label that permits a request and the
loop of `run` sends REQUEST `(3, 0, 2)` a second time. A HAVE message in the same state
causes no request. -/
theorem C19_keep_alive_sends_second_request (sha : List Nat → List Nat) :
    (c19_turn1 sha).2.2.1 =
      [.write 1 [0, 0, 0, 13, 6, 0, 0, 0, 3, 0, 0, 0, 0, 0, 0, 0, 2]] ∧
    (c19_turn1 sha).1.progress_ = [0, 0, 0, 0] ∧
    (c19_turn_keep_alive sha).2.2.1 =
      [.write 1 [0, 0, 0, 13, 6, 0, 0, 0, 3, 0, 0, 0, 0, 0, 0, 0, 2]] ∧
    (c19_turn_keep_alive sha).1 = (c19_turn1 sha).1 ∧
    (c19_turn_keep_alive sha).2.1 = (c19_turn1 sha).2.1 ∧
    (c19_turn_keep_alive sha).2.2.2 = true ∧
    (mesg_handle sha c17_metainfo (c19_turn1 sha).1 (c19_turn1 sha).2.1 0
      c19_keep_alive).1 = true ∧
    (c19_turn_have sha).2.2.1 = [] := by
  have hu : ∀ di, c17_unchoke.rd_id = some di → (di.take ID_LEN).getD 0 0 ≠ PIECE := by
    intro di hdi
    cases hdi
    decide
  have hk : ∀ di, c19_keep_alive.rd_id = some di → (di.take ID_LEN).getD 0 0 ≠ PIECE := by
    intro di hdi
    cases hdi
  have hh : ∀ di, c19_have.rd_id = some di → (di.take ID_LEN).getD 0 0 ≠ PIECE := by
    intro di hdi
    cases hdi
    decide
  simp only [c19_turn1, c19_turn_keep_alive, c19_turn_have,
    run_turn_sha sha (fun _ => []) c17_metainfo _ _ _ c17_unchoke 0 hu,
    run_turn_sha sha (fun _ => []) c17_metainfo _ _ _ c19_keep_alive 0 hk,
    run_turn_sha sha (fun _ => []) c17_metainfo _ _ _ c19_have 0 hh,
    mesg_handle_sha sha (fun _ => []) c17_metainfo _ _ _ c19_keep_alive hk]
  decide

/-! ## Validation of a piece -/

theorem memset_getD_in (buff : List Nat) (off v n i d : Nat) (h1 : off ≤ i) (h2 : i < off + n)
    (h3 : off ≤ buff.length) : (memset buff off v n).getD i d = v := by
  unfold memset
  have hl : (buff.take off).length = off := by
    rw [List.length_take]
    omega
  rw [List.getD_eq_getElem?_getD, List.append_assoc, List.getElem?_append_right (by omega),
    List.getElem?_append_left (by rw [List.length_replicate]; omega),
    List.getElem?_replicate, if_pos (by omega)]
  rfl

theorem memset_getD_out (buff : List Nat) (off v n i d : Nat) (h : i < off ∨ off + n ≤ i)
    (h3 : off + n ≤ buff.length) : (memset buff off v n).getD i d = buff.getD i d := by
  unfold memset
  have hl : (buff.take off).length = off := by
    rw [List.length_take]
    omega
  rw [List.getD_eq_getElem?_getD, List.getD_eq_getElem?_getD, List.append_assoc]
  rcases h with h | h
  · rw [List.getElem?_append_left (by omega), List.getElem?_take_of_lt h]
  · rw [List.getElem?_append_right (by omega), List.getElem?_append_right
      (by rw [List.length_replicate]; omega), List.getElem?_drop, List.length_replicate, hl]
    congr 2
    omega

/-- The effect of a failed validation when the offset of the piece fits 32 bits: the bytes
of the piece are zero, every other byte of the file is unchanged, the progress of the
piece is 0, the bitfield and the requested set are unchanged and the next request is for
the first block of the piece. -/
theorem validate_piece_fail_no_wrap (sha : List Nat → List Nat) (r : receiver) (c : core)
    (mi : metainfo) (h1 : 1 ≤ c.pnum_) (h2 : c.pnum_ < U32)
    (hw : r.piece_ * c.plen_ < U32) (hp : r.piece_ < c.progress_.length)
    (hfit : r.piece_ * c.plen_ + spec_piece_length c r.piece_ ≤ c.file_.length)
    (hf : (validate_piece sha r c mi).1 = false) :
    (∀ i, r.piece_ * c.plen_ ≤ i → i < r.piece_ * c.plen_ + spec_piece_length c r.piece_ →
      (validate_piece sha r c mi).2.file_.getD i 0 = 0) ∧
    (∀ i, i < r.piece_ * c.plen_ ∨ r.piece_ * c.plen_ + spec_piece_length c r.piece_ ≤ i →
      (validate_piece sha r c mi).2.file_.getD i 0 = c.file_.getD i 0) ∧
    (validate_piece sha r c mi).2.progress_.getD r.piece_ 0 = 0 ∧
    (validate_piece sha r c mi).2.bitfield_ = c.bitfield_ ∧
    (validate_piece sha r c mi).2.req_set = c.req_set ∧
    (send_request r (validate_piece sha r c mi).2).2 =
      send_request_buff r.piece_ 0
        (if r.piece_ = c.pnum_ - 1 then min BLOCK_SIZE (c.lplen_ % U32) else BLOCK_SIZE) := by
  rcases validate_piece_effect sha r c mi with ⟨ht, -⟩ | ⟨-, e1, e2, e3, e4, e5, e6, -, e7⟩
  · rw [hf] at ht
    exact Bool.noConfusion ht
  · rw [last_index c.pnum_ h1 h2, Nat.mod_eq_of_lt hw] at e2
    have hpr : (validate_piece sha r c mi).2.progress_.getD r.piece_ 0 = 0 := by
      rw [e1, nat_getD_set, if_pos ⟨rfl, hp⟩]
    refine ⟨?_, ?_, hpr, e6, e7, ?_⟩
    · intro i hi1 hi2
      rw [e2]
      exact memset_getD_in _ _ _ _ _ _ hi1 hi2 (by omega)
    · intro i hi
      rw [e2]
      exact memset_getD_out _ _ _ _ _ _ hi hfit
    · simp only [send_request, hpr, e3, e5, last_index c.pnum_ h1 h2]
      have hz : (c.lplen_ + U32 - 0) % U32 = c.lplen_ % U32 := by
        rw [Nat.sub_zero, Nat.add_mod_right]
      rw [hz]

/-- C20 (defect of the code): piece 256 of a torrent with piece length 16777216 starts at
offset 4294967296 of the file. `validate_piece` computes the offset in 32 bits, where it
is 0: when the validation fails, the first 100 bytes of piece 0 are zeroed and the bytes
of piece 256 stay as they were, while `find_block` of the same receiver computes the
offset 4294967296. -/
theorem C20_validate_piece_offset_wraps (sha : List Nat → List Nat) (mi : metainfo)
    (hf : (validate_piece sha c20_receiver c20_core mi).1 = false) :
    receiver_find_block c20_metainfo c20_receiver 0 = 4294967296 ∧
    (∀ i, 4294967296 ≤ i → i < 4294967396 →
      (validate_piece sha c20_receiver c20_core mi).2.file_.getD i 0 = 1) ∧
    (∀ i, i < 100 → c20_core.file_.getD i 0 = 1 ∧
      (validate_piece sha c20_receiver c20_core mi).2.file_.getD i 0 = 0) ∧
    (validate_piece sha c20_receiver c20_core mi).2.progress_.getD 256 0 = 0 ∧
    (validate_piece sha c20_receiver c20_core mi).2.bitfield_ = c20_core.bitfield_ := by
  have hr : ∀ i, i < 4294967396 → c20_core.file_.getD i 0 = 1 := by
    intro i hi
    show (List.replicate 4294967396 1).getD i 0 = 1
    rw [List.getD_eq_getElem?_getD, List.getElem?_replicate, if_pos hi]
    rfl
  have hlen : c20_core.file_.length = 4294967396 := List.length_replicate _ _
  rcases validate_piece_effect sha c20_receiver c20_core mi with
    ⟨ht, -⟩ | ⟨-, e1, e2, -, -, -, e6, -, -⟩
  · rw [hf] at ht
    exact Bool.noConfusion ht
  · have ho : (c20_receiver.piece_ * c20_core.plen_) % U32 = 0 := by decide
    have hl : (if c20_receiver.piece_ = (c20_core.pnum_ + U32 - 1) % U32 then c20_core.lplen_
        else c20_core.plen_) = 100 := by decide
    rw [ho, hl] at e2
    refine ⟨by decide, ?_, ?_, ?_, e6⟩
    · intro i hi1 hi2
      rw [e2, memset_getD_out _ _ _ _ _ _ (Or.inr (by omega)) (by rw [hlen]; omega)]
      exact hr i hi2
    · intro i hi
      refine ⟨hr i (by omega), ?_⟩
      rw [e2]
      exact memset_getD_in _ _ _ _ _ _ (Nat.zero_le _) (by omega) (Nat.zero_le _)
    · rw [e1]
      show ((List.replicate 256 0 ++ [100]).set 256 0).getD 256 0 = 0
      have hpl : 256 < (List.replicate 256 0 ++ [100]).length := by
        rw [List.length_append, List.length_replicate, List.length_singleton]
        omega
      rw [nat_getD_set, if_pos ⟨rfl, hpl⟩]

/-- Witness of `C20_validate_piece_offset_wraps`: a digest function under which the
validation of piece 256 fails. -/
theorem C20_validate_piece_offset_wraps_witness :
    (validate_piece (fun _ => []) c20_receiver c20_core c20_metainfo).1 = false ∧
    (validate_piece (fun _ => []) c20_receiver c20_core c20_metainfo).2.file_.getD
      4294967296 0 = 1 ∧
    (validate_piece (fun _ => []) c20_receiver c20_core c20_metainfo).2.file_.getD 0 0 = 0 :=
  have hf : (validate_piece (fun _ => []) c20_receiver c20_core c20_metainfo).1 = false := by
    decide
  have h := C20_validate_piece_offset_wraps (fun _ => []) c20_metainfo hf
  ⟨hf, h.2.1 4294967296 (by decide) (by decide), (h.2.2.1 0 (by decide)).2⟩

/-- The PIECE message that completes piece 1 of the two-piece torrent, handled by the
receiver on socket 5 when the piece validates. -/
theorem mesg_handle_complete_piece (sha : List Nat → List Nat)
    (hsha : (sha [7, 8]).take SHA_DIGEST_LENGTH = List.replicate 20 1) :
    mesg_handle sha t6_metainfo c18_core [c18_receiver] 0 c14_piece =
      (false, c18_core_after, [c18_receiver_after],
        [.write 5 [0, 0, 0, 5, 4, 0, 0, 0, 1], .write 5 [0, 0, 0, 1, 3],
          .write 5 [0, 0, 0, 1, 2]]) := by
  have hc1 : (piece_download c18_receiver c18_core t6_metainfo c14_piece [0, 0, 0, 15]).1 =
      true := by decide
  have hc2 : complete_piece
      (piece_download c18_receiver c18_core t6_metainfo c14_piece [0, 0, 0, 15]).2.1
      (piece_download c18_receiver c18_core t6_metainfo c14_piece [0, 0, 0, 15]).2.2 =
      true := by decide
  have hv : validate_piece sha
      (piece_download c18_receiver c18_core t6_metainfo c14_piece [0, 0, 0, 15]).2.1
      (piece_download c18_receiver c18_core t6_metainfo c14_piece [0, 0, 0, 15]).2.2
      t6_metainfo =
      (true, (piece_download c18_receiver c18_core t6_metainfo c14_piece [0, 0, 0, 15]).2.2) := by
    apply validate_piece_match
    generalize hx : mem_read _ _ _ = x
    have hx2 : x = [7, 8] := by
      rw [← hx]
      decide
    rw [hx2, hsha]
    decide
  rw [mesg_handle_piece sha t6_metainfo c18_core [c18_receiver] 0 c14_piece c18_receiver
    [0, 0, 0, 15] [7] rfl (by decide) (by decide) rfl (by decide) (by decide) rfl (by decide)]
  simp only [hc1, hc2, hv, Bool.not_true, Bool.false_eq_true, if_false]
  decide

/-- C21 (defect of the code): the receiver on socket 5 completes piece 1 and the piece
validates, while two senders are registered on the sockets 7 and 8. `mesg_handle` calls
`send_have` with the receiver's own socket: HAVE 1 is written once, on socket 5, followed
by NOT_INTERESTED and INTERESTED on the same socket. `broadcast_have` would write HAVE 1 on
the sockets 7 and 8, but it is not called: neither write is among the events. -/
theorem C21_have_only_on_own_connection (sha : List Nat → List Nat)
    (hsha : (sha [7, 8]).take SHA_DIGEST_LENGTH = List.replicate 20 1) :
    (mesg_handle sha t6_metainfo c18_core [c18_receiver] 0 c14_piece).2.2.2 =
      send_have c18_receiver.sock_ 1 ++
        [.write 5 [0, 0, 0, 1, 3], .write 5 [0, 0, 0, 1, 2]] ∧
    send_have c18_receiver.sock_ 1 = [.write 5 [0, 0, 0, 5, 4, 0, 0, 0, 1]] ∧
    broadcast_have c21_smap c18_receiver =
      [.write 7 [0, 0, 0, 5, 4, 0, 0, 0, 1], .write 8 [0, 0, 0, 5, 4, 0, 0, 0, 1]] ∧
    (∀ ev, ev ∈ broadcast_have c21_smap c18_receiver →
      ev ∉ (mesg_handle sha t6_metainfo c18_core [c18_receiver] 0 c14_piece).2.2.2) ∧
    test_bit (mesg_handle sha t6_metainfo c18_core [c18_receiver] 0
      c14_piece).2.1.bitfield_ 1 = true := by
  rw [mesg_handle_complete_piece sha hsha]
  decide

/-- Witness of `C21_have_only_on_own_connection`: a digest function under which the block
`[7, 8]` has the expected piece hash. -/
theorem C21_have_only_on_own_connection_witness :
    ((fun _ => List.replicate 20 1 : List Nat → List Nat) [7, 8]).take SHA_DIGEST_LENGTH =
      List.replicate 20 1 ∧
    (mesg_handle (fun _ => List.replicate 20 1) t6_metainfo c18_core [c18_receiver] 0
      c14_piece).2.2.2 =
      send_have c18_receiver.sock_ 1 ++
        [.write 5 [0, 0, 0, 1, 3], .write 5 [0, 0, 0, 1, 2]] :=
  ⟨by decide,
    (C21_have_only_on_own_connection (fun _ => List.replicate 20 1) (by decide)).1⟩

/-! ## The unchoked set -/

/-- The regular unchoke that finds a peer to choke has no defined result: after the
senders 0 to 3 processed INTERESTED their peers form the unchoked set, none of them is
among the top three, which are peers of receivers, and the loop erases the first of them
under its own iterator. -/
theorem re_unchoke_erases_under_iterator :
    c22_engine_interested.unchoked_ = [.send 0, .send 1, .send 2, .send 3] ∧
    re_unchoke c22_engine_interested = .error .INVALID_ITERATOR :=
  ⟨by decide, rfl⟩

theorem getElem?_set_same {α : Type} (l : List α) (k : Nat) (a b : α) (h : l[k]? = some a) :
    (l.set k b)[k]? = some b := by
  have hk : k < l.length := by
    by_contra hc
    rw [List.getElem?_eq_none (Nat.le_of_not_lt hc)] at h
    exact Option.noConfusion h
  rw [List.getElem?_set]
  simp [hk]

theorem need_unchoke_full (e : engine) (k : Nat) (s : sender) (hs : e.smap_[k]? = some s)
    (hfull : RECIP_ ≤ e.unchoked_.length) : need_unchoke e k = (s.peer_.choking, e) := by
  have hnl : ¬ e.unchoked_.length < RECIP_ := Nat.not_lt.mpr hfull
  simp only [need_unchoke, hs, if_neg hnl]

/-- C23 (defect of the code): a sender whose peer is marked choking processes INTERESTED
while the unchoked set has four or more members. `need_unchoke` returns
`peer_->choking`, which is true, so `send_unchoke` is called: UNCHOKE is written although
the unchoked set is unchanged and the peer is still marked choking. -/
theorem C23_unchoke_sent_when_set_full (e : engine) (k : Nat) (s : sender)
    (hs : e.smap_[k]? = some s) (hfull : RECIP_ ≤ e.unchoked_.length)
    (hch : s.peer_.choking = true) :
    (req_handler_interested e k).2 = send_unchoke s ∧
    send_unchoke s = [.write s.sock_ [0, 0, 0, 1, 1]] ∧
    (req_handler_interested e k).1.unchoked_ = e.unchoked_ ∧
    peer_at (req_handler_interested e k).1 (.send k) =
      some { s.peer_ with interested := true } ∧
    ({ s.peer_ with interested := true } : peer).choking = true := by
  have hset := getElem?_set_same e.smap_ k s
    { s with peer_ := { s.peer_ with interested := true } } hs
  have hnu := need_unchoke_full
    { e with smap_ := e.smap_.set k { s with peer_ := { s.peer_ with interested := true } } }
    k { s with peer_ := { s.peer_ with interested := true } } hset hfull
  have hch2 : ({ s with peer_ := { s.peer_ with interested := true } } : sender).peer_.choking =
      true := hch
  rw [hch2] at hnu
  refine ⟨?_, ?_, ?_, ?_, hch⟩
  · simp only [req_handler_interested, hs, hnu, Bool.not_true, Bool.false_eq_true, if_false]
  · simp only [send_unchoke]
    congr 1
  · simp only [req_handler_interested, hs, hnu, Bool.not_true, Bool.false_eq_true, if_false]
  · simp only [req_handler_interested, hs, hnu, Bool.not_true, Bool.false_eq_true, if_false,
      peer_at, hset, Option.map_some']

/-- Witness of `C23_unchoke_sent_when_set_full`: the fifth sender of an engine whose
unchoked set holds the other four. -/
theorem C23_unchoke_sent_when_set_full_witness :
    c23_engine.smap_[4]? = some (c24_sender 5 6) ∧ RECIP_ ≤ c23_engine.unchoked_.length ∧
    (c24_sender 5 6).peer_.choking = true ∧
    (req_handler_interested c23_engine 4).2 = [.write 25 [0, 0, 0, 1, 1]] ∧
    (req_handler_interested c23_engine 4).1.unchoked_ =
      [.send 0, .send 1, .send 2, .send 3] :=
  have h := C23_unchoke_sent_when_set_full c23_engine 4 (c24_sender 5 6) (by decide)
    (by decide) (by decide)
  ⟨by decide, by decide, by decide, h.1.trans (by decide), h.2.2.1⟩

/-- C24 (defect of the code): five remote peers are connected through a receiver and a
sender each, all interested, with the rates 10, 9, 8, 7 and 6. `core::re_unchoke` ranks
the peer objects of the receivers, marks those of the receivers 0, 1 and 2 unchoked and
puts them into the unchoked set, and writes UNCHOKE on the sockets 21, 22 and 23 of the
senders with the same ids. The peer object of every sender is still marked choking and no
sender's peer is a member of the unchoked set, so the sender of the first peer answers
its next REQUEST with the block followed by CHOKE. When the first remote peer has unchoked
the client before, its receiver's peer object is not marked choking and `re_unchoke`
skips it: it gets no UNCHOKE and is not in the unchoked set. -/
theorem C24_re_unchoke_marks_receiver_peers :
    (re_unchoke c24_engine).toOption =
      some (c24_engine_after,
        [.write 21 [0, 0, 0, 1, 1], .write 22 [0, 0, 0, 1, 1], .write 23 [0, 0, 0, 1, 1]]) ∧
    c24_engine_after.unchoked_ = [.recv 0, .recv 1, .recv 2] ∧
    c24_engine_after.smap_.map (fun s => (s.peer_.rate, s.peer_.choking)) =
      [(10, true), (9, true), (8, true), (7, true), (6, true)] ∧
    c24_engine_after.rmap_.map (fun r => (r.peer_.rate, r.peer_.choking)) =
      [(10, false), (9, false), (8, false), (7, true), (6, true)] ∧
    (∀ k, peer_ref.send k ∉ c24_engine_after.unchoked_) ∧
    (req_handler_request (c24_sender 1 10) c24_engine_after.core_ c17_metainfo
      [6, 0, 0, 0, 0, 0, 0, 0, 0, 0, 0, 0, 2] 10).2.2 =
      [.write 21 [0, 0, 0, 15, 7, 0, 0, 0, 0, 0, 0, 0, 0, 0, 0], .write 21 [0, 0, 0, 1, 0]] ∧
    (re_unchoke c24_engine_unchoked_by_peer).toOption.map (fun x => (x.1.unchoked_, x.2)) =
      some ([.recv 1, .recv 2], [.write 22 [0, 0, 0, 1, 1], .write 23 [0, 0, 0, 1, 1]]) := by
  refine ⟨by decide, by decide, by decide, by decide, ?_, by decide, by decide⟩
  intro k hk
  have h3 : c24_engine_after.unchoked_ = [.recv 0, .recv 1, .recv 2] := by decide
  rw [h3] at hk
  simp at hk

theorem set_choking_core (e : engine) (p : peer_ref) (b : Bool) :
    (set_choking e p b).core_ = e.core_ := by
  cases p <;> rfl

theorem choke_loop_core (top l : List peer_ref) (e e1 : engine)
    (h : choke_loop top e l = .ok e1) : e1.core_ = e.core_ := by
  induction l with
  | nil =>
    simp only [choke_loop] at h
    cases h
    rfl
  | cons p l ih =>
    simp only [choke_loop] at h
    split at h
    · exact Except.noConfusion h
    · exact ih h

theorem unchoke_step_core (x : engine × List Event) (p : peer_ref) :
    (unchoke_step x p).1.core_ = x.1.core_ := by
  have h0 : (if x.1.opp_ = some p then { x.1 with opp_ := none } else x.1).core_ =
      x.1.core_ := by
    split <;> rfl
  unfold unchoke_step
  simp only
  split
  · exact h0
  · split
    · exact h0
    · split
      · exact (set_choking_core _ p false).trans h0
      · exact (set_choking_core _ p false).trans h0

theorem unchoke_loop_core (l : List peer_ref) (x : engine × List Event) :
    (l.foldl unchoke_step x).1.core_ = x.1.core_ := by
  induction l generalizing x with
  | nil => rfl
  | cons p l ih => rw [List.foldl_cons, ih, unchoke_step_core]

theorem re_unchoke_core (e : engine) (x : engine × List Event) (h : re_unchoke e = .ok x) :
    x.1.core_ = e.core_ := by
  unfold re_unchoke at h
  split at h
  · cases h
    rfl
  · simp only at h
    split at h
    · exact Except.noConfusion h
    · split at h
      · exact Except.noConfusion h
      · rename_i e1 hck
        cases h
        rw [unchoke_loop_core]
        exact choke_loop_core _ _ _ _ hck

/-- C25 (defect of the code): whenever the accumulated time is not 0 after the tick was
added, `!this->actime_` is 0 and so is its remainder by 30: `core::timeout` performs the
regular unchoke only, does not call `core::op_unchoke` and does not reset the accumulated
time. Starting from 0 this is so on the third tick, where the time reaches 30, and on
every other tick before the counter wraps. -/
theorem C25_timeout_skips_optimistic_unchoke (e : engine) (rnd : Nat)
    (h : wrap_int (e.core_.actime_ + TO_UNIT_) ≠ 0) :
    timeout e rnd =
      re_unchoke { e with core_ :=
        { e.core_ with actime_ := wrap_int (e.core_.actime_ + TO_UNIT_) } } ∧
    ∀ x, timeout e rnd = .ok x →
      x.1.core_.actime_ = wrap_int (e.core_.actime_ + TO_UNIT_) := by
  have heq : timeout e rnd =
      re_unchoke { e with core_ :=
        { e.core_ with actime_ := wrap_int (e.core_.actime_ + TO_UNIT_) } } := by
    unfold timeout
    simp only
    cases hr : re_unchoke { e with core_ :=
        { e.core_ with actime_ := wrap_int (e.core_.actime_ + TO_UNIT_) } } with
    | error f => rfl
    | ok x =>
      have hc := re_unchoke_core _ x hr
      have ha : x.1.core_.actime_ ≠ 0 := by
        rw [hc]
        exact h
      simp only [if_neg ha]
      have hz : ¬ (Int.tmod 0 OU_PERD_ ≠ 0) := by decide
      rw [if_neg hz]
  refine ⟨heq, ?_⟩
  intro x hx
  rw [heq] at hx
  rw [re_unchoke_core _ x hx]

/-- Witness of `C25_timeout_skips_optimistic_unchoke`: the third tick of the engine of the
five remote peers, started at accumulated time 0. The time goes from 20 to 30 and stays
there, nothing is written, although `op_unchoke` would unchoke the peer of a sender. -/
theorem C25_timeout_skips_optimistic_unchoke_witness :
    (c25_tick (timeout c24_engine 0)).toOption = some (c25_engine2, []) ∧
    c24_engine.core_.actime_ = 0 ∧
    wrap_int (c25_engine2.core_.actime_ + TO_UNIT_) ≠ 0 ∧
    (timeout c25_engine2 0).toOption =
      some ({ c25_engine2 with core_ := { c25_engine2.core_ with actime_ := 30 } }, []) ∧
    (op_unchoke { c25_engine2 with core_ := { c25_engine2.core_ with actime_ := 30 } }
      0).toOption.map (fun x => x.2) = some [.write 21 [0, 0, 0, 1, 1]] :=
  ⟨by decide, by decide, by decide,
    (congrArg Except.toOption
      (C25_timeout_skips_optimistic_unchoke c25_engine2 0 (by decide)).1).trans (by decide),
    by decide⟩

/-! ## The info hash -/

theorem mem_read_to_end (mem : List Nat) (off : Nat) :
    mem_read mem off (mem.length - off) = mem.drop off := by
  apply List.ext_getElem
  · simp [mem_read]
  · intro i h1 h2
    simp only [List.length_drop] at h2
    simp [mem_read, List.getD_eq_getElem?_getD, List.getElem?_eq_getElem (by omega : off + i < mem.length)]

/-- C26 (defect of the code): the length that `_hash_info` passes to `SHA1` is the file
size less the offset of the info dictionary, so the range starts at the opening `d` of
the dictionary and runs to the end of the file: it holds every byte that follows the
dictionary, at least the closing `e` of the top-level dictionary. -/
theorem C26_hash_range_runs_to_end_of_file (meta_str : List Nat) (pos : Nat)
    (h : strstr meta_str INFO = some pos) (hle : pos + EXTRA_LEN ≤ meta_str.length)
    (hsz : meta_str.length < 2 ^ 64) :
    _hash_info_range meta_str meta_str.length = some (meta_str.drop (pos + EXTRA_LEN)) := by
  have hlen : (meta_str.length + 2 ^ 64 - (pos + EXTRA_LEN)) % 2 ^ 64 =
      meta_str.length - (pos + EXTRA_LEN) := by
    omega
  simp only [_hash_info_range, h, hlen, mem_read_to_end]

/-- Witness of `C26_hash_range_runs_to_end_of_file`: for the bencoded metainfo of the
single-piece torrent the range is the bencoded info dictionary followed by the closing
`e` of the top-level dictionary; when the key `url-list` follows the info dictionary, the
range holds that entry as well. -/
theorem C26_hash_range_runs_to_end_of_file_witness :
    strstr (spec_bencode e1_tree) INFO = some 17 ∧
    17 + EXTRA_LEN ≤ (spec_bencode e1_tree).length ∧
    (spec_bencode e1_tree).length < 2 ^ 64 ∧
    _hash_info_range (spec_bencode e1_tree) (spec_bencode e1_tree).length =
      some (spec_bencode e1_info ++ [101]) ∧
    _hash_info_range (spec_bencode c26_tree) (spec_bencode c26_tree).length =
      some (spec_bencode e1_info ++ spec_bencode_dict [("url-list", .BE_STR [104])] ++
        [101]) :=
  ⟨by decide, by decide, by decide,
    (C26_hash_range_runs_to_end_of_file (spec_bencode e1_tree) 17 (by decide) (by decide)
      (by decide)).trans (by decide),
    by decide⟩

/-! ## The tracker id -/

/-- C27 (defect of the code): `be_node_parser` stores the `tracker id` of a response in
`mesg_.track_id`, but `compose_request` never reads it: the URL is the same for every
stored response. After a response with the tracker id `xyzzy` the next announce URL is
the one without tracker id and does not contain `xyzzy`. -/
theorem C27_tracker_id_not_echoed :
    (∀ (a : tracker_agent) (m : Message) (mi : metainfo) (target_exists : Bool),
      compose_request { a with mesg_ := m } mi target_exists =
        compose_request a mi target_exists) ∧
    (_receive c27_agent (some c27_response)).toOption = some c27_agent_after ∧
    c27_agent_after.mesg_.track_id = c27_tracker_id ∧
    compose_request c27_agent_after t6_metainfo false =
      literal ("http://t/a?info_hash=%AA&peer_id=-UR1010-&port=6881" ++
        "&uploaded=0&downloaded=0&left=6&compact=1") ∧
    compose_request c27_agent_after t6_metainfo false =
      compose_request c27_agent t6_metainfo false ∧
    spec_carries (compose_request c27_agent_after t6_metainfo false) c27_tracker_id = false ∧
    spec_carries (compose_request c27_agent_after t6_metainfo false) (literal "compact") =
      true := by
  refine ⟨fun a m mi target_exists => rfl, by decide, by decide, by decide, by decide,
    by decide, by decide⟩

/-! ## The lock order -/

theorem rarest_first_locks_order (c : core) :
    spec_respects_order [] (rarest_first_locks c) = true := by
  unfold rarest_first_locks
  split
  · rfl
  · split <;> rfl

theorem receiver_terminate_rwlocks_order (c : core) :
    spec_respects_order [] (rwlock_calls (receiver_terminate_locks c)) = true := by
  unfold receiver_terminate_locks rarest_first_locks
  split
  · rfl
  · split <;> rfl

/-- C28 (as stated, refuted): `receiver::terminate` takes the mutex `rslock_` with a guard
that lives to the end of the function and then calls `rarest_first`, which acquires the
rarity lock `pclock_` and the receiver-registry lock `rmlock_` while the mutex is held. -/
theorem C28_counterexample :
    ¬ (∀ (op : LockedOp) (e : engine), spec_respects_order [] (lock_trace op e) = true) := by
  intro h
  have h1 := h .receiver_terminate c24_engine
  revert h1
  decide

/-- C28 (amended): every function of the engine, the receivers and the senders other than
`receiver::terminate` acquires its locks in the order bitfield lock, rarity lock,
receiver-registry lock, sender-registry lock, then any mutex; `receiver::terminate`
acquires the reader-writer locks in that order among themselves, and its calls are those
of its own body, which respect the order, with the calls of `rarest_first` made while the
mutex `rslock_` is held. -/
theorem C28_lock_order_except_terminate (op : LockedOp) (e : engine)
    (h : op ≠ .receiver_terminate) :
    spec_respects_order [] (lock_trace op e) = true ∧
    spec_respects_order [] (rwlock_calls (lock_trace .receiver_terminate e)) = true ∧
    lock_trace .receiver_terminate e =
      [.acquire .pclock_, .acquire .rmlock_, .release .rmlock_, .release .pclock_,
        .acquire .rslock_] ++ rarest_first_locks (decrease_pcount e.core_) ++
        [.release .rslock_] ∧
    spec_respects_order []
      [.acquire .pclock_, .acquire .rmlock_, .release .rmlock_, .release .pclock_,
        .acquire .rslock_, .release .rslock_] = true := by
  refine ⟨?_, receiver_terminate_rwlocks_order e.core_, rfl, by decide⟩
  cases op with
  | receiver_terminate => exact absurd rfl h
  | rarest_first => exact rarest_first_locks_order e.core_
  | re_unchoke =>
    show spec_respects_order [] (re_unchoke_locks e) = true
    unfold re_unchoke_locks
    split
    · rfl
    · split <;> rfl
  | op_unchoke =>
    show spec_respects_order [] (op_unchoke_locks e) = true
    unfold op_unchoke_locks
    split
    · rfl
    · split <;> rfl
  | _ => rfl

/-- Witness of `C28_lock_order_except_terminate`: the regular unchoke of the engine of the
five remote peers acquires the receiver-registry lock, the sender-registry lock and then
the mutex of the unchoked set. -/
theorem C28_lock_order_except_terminate_witness :
    LockedOp.re_unchoke ≠ LockedOp.receiver_terminate ∧
    lock_trace .re_unchoke c24_engine =
      [.acquire .rmlock_, .acquire .smlock_, .release .rmlock_, .acquire .cklock_,
        .release .smlock_, .release .cklock_] ∧
    spec_respects_order [] (lock_trace .re_unchoke c24_engine) = true :=
  ⟨by decide, by decide,
    (C28_lock_order_except_terminate .re_unchoke c24_engine (by decide)).1⟩

/-- C29 (defect of the code): when the validation of a piece fails, `validate_piece` passes
`-length` to `update_dwn`, where `length` is an `unsigned int`: the downloaded counter
grows by `2 ^ 32 - length` instead of falling by `length`. For a piece of at least one
byte the counter is larger after the failure than before. -/
theorem C29_failed_validation_raises_downloaded (sha : List Nat → List Nat) (r : receiver)
    (c : core) (mi : metainfo) (hf : (validate_piece sha r c mi).1 = false) :
    (validate_piece sha r c mi).2.agent_.download_ =
      c.agent_.download_ +
        (((U32 - (if r.piece_ = (c.pnum_ + U32 - 1) % U32 then c.lplen_ else c.plen_)) % U32 :
          Nat) : Int) ∧
    (0 < (if r.piece_ = (c.pnum_ + U32 - 1) % U32 then c.lplen_ else c.plen_) →
      (if r.piece_ = (c.pnum_ + U32 - 1) % U32 then c.lplen_ else c.plen_) < U32 →
      (validate_piece sha r c mi).2.agent_.download_ =
        c.agent_.download_ + 4294967296 -
          ((if r.piece_ = (c.pnum_ + U32 - 1) % U32 then c.lplen_ else c.plen_ : Nat) : Int) ∧
      c.agent_.download_ < (validate_piece sha r c mi).2.agent_.download_) := by
  have heq : (validate_piece sha r c mi).2.agent_.download_ =
      c.agent_.download_ +
        (((U32 - (if r.piece_ = (c.pnum_ + U32 - 1) % U32 then c.lplen_ else c.plen_)) % U32 :
          Nat) : Int) := by
    by_cases hh : (sha (mem_read c.file_ ((r.piece_ * c.plen_) % U32)
        (if r.piece_ = (c.pnum_ + U32 - 1) % U32 then c.lplen_ else c.plen_))).take
          SHA_DIGEST_LENGTH = mi.piece_hash_.getD r.piece_ []
    · have ht : (validate_piece sha r c mi).1 = true := by
        simp only [validate_piece, if_pos hh]
      rw [hf] at ht
      exact Bool.noConfusion ht
    · simp only [validate_piece, if_neg hh, update_dwn, update_download]
  refine ⟨heq, ?_⟩
  generalize (if r.piece_ = (c.pnum_ + U32 - 1) % U32 then c.lplen_ else c.plen_) = len
    at heq ⊢
  intro h0 h1
  rw [heq]
  simp only [U32] at h1 ⊢
  omega

/-- Witness of `C29_failed_validation_raises_downloaded`: piece 1 of the two-piece torrent
was counted with 2 bytes; after its failed validation the counter is 4294967296. -/
theorem C29_failed_validation_raises_downloaded_witness :
    (validate_piece (fun _ => []) c29_downloaded.2.1 c29_downloaded.2.2 t6_metainfo).1 =
      false ∧
    c29_downloaded.2.2.agent_.download_ = 2 ∧
    (validate_piece (fun _ => []) c29_downloaded.2.1 c29_downloaded.2.2
      t6_metainfo).2.agent_.download_ = 4294967296 :=
  have hf : (validate_piece (fun _ => []) c29_downloaded.2.1 c29_downloaded.2.2
      t6_metainfo).1 = false := by decide
  have h := C29_failed_validation_raises_downloaded (fun _ => []) c29_downloaded.2.1
    c29_downloaded.2.2 t6_metainfo hf
  ⟨hf, by decide, h.1.trans (by decide)⟩

theorem top_three_loop_short (d : List Nat) (h : d.length < RE_UNCHK_) :
    top_three_loop d (List.range RE_UNCHK_) [] =
      .error (.READ_PAST_END d.length d.length) := by
  have hr : List.range RE_UNCHK_ = [0, 1, 2] := by decide
  rw [hr]
  match d, h with
  | [], _ => rfl
  | [_], _ => rfl
  | [_, _], _ => rfl
  | _ :: _ :: _ :: _, h =>
    simp only [List.length_cons, RE_UNCHK_] at h
    omega

/-- C30 (defect of the code): with more than four senders and fewer than three candidates,
the loop `top_three.insert(drates[i])` of `core::re_unchoke` runs over the indices 0, 1
and 2 and reads `drates` at the index that equals its size, past its end. -/
theorem C30_re_unchoke_reads_past_end (e : engine) (h1 : RECIP_ < e.smap_.length)
    (h2 : (re_unchoke_candidates e).length < RE_UNCHK_) :
    re_unchoke e = .error (.READ_PAST_END (re_unchoke_candidates e).length
      (re_unchoke_candidates e).length) := by
  have hn : ¬ e.smap_.length ≤ RECIP_ := Nat.not_le.mpr h1
  have hl : (sort_drates e (re_unchoke_candidates e)).length =
      (re_unchoke_candidates e).length := by
    simp only [sort_drates, List.length_insertionSort]
  have ht := top_three_loop_short (sort_drates e (re_unchoke_candidates e)) (by rw [hl]; exact h2)
  rw [hl] at ht
  simp only [re_unchoke, if_neg hn, ht]

/-- Witness of `C30_re_unchoke_reads_past_end`: a seeder with five senders has no
receiver, so there is no candidate and the index 0 is read from an empty vector. -/
theorem C30_re_unchoke_reads_past_end_witness :
    RECIP_ < c30_engine.smap_.length ∧ (re_unchoke_candidates c30_engine).length = 0 ∧
    re_unchoke c30_engine = .error (.READ_PAST_END 0 0) :=
  ⟨by decide, by decide,
    C30_re_unchoke_reads_past_end c30_engine (by decide) (by decide)⟩

end URTorrent
